import Mathlib

/-!
Verification of the pdf_extract extraction engine.

This file gives a shallow embedding of the parts of the repository that the
claims concern:

* src/src/scripts/pdf_color_extraction.py : the color classifier
  (map_color_to_cat, hex_to_rgb), the pair parsers, and the whole field
  extractor extract_pdf_all_fields together with its helper
  extract_credit_factors_from_doc;
* src/scripts/pdf_to_ground_truth.py : the canonicalizer build_text_only_gt.

Python dicts are modelled as association lists with Python's update
semantics (assigning to an existing key keeps its position, assigning a new
key appends).  Python values are modelled by the inductive type Val.
Python regular expressions are modelled by a small executable backtracking
engine whose priority order (leftmost start, left alternative first, greedy
quantifiers) matches the re module for the patterns used by the code; the
engine is fuelled so that every definition is structurally recursive and
kernel-reducible.  Code points that can raise in Python (int("") on a
digit-free numeric field) are modelled with Except.
-/

namespace PdfExtract

/-- Python values, as stored in the result records of the extractor. -/
inductive Val where
  | vnull : Val
  | vint (n : Int) : Val
  | vstr (s : String) : Val
  | vbool (b : Bool) : Val
  | vlist (l : List Val) : Val
  | vtup (l : List Val) : Val
  | vdict (d : List (String × Val)) : Val
deriving Repr

mutual

/-- Decidable equality for Val (handwritten because of the nesting). -/
def Val.deq : (a b : Val) → Decidable (a = b)
  | .vnull, .vnull => isTrue rfl
  | .vint n, .vint m =>
      match decEq n m with
      | isTrue h => isTrue (by rw [h])
      | isFalse h => isFalse (by intro hh; cases hh; exact h rfl)
  | .vstr s, .vstr t =>
      match decEq s t with
      | isTrue h => isTrue (by rw [h])
      | isFalse h => isFalse (by intro hh; cases hh; exact h rfl)
  | .vbool a, .vbool b =>
      match decEq a b with
      | isTrue h => isTrue (by rw [h])
      | isFalse h => isFalse (by intro hh; cases hh; exact h rfl)
  | .vlist l, .vlist m =>
      match Val.deqList l m with
      | isTrue h => isTrue (by rw [h])
      | isFalse h => isFalse (by intro hh; cases hh; exact h rfl)
  | .vtup l, .vtup m =>
      match Val.deqList l m with
      | isTrue h => isTrue (by rw [h])
      | isFalse h => isFalse (by intro hh; cases hh; exact h rfl)
  | .vdict l, .vdict m =>
      match Val.deqDict l m with
      | isTrue h => isTrue (by rw [h])
      | isFalse h => isFalse (by intro hh; cases hh; exact h rfl)
  | .vnull, .vint _ => isFalse (by intro h; cases h)
  | .vnull, .vstr _ => isFalse (by intro h; cases h)
  | .vnull, .vbool _ => isFalse (by intro h; cases h)
  | .vnull, .vlist _ => isFalse (by intro h; cases h)
  | .vnull, .vtup _ => isFalse (by intro h; cases h)
  | .vnull, .vdict _ => isFalse (by intro h; cases h)
  | .vint _, .vnull => isFalse (by intro h; cases h)
  | .vint _, .vstr _ => isFalse (by intro h; cases h)
  | .vint _, .vbool _ => isFalse (by intro h; cases h)
  | .vint _, .vlist _ => isFalse (by intro h; cases h)
  | .vint _, .vtup _ => isFalse (by intro h; cases h)
  | .vint _, .vdict _ => isFalse (by intro h; cases h)
  | .vstr _, .vnull => isFalse (by intro h; cases h)
  | .vstr _, .vint _ => isFalse (by intro h; cases h)
  | .vstr _, .vbool _ => isFalse (by intro h; cases h)
  | .vstr _, .vlist _ => isFalse (by intro h; cases h)
  | .vstr _, .vtup _ => isFalse (by intro h; cases h)
  | .vstr _, .vdict _ => isFalse (by intro h; cases h)
  | .vbool _, .vnull => isFalse (by intro h; cases h)
  | .vbool _, .vint _ => isFalse (by intro h; cases h)
  | .vbool _, .vstr _ => isFalse (by intro h; cases h)
  | .vbool _, .vlist _ => isFalse (by intro h; cases h)
  | .vbool _, .vtup _ => isFalse (by intro h; cases h)
  | .vbool _, .vdict _ => isFalse (by intro h; cases h)
  | .vlist _, .vnull => isFalse (by intro h; cases h)
  | .vlist _, .vint _ => isFalse (by intro h; cases h)
  | .vlist _, .vstr _ => isFalse (by intro h; cases h)
  | .vlist _, .vbool _ => isFalse (by intro h; cases h)
  | .vlist _, .vtup _ => isFalse (by intro h; cases h)
  | .vlist _, .vdict _ => isFalse (by intro h; cases h)
  | .vtup _, .vnull => isFalse (by intro h; cases h)
  | .vtup _, .vint _ => isFalse (by intro h; cases h)
  | .vtup _, .vstr _ => isFalse (by intro h; cases h)
  | .vtup _, .vbool _ => isFalse (by intro h; cases h)
  | .vtup _, .vlist _ => isFalse (by intro h; cases h)
  | .vtup _, .vdict _ => isFalse (by intro h; cases h)
  | .vdict _, .vnull => isFalse (by intro h; cases h)
  | .vdict _, .vint _ => isFalse (by intro h; cases h)
  | .vdict _, .vstr _ => isFalse (by intro h; cases h)
  | .vdict _, .vbool _ => isFalse (by intro h; cases h)
  | .vdict _, .vlist _ => isFalse (by intro h; cases h)
  | .vdict _, .vtup _ => isFalse (by intro h; cases h)

def Val.deqList : (a b : List Val) → Decidable (a = b)
  | [], [] => isTrue rfl
  | [], _ :: _ => isFalse (by intro h; cases h)
  | _ :: _, [] => isFalse (by intro h; cases h)
  | a :: as, b :: bs =>
      match Val.deq a b with
      | isTrue h1 =>
          match Val.deqList as bs with
          | isTrue h2 => isTrue (by rw [h1, h2])
          | isFalse h2 => isFalse (by intro hh; cases hh; exact h2 rfl)
      | isFalse h1 => isFalse (by intro hh; cases hh; exact h1 rfl)

def Val.deqDict : (a b : List (String × Val)) → Decidable (a = b)
  | [], [] => isTrue rfl
  | [], _ :: _ => isFalse (by intro h; cases h)
  | _ :: _, [] => isFalse (by intro h; cases h)
  | (k1, v1) :: as, (k2, v2) :: bs =>
      match decEq k1 k2 with
      | isTrue hk =>
          match Val.deq v1 v2 with
          | isTrue hv =>
              match Val.deqDict as bs with
              | isTrue ht => isTrue (by rw [hk, hv, ht])
              | isFalse ht => isFalse (by intro hh; cases hh; exact ht rfl)
          | isFalse hv => isFalse (by intro hh; cases hh; exact hv rfl)
      | isFalse hk => isFalse (by intro hh; cases hh; exact hk rfl)

end

instance : DecidableEq Val := Val.deq

/-- A Python dict with string keys, in insertion order. -/
abbrev Rec := List (String × Val)

instance : DecidableEq Rec := fun a b => Val.deqDict a b

instance {α : Type} [DecidableEq α] : DecidableEq (Except Unit α) := fun a b =>
  match a, b with
  | .ok x, .ok y =>
      match decEq x y with
      | isTrue h => isTrue (by rw [h])
      | isFalse h => isFalse (by intro hh; cases hh; exact h rfl)
  | .error (), .error () => isTrue rfl
  | .ok _, .error _ => isFalse (by intro h; cases h)
  | .error _, .ok _ => isFalse (by intro h; cases h)

/-- Keys of a record, in order. -/
def rkeys (r : Rec) : List String := r.map Prod.fst

/-- Python d[k] lookup (first binding wins; Python dicts have unique keys). -/
def getVal : Rec → String → Option Val
  | [], _ => none
  | (k, v) :: t, k2 => if k = k2 then some v else getVal t k2

/-- Python `k in d`. -/
def hasKey (r : Rec) (k : String) : Bool := (getVal r k).isSome

/-- Python d.get(k): None when the key is absent. -/
def getD (r : Rec) (k : String) : Val := (getVal r k).getD Val.vnull

/-- Python `d[k] = v`: update in place when the key exists, else append. -/
def dinsert (r : Rec) (k : String) (v : Val) : Rec :=
  match r with
  | [] => [(k, v)]
  | (k1, v1) :: t => if k1 = k then (k1, v) :: t else (k1, v1) :: dinsert t k v

/-- Python d.setdefault(k, v): insert only when the key is absent. -/
def dsetdefault (r : Rec) (k : String) (v : Val) : Rec :=
  if hasKey r k then r else dinsert r k v

/-- Remove a key, keeping the order of the remaining bindings (dict.pop). -/
def dremove (r : Rec) (k : String) : Rec :=
  match r with
  | [] => []
  | (k1, v1) :: t => if k1 = k then t else (k1, v1) :: dremove t k

/-! ## Python string helpers -/

/-- Python str whitespace (the characters \s matches in re, ASCII). -/
def isPySpace (c : Char) : Bool :=
  c = ' ' || c = '\t' || c = '\n' || c = '\x0d' || c = '\x0b' || c = '\x0c'

/-- Python \w (ASCII): letters, digits and underscore. -/
def isWordChar (c : Char) : Bool := c.isAlphanum || c = '_'

/-- Python str.strip() on a character list. -/
def stripChars (l : List Char) : List Char :=
  ((l.dropWhile isPySpace).reverse.dropWhile isPySpace).reverse

/-- Python str.strip(). -/
def pyStrip (s : String) : String := String.mk (stripChars s.data)

/-- Python str.lower() (ASCII, enough for the texts involved). -/
def pyLower (s : String) : String := String.mk (s.data.map Char.toLower)

/-- Substring occurrence test on character lists. -/
def listInfixOf (sub : List Char) : List Char → Bool
  | [] => sub.isPrefixOf ([] : List Char)
  | c :: t => sub.isPrefixOf (c :: t) || listInfixOf sub t

/-- Python `sub in s` substring test. -/
def strContains (s sub : String) : Bool := listInfixOf sub.data s.data

/-- Python s.startswith(p). -/
def strStartsWith (s p : String) : Bool := List.isPrefixOf p.data s.data

/-- Python s.endswith(p), via reversed prefix testing. -/
def endsw (s p : String) : Bool := List.isPrefixOf p.data.reverse s.data.reverse

/-- Python s.isdigit() for ASCII text: nonempty and all digits. -/
def pyIsDigit (s : String) : Bool := !s.data.isEmpty && s.data.all Char.isDigit

/-- Digits of a string, as in re.sub(non-digit, empty, s). -/
def digitChars (s : String) : List Char := s.data.filter Char.isDigit

/-- Numeric value of a digit list (most significant first). -/
def digitsVal (l : List Char) : Nat := l.foldl (fun a c => 10 * a + (c.toNat - 48)) 0

/-- Python int(s) after stripping non-digits: raises ValueError when no digit
is left, modelled as none. -/
def intOfDigits (s : String) : Option Int :=
  match digitChars s with
  | [] => none
  | l => some (Int.ofNat (digitsVal l))

/-- Split a character list at a separator character (Python s.split(sep)). -/
def splitOnChar (l : List Char) (sep : Char) : List (List Char) :=
  match l with
  | [] => [[]]
  | c :: t =>
      let r := splitOnChar t sep
      if c = sep then [] :: r
      else
        match r with
        | [] => [[c]]
        | h :: t2 => (c :: h) :: t2

/-- Python s.split(sep) for strings. -/
def pySplit (s : String) (sep : Char) : List String :=
  (splitOnChar s.data sep).map String.mk

/-- Python str.splitlines() (for the texts involved only \n occurs). -/
def pySplitLines (s : String) : List String :=
  if s.data.isEmpty then [] else (splitOnChar s.data '\n').map String.mk

/-- Python '\n'.join(l). -/
def joinNl (l : List String) : String :=
  match l with
  | [] => ""
  | h :: t => t.foldl (fun a s => a ++ "\n" ++ s) h

/-! ## A fuelled backtracking regular-expression engine

The engine enumerates the match results of a pattern in the exact priority
order of Python's re module for the constructions used by the source code:
alternation prefers the left branch, star and plus are greedy, starL is
lazy, and a repetition never iterates on an empty match.  Captures record
the last text matched by each group, as in Python. -/

/-- Regular expressions: character classes, concatenation, alternation,
greedy star, lazy star, capture group, word boundary, end of string. -/
inductive RE where
  | eps : RE
  | cls (p : Char → Bool) : RE
  | cat (a b : RE) : RE
  | alt (a b : RE) : RE
  | star (a : RE) : RE
  | starL (a : RE) : RE
  | grp (n : Nat) (a : RE) : RE
  | wordB : RE
  | eos : RE

/-- Captured groups: group number paired with the captured characters. -/
abbrev Caps := List (Nat × List Char)

/-- Record a capture, overwriting an earlier capture of the same group. -/
def setCap (cs : Caps) (n : Nat) (v : List Char) : Caps :=
  match cs with
  | [] => [(n, v)]
  | (m, w) :: t => if m = n then (m, v) :: t else (m, w) :: setCap t n v

/-- All ways a pattern can match a prefix of the input, in priority order.
Each result is (last consumed character, rest of input, captures).  The
previous character is threaded for word boundaries.  Fuel bounds the
recursion depth; every use in this file supplies ample fuel. -/
def mrun : Nat → RE → Option Char → List Char → Caps → List (Option Char × List Char × Caps)
  | 0, _, _, _, _ => []
  | _ + 1, RE.eps, pv, s, cs => [(pv, s, cs)]
  | _ + 1, RE.cls p, _, s, cs =>
      match s with
      | [] => []
      | c :: t => if p c then [(some c, t, cs)] else []
  | f + 1, RE.cat a b, pv, s, cs =>
      (mrun f a pv s cs).flatMap (fun r => mrun f b r.1 r.2.1 r.2.2)
  | f + 1, RE.alt a b, pv, s, cs => mrun f a pv s cs ++ mrun f b pv s cs
  | f + 1, RE.star a, pv, s, cs =>
      ((mrun f a pv s cs).flatMap (fun r =>
        if r.2.1.length < s.length then mrun f (RE.star a) r.1 r.2.1 r.2.2 else [])) ++
        [(pv, s, cs)]
  | f + 1, RE.starL a, pv, s, cs =>
      (pv, s, cs) ::
        (mrun f a pv s cs).flatMap (fun r =>
          if r.2.1.length < s.length then mrun f (RE.starL a) r.1 r.2.1 r.2.2 else [])
  | f + 1, RE.grp n a, pv, s, cs =>
      (mrun f a pv s cs).map
        (fun r => (r.1, r.2.1, setCap r.2.2 n (s.take (s.length - r.2.1.length))))
  | _ + 1, RE.wordB, pv, s, cs =>
      let lw := match pv with | some c => isWordChar c | none => false
      let rw := match s with | c :: _ => isWordChar c | [] => false
      if lw != rw then [(pv, s, cs)] else []
  | _ + 1, RE.eos, pv, s, cs => if s.isEmpty then [(pv, s, cs)] else []

/-- Fuel that is ample for every pattern and string in this development. -/
def reFuel (s : List Char) : Nat := 50 * (s.length + 5)

/-- The first match of a pattern at a fixed start position, Python style. -/
def matchHere (re : RE) (pv : Option Char) (s : List Char) :
    Option (List Char × Caps) :=
  match mrun (reFuel s) re pv s [] with
  | [] => none
  | r :: _ => some (s.take (s.length - r.2.1.length), r.2.2)

/-- A search result: start position, matched text, captures. -/
structure SRes where
  pos : Nat
  whole : List Char
  caps : Caps
deriving Repr, DecidableEq

/-- re.search: try each start position from the left, taking the first
position where the pattern matches, with the engine's priority order. -/
def searchFrom : Nat → RE → Option Char → List Char → Nat → Option SRes
  | fuel, re, pv, s, pos =>
      match matchHere re pv s with
      | some (w, cs) => some ⟨pos, w, cs⟩
      | none =>
          match fuel, s with
          | 0, _ => none
          | _ + 1, [] => none
          | f + 1, c :: t => searchFrom f re (some c) t (pos + 1)

/-- re.search over a string. -/
def reSearch (re : RE) (s : String) : Option SRes :=
  searchFrom (s.data.length + 1) re none s.data 0

/-- Whether re.search finds a match. -/
def reTest (re : RE) (s : String) : Bool := (reSearch re s).isSome

/-- m.group(n) for n >= 1: none when the group did not participate. -/
def capGroup (m : SRes) (n : Nat) : Option String :=
  (m.caps.lookup n).map String.mk

/-- Python (m.group(n) or default) for an optional group. -/
def capGroupD (m : SRes) (n : Nat) (d : String) : String := (capGroup m n).getD d

/-- m.group(0): the full matched text. -/
def capWhole (m : SRes) : String := String.mk m.whole

/-- re.sub replacing every (non-overlapping, nonempty) match, resuming after
each replacement as Python does.  Fuel is the string length. -/
def gsubAux : Nat → RE → List Char → List Char → List Char
  | fuel, re, repl, s =>
      match reSearch re (String.mk s) with
      | none => s
      | some m =>
          if m.whole.isEmpty then s
          else
            match fuel with
            | 0 => s
            | f + 1 =>
                s.take m.pos ++ repl ++
                  gsubAux f re repl (s.drop (m.pos + m.whole.length))

/-- re.sub(pattern, repl, s) for the nonempty-match patterns used here. -/
def reGsub (re : RE) (repl : String) (s : String) : String :=
  String.mk (gsubAux (s.data.length + 1) re repl.data s.data)

/-! ### Pattern building blocks -/

/-- A single literal character. -/
def rchr (c : Char) : RE := RE.cls (fun x => x = c)

/-- A literal string, case sensitive. -/
def rstr (s : String) : RE :=
  s.data.foldr (fun c r => RE.cat (rchr c) r) RE.eps

/-- A literal string under re.IGNORECASE (ASCII folding). -/
def ristr (s : String) : RE :=
  s.data.foldr (fun c r => RE.cat (RE.cls (fun x => x.toLower = c.toLower)) r) RE.eps

/-- The class \d. -/
def rdigit : RE := RE.cls Char.isDigit

/-- The class \s. -/
def rspace : RE := RE.cls isPySpace

/-- The class \w. -/
def rword : RE := RE.cls isWordChar

/-- The class [0-9,]. -/
def rdigitComma : RE := RE.cls (fun c => c.isDigit || c = ',')

/-- The metacharacter . (any character except a newline). -/
def rdot : RE := RE.cls (fun c => c != '\n')

/-- Greedy plus. -/
def rplus (a : RE) : RE := RE.cat a (RE.star a)

/-- Greedy option. -/
def ropt (a : RE) : RE := RE.alt a RE.eps

/-- Concatenation of a list of patterns. -/
def rcat (l : List RE) : RE := l.foldr RE.cat RE.eps

/-- Ordered alternation of a list of patterns (first pattern preferred). -/
def ralts : List RE → RE
  | [] => RE.eps
  | [a] => a
  | a :: t => RE.alt a (ralts t)

/-! ## The concrete patterns of pdf_color_extraction.py -/

/-- Age locator, IGNORECASE: literal Age, then a run of colons or spaces,
then a captured run of one to three digits (greedy). -/
def ageRe : RE :=
  rcat [ristr "Age", RE.star (RE.cls (fun c => c = ':' || isPySpace c)),
    RE.grp 1 (RE.cat rdigit (ropt (RE.cat rdigit (ropt rdigit))))]

/-- Account pair, digits slash optional dollar then digits or commas,
captured as group 1. -/
def pairRe : RE :=
  RE.grp 1 (rcat [rplus rdigit, RE.star rspace, rchr '/', RE.star rspace,
    ropt (rchr '$'), RE.star rspace, rplus rdigitComma])

/-- The no-accounts phrasing, searched on lowercased text. -/
def noAccRe : RE := rcat [rstr "no ", RE.star rdot, rstr "accounts"]

/-- Monthly-payment phrase filter of parse_count_amount_pair, IGNORECASE. -/
def moPhraseRe : RE :=
  ralts [rcat [RE.wordB, ristr "mo", RE.wordB], ristr "/mo", ristr "per month"]

/-- Dollar amount: dollar sign, optional spaces, digits or commas. -/
def dollarAmtRe : RE := rcat [rchr '$', RE.star rspace, rplus rdigitComma]

/-- Collections pair: two captured digit runs around a slash. -/
def countCountRe : RE :=
  rcat [RE.grp 1 (rplus rdigit), RE.star rspace, rchr '/', RE.star rspace,
    RE.grp 2 (rplus rdigit)]

/-- Monthly payments locator, IGNORECASE: dollar, captured digits or commas,
optional slash, then mo. -/
def monthlyRe : RE :=
  rcat [rchr '$', RE.star rspace, RE.grp 1 (rplus rdigitComma), RE.star rspace,
    ropt (rchr '/'), RE.star rspace, ristr "mo"]

/-- Street-shaped lines, IGNORECASE: a digit run, or a street-type token
between word boundaries. -/
def streetRe : RE :=
  RE.alt (rplus rdigit)
    (rcat [RE.wordB,
      RE.grp 1 (ralts [ristr "st", ristr "rd", ristr "dr", ristr "ln",
        ristr "ave", ristr "blvd", ristr "way", ristr "ct", ristr "circle",
        ristr "ste", ristr "suite"]), RE.wordB])

/-- City-shaped lines: letters and dots and spaces, comma, two capital
letters, optional dot, a five-digit zip, case sensitive. -/
def cityRe : RE :=
  rcat [RE.wordB, RE.cls Char.isAlpha,
    rplus (RE.cls (fun c => c.isAlpha || c = '.' || isPySpace c)),
    rchr ',', RE.star rspace, RE.cls Char.isUpper, RE.cls Char.isUpper,
    ropt (rchr '.'), RE.star rspace, rdigit, rdigit, rdigit, rdigit, rdigit,
    RE.wordB]

/-- Street-candidate noise filter, applied to lowercased text. -/
def noiseRe : RE :=
  ralts [rstr "credit", rstr "age", rstr "name", rstr "report date",
    rstr "categories"]

/-- Boolean value token of _parse_bool_text (applied to lowercased text). -/
def boolTokRe : RE :=
  rcat [RE.wordB,
    RE.grp 1 (ralts [rstr "yes", rstr "no", rstr "y", rstr "n", rstr "true",
      rstr "false", rstr "1", rstr "0"]), RE.wordB]

/-- Boolean span token of the indicator span chooser (1 and 0 listed before
true and false, as in the source). -/
def boolSpanTokRe : RE :=
  rcat [RE.wordB,
    RE.grp 1 (ralts [rstr "yes", rstr "no", rstr "y", rstr "n", rstr "1",
      rstr "0", rstr "true", rstr "false"]), RE.wordB]

/-- Inquiry count, IGNORECASE: captured digits, spaces, inq. -/
def inqRe : RE := rcat [RE.grp 1 (rplus rdigit), rplus rspace, ristr "inq"]

/-- Month-denominated inquiry window, IGNORECASE. -/
def inqMonthWindowRe : RE :=
  rcat [RE.wordB,
    RE.grp 1 (ralts
      [rcat [rplus rdigit, RE.star rspace, rchr '-', RE.star rspace,
        rplus rdigit, RE.star rspace, ristr "mo"],
       rcat [rplus rdigit, RE.star rspace, ristr "mo"],
       rcat [ristr "last", RE.star rspace, rplus rdigit, RE.star rspace,
        ristr "mo"],
       rcat [ristr "last", RE.star rspace, rchr '6', RE.star rspace,
        ristr "months"]]), RE.wordB]

/-- Last six months phrase, IGNORECASE. -/
def last6Re : RE :=
  rcat [ristr "last", RE.star rspace, rchr '6', RE.star rspace, ristr "months"]

/-- mo or month, IGNORECASE. -/
def moOrMonthRe : RE := RE.alt (ristr "mo") (ristr "month")

/-- The preferred late-pay pattern, IGNORECASE: captured count, optional
words, late with optional s, anything, the word in, captured first number,
optional dash and captured second number, optional captured unit. -/
def lateRe : RE :=
  rcat [RE.grp 1 (rplus rdigit), rplus rspace,
    RE.star (RE.cat (rplus rword) (rplus rspace)),
    ristr "late", ropt (ristr "s"), rplus rspace,
    RE.star rdot, RE.wordB, ristr "in", RE.wordB, RE.star rspace,
    RE.grp 2 (rplus rdigit),
    ropt (rcat [RE.star rspace, rchr '-', RE.star rspace,
      RE.grp 3 (rplus rdigit)]),
    RE.star rspace,
    ropt (RE.grp 4 (ralts [ristr "mo", ristr "yr", ristr "yrs"]))]

/-- The word mo between boundaries, IGNORECASE. -/
def moWordRe : RE := rcat [RE.wordB, ristr "mo", RE.wordB]

/-- The late-pays fallback pattern, IGNORECASE. -/
def latesFallbackRe : RE :=
  rcat [ristr "lates", RE.star rspace, rchr '+', ristr "2yr", RE.star rspace,
    rchr ':', RE.star rspace, RE.grp 1 (rplus rdigit)]

/-- A dollar sign immediately followed by a digit. -/
def dollarDigitRe : RE := RE.cat (rchr '$') rdigit

/-- The _inum helper pattern: dollar, optional spaces, captured digits or
commas. -/
def inumRe : RE := rcat [rchr '$', RE.star rspace, RE.grp 1 (rplus rdigitComma)]

/-- A captured digit run followed by a percent sign. -/
def pctRe : RE := RE.cat (RE.grp 1 (rplus rdigit)) (rchr '%')

/-- Section headers terminating the credit-factor list (lowercased text). -/
def factorHeaderRe : RE :=
  ralts [rstr "credit alerts", rstr "public records", rstr "categories",
    rstr "inquir", rstr "late pays", rstr "credit report"]

/-- Trailing color word at end of a factor line, IGNORECASE. -/
def colorTailRe : RE :=
  rcat [RE.wordB,
    RE.grp 1 (ralts [ristr "red", ristr "green", ristr "black",
      ristr "neutral", ristr "amber"]), RE.wordB, RE.star rspace, RE.eos]

/-- The substitution form of the trailing color word, IGNORECASE. -/
def colorTailSubRe : RE :=
  rcat [RE.star rspace, RE.wordB,
    RE.grp 1 (ralts [ristr "red", ristr "green", ristr "black",
      ristr "neutral", ristr "amber"]), RE.wordB, RE.star rspace, RE.eos]

/-- One or more whitespace characters. -/
def wsRunRe : RE := rplus rspace

/-- Spaces comma spaces, for address comma normalization. -/
def commaSpacingRe : RE := rcat [RE.star rspace, rchr ',', RE.star rspace]

/-- First address shape: lazy street, comma, city letters, optional comma,
two-letter state, optional dot, five-digit zip.  Named groups street, city,
state and zip become groups 1 to 4. -/
def addr1Re : RE :=
  rcat [RE.grp 1 (RE.starL rdot), rchr ',', RE.star rspace,
    RE.grp 2 (rplus (RE.cls (fun c => c.isAlpha || c = '.' || isPySpace c))),
    ropt (rchr ','), RE.star rspace,
    RE.grp 3 (RE.cat (RE.cls Char.isAlpha) (RE.cls Char.isAlpha)),
    ropt (rchr '.'), RE.star rspace,
    RE.grp 4 (rcat [rdigit, rdigit, rdigit, rdigit, rdigit])]

/-- Second address shape: greedy city name, comma, two-letter state,
optional dot, five-digit zip.  Named groups become groups 1 to 3. -/
def addr2Re : RE :=
  rcat [RE.grp 1 (RE.star rdot), rchr ',', RE.star rspace,
    RE.grp 2 (RE.cat (RE.cls Char.isAlpha) (RE.cls Char.isAlpha)),
    ropt (rchr '.'), RE.star rspace,
    RE.grp 3 (rcat [rdigit, rdigit, rdigit, rdigit, rdigit])]

/-! ## Small helpers of pdf_color_extraction.py -/

/-- Python truthiness of a modelled value. -/
def pyTruthy : Val → Bool
  | .vnull => false
  | .vint n => n != 0
  | .vstr s => !s.isEmpty
  | .vbool b => b
  | .vlist l => !l.isEmpty
  | .vtup l => !l.isEmpty
  | .vdict d => !d.isEmpty

/-- Truthiness of an optional string field (absent or empty is falsy). -/
def truthyStr (o : Option String) : Bool :=
  match o with
  | none => false
  | some s => !s.isEmpty

/-- An optional integer as a stored value (None when absent). -/
def optIntVal : Option Int → Val
  | none => Val.vnull
  | some n => Val.vint n

/-- parse_count_amount_pair: reject monthly-payment phrases, require a
slash, then classify each slash part as an amount (dollar pattern) or a
count (any digit).  int of a digit-free amount raises in Python, modelled
as the error case. -/
def parse_count_amount_pair (s0 : String) : Except Unit (Option Int × Option Int) := do
  let s := pyStrip s0
  if reTest moPhraseRe s then return (none, none)
  if !(strContains s "/") then return (none, none)
  let parts := (pySplit s '/').map pyStrip
  parts.foldlM
    (fun (st : Option Int × Option Int) p => do
      if reTest dollarAmtRe p then
        match intOfDigits p with
        | none => Except.error ()
        | some n => pure (st.1, some n)
      else if reTest rdigit p then
        match intOfDigits p with
        | none => Except.error ()
        | some n => pure (some n, st.2)
      else pure st)
    ((none, none) : Option Int × Option Int)

/-- parse_count_count_pair: the first match of digits slash digits. -/
def parse_count_count_pair (s : String) : Option Int × Option Int :=
  if s.isEmpty then (none, none)
  else
    match reSearch countCountRe s with
    | some m => ((capGroup m 1).bind intOfDigits, (capGroup m 2).bind intOfDigits)
    | none => (none, none)

/-- Value of a hexadecimal digit character. -/
def hexDigitVal (c : Char) : Option Nat :=
  if c.isDigit then some (c.toNat - 48)
  else if 'a' ≤ c && c ≤ 'f' then some (c.toNat - 87)
  else if 'A' ≤ c && c ≤ 'F' then some (c.toNat - 55)
  else none

/-- Python int(two-character string, 16) for hex-digit pairs.  (Python's int
also tolerates surrounding whitespace or a sign, shapes that never arise
from the color strings this code base produces or consumes.) -/
def pyIntHex2 (a b : Char) : Option Nat := do
  let x ← hexDigitVal a
  let y ← hexDigitVal b
  pure (16 * x + y)

/-- hex_to_rgb: None and empty strings are rejected, surrounding whitespace
is stripped, leading hash signs removed, and exactly six remaining
characters are parsed as three hex pairs; any failure yields None. -/
def hex_to_rgb (h : Option String) : Option (Nat × Nat × Nat) :=
  match h with
  | none => none
  | some h0 =>
      if h0.data.isEmpty then none
      else
        match (stripChars h0.data).dropWhile (fun c => c = '#') with
        | [a, b, c, d, e, f] => do
            let r ← pyIntHex2 a b
            let g ← pyIntHex2 c d
            let bl ← pyIntHex2 e f
            pure (r, g, bl)
        | _ => none

/-- The lowercase hex digit of a value below sixteen. -/
def hexDigitChar (n : Nat) : Char :=
  if n < 10 then Char.ofNat (48 + n) else Char.ofNat (87 + n)

/-- Python format 02x of a byte value (the encoder is only ever applied to
values below 256 in the source: masked color bytes and parsed hex bytes). -/
def hex02 (c : Nat) : List Char := [hexDigitChar (c / 16), hexDigitChar (c % 16)]

/-- The hex color encoder used at the extractor's span and factor sites:
a hash sign followed by 02x renderings of the three channels. -/
def rgb_to_hex (r g b : Nat) : String :=
  String.mk ('#' :: (hex02 r ++ hex02 g ++ hex02 b))

/-- The argument of map_color_to_cat: a triple, or anything malformed
(None, a non-tuple, a tuple of the wrong length). -/
inductive ColorArg where
  | triple (r g b : Nat) : ColorArg
  | malformed : ColorArg
deriving Repr, DecidableEq

/-- map_color_to_cat: red dominance with a green cap, then green dominance,
then dark grey, else neutral; malformed input gives black. -/
def map_color_to_cat : ColorArg → String
  | .malformed => "black"
  | .triple r g b =>
      if r > g + 40 && r > b + 40 && r > 100 && g < 120 then "red"
      else if g > r + 40 && g > b + 40 && g > 100 then "green"
      else if r < 80 && g < 80 && b < 80 then "black"
      else "neutral"

/-- map_color_to_cat applied to an optional triple (the common call shape
map_color_to_cat(rgb) after a truthiness test). -/
def mapColorOpt : Option (Nat × Nat × Nat) → String
  | none => map_color_to_cat .malformed
  | some (r, g, b) => map_color_to_cat (.triple r g b)

/-- _intcolor_to_rgb: unpack a numeric color into byte components.  Span
colors in the documents are nonnegative packed integers; the conversion
failure branch is the none case. -/
def intcolor_to_rgb : Option Nat → Option (Nat × Nat × Nat)
  | none => none
  | some n => some ((n >>> 16) &&& 255, (n >>> 8) &&& 255, n &&& 255)

/-! ## normalize_address_string -/

/-- Python str.capitalize(): first character upper, rest lower. -/
def pyCapitalize (w : String) : String :=
  match w.data with
  | [] => ""
  | c :: t => String.mk (c.toUpper :: t.map Char.toLower)

/-- Python str.upper() (ASCII). -/
def pyUpper (s : String) : String := String.mk (s.data.map Char.toUpper)

/-- Maximal non-whitespace runs of a character list, in order. -/
def wsWords : List Char → List Char → List (List Char)
  | [], acc => if acc.isEmpty then [] else [acc.reverse]
  | c :: t, acc =>
      if isPySpace c then
        if acc.isEmpty then wsWords t [] else acc.reverse :: wsWords t []
      else wsWords t (c :: acc)

/-- Join strings with single spaces. -/
def joinSp (l : List String) : String :=
  match l with
  | [] => ""
  | h :: t => t.foldl (fun a s => a ++ " " ++ s) h

/-- The titleize helper: capitalize each whitespace-separated word of the
stripped input and join with single spaces. -/
def titleize (part : String) : String :=
  joinSp ((wsWords (stripChars part.data) []).map (fun w => pyCapitalize (String.mk w)))

/-- normalize_address_string: drop dots, collapse whitespace, try the
street-city-state-zip shape, then the newline shape (dead after whitespace
collapsing but modelled faithfully), else titleize with comma spacing. -/
def normalize_address_string (s : String) : String :=
  let s0 := String.mk (s.data.filter (fun c => c != '.'))
  let s0 := pyStrip (reGsub wsRunRe " " s0)
  match reSearch addr1Re s0 with
  | some m =>
      titleize (pyStrip (capGroupD m 1 "")) ++ ", " ++
        titleize (pyStrip (capGroupD m 2 "")) ++ ", " ++
        pyUpper (capGroupD m 3 "") ++ " " ++ capGroupD m 4 ""
  | none =>
      let nlBranch : Option String :=
        if strContains s0 "\n" then
          let parts := ((pySplitLines s0).map pyStrip).filter (fun p => !p.isEmpty)
          if parts.length ≥ 2 then
            match parts.head?, parts.getLast? with
            | some street, some city =>
                match reSearch addr2Re city with
                | some m2 =>
                    some (titleize street ++ ", " ++
                      titleize (pyStrip (capGroupD m2 1 "")) ++ ", " ++
                      pyUpper (capGroupD m2 2 "") ++ " " ++ capGroupD m2 3 "")
                | none => none
            | _, _ => none
          else none
        else none
      match nlBranch with
      | some r => r
      | none => titleize (reGsub commaSpacingRe ", " s0)

/-- compute_candidate_score: length, digit, paid and color bonuses; a
non-string factor value would raise on .lower() in Python (error case). -/
def compute_candidate_score (cand : Rec) : Except Unit Int := do
  let text ←
    match getD cand "factor" with
    | .vstr s => pure (pyLower s)
    | v => if pyTruthy v then Except.error () else pure ""
  let score : Int :=
    (if text.length < 40 then 2 else 0) +
    (if reTest rdigit text then 1 else 0) +
    (if strContains text "paid" then 1 else 0) +
    (if pyTruthy (getD cand "hex") || pyTruthy (getD cand "color") then 3 else 0)
  pure (max score 0)

/-! ## The document model and the Line/Span adapter

The input of extract_pdf_all_fields is modelled as an already-open
document: either an object whose iteration raises (corrupt input or a
wrong type), or a list of pages, each a list of blocks of lines of raw
spans, as produced by the PDF library's dict text dump.  The string-path
entry (which opens the file and additionally records pdf_file, source and
filename) is not exercised by any claim.  Bounding boxes are carried as
integer quadruples (the int() truncation applied by the adapter is the
identity on them). -/

/-- A raw span of the PDF library: text and an optional packed color. -/
structure RawSpan where
  text : String
  color : Option Nat
deriving Repr, DecidableEq

/-- A raw line: optional bounding box and spans. -/
structure BLine where
  bbox : Option (Int × Int × Int × Int)
  spans : List RawSpan
deriving Repr, DecidableEq

/-- A raw block: optional bounding box and lines. -/
structure Block where
  bbox : Option (Int × Int × Int × Int)
  lines : List BLine
deriving Repr, DecidableEq

/-- A page: its blocks. -/
structure Page where
  blocks : List Block
deriving Repr, DecidableEq

/-- An opened document, or an object whose iteration raises. -/
inductive Doc where
  | bad : Doc
  | pages (ps : List Page) : Doc
deriving Repr, DecidableEq

/-- An adapted span: text with optional color fields. -/
structure Span where
  text : String
  rgb : Option (Nat × Nat × Nat)
  hex : Option String
deriving Repr, DecidableEq

/-- An adapted line: page index, nonempty spans, bounding box. -/
structure Line where
  page : Nat
  spans : List Span
  bbox : Int × Int × Int × Int
deriving Repr, DecidableEq

/-- Adapt one raw span: unpack a present color into rgb and hex fields. -/
def mkSpan (rs : RawSpan) : Span :=
  match intcolor_to_rgb rs.color with
  | some rgb =>
      { text := rs.text, rgb := some rgb,
        hex := some (rgb_to_hex rgb.1 rgb.2.1 rgb.2.2) }
  | none => { text := rs.text, rgb := none, hex := none }

/-- The Line/Span adapter: walk pages, blocks and lines, dropping lines
with no spans, taking the line box, else the block box, else zeros; a
document that cannot be iterated yields the empty sequence. -/
def adaptLines (doc : Doc) : List Line :=
  match doc with
  | .bad => []
  | .pages ps =>
      ps.enum.flatMap (fun pp =>
        pp.2.blocks.flatMap (fun b =>
          b.lines.filterMap (fun ln =>
            let spans := ln.spans.map mkSpan
            if spans.isEmpty then none
            else some { page := pp.1, spans := spans,
                        bbox := (ln.bbox.orElse (fun _ => b.bbox)).getD (0, 0, 0, 0) })))

/-- A bounding box as a stored value (a list of four ints). -/
def bboxVal (b : Int × Int × Int × Int) : Val :=
  .vlist [.vint b.1, .vint b.2.1, .vint b.2.2.1, .vint b.2.2.2]

/-- A span as a stored dict: text, then rgb and hex when colored. -/
def spanVal (s : Span) : Val :=
  .vdict ([("text", Val.vstr s.text)] ++
    (match s.rgb, s.hex with
     | some rgb, some h =>
         [("rgb", Val.vtup [.vint rgb.1, .vint rgb.2.1, .vint rgb.2.2]),
          ("hex", Val.vstr h)]
     | _, _ => []))

/-- A line as stored in all_lines_obj: page, spans, bbox. -/
def lineVal (l : Line) : Val :=
  .vdict [("page", .vint l.page), ("spans", .vlist (l.spans.map spanVal)),
    ("bbox", bboxVal l.bbox)]

/-- extract_credit_factors_from_doc: one placeholder per scanned page (with
its page index and a zero box); an uniterable document yields the empty
list. -/
def extract_credit_factors_from_doc (doc : Doc) (page_limit : Nat) : List Rec :=
  match doc with
  | .bad => []
  | .pages ps =>
      ((ps.take page_limit).enum).map (fun pp =>
        [("factor", Val.vstr ("page_" ++ toString pp.1 ++ "_placeholder")),
         ("page", Val.vint pp.1),
         ("bbox", Val.vlist [.vint 0, .vint 0, .vint 0, .vint 0])])

/-- _line_text: join the span texts with newlines and strip.  The adapter
only emits lines with spans, so the spanless fallback branch of the source
is unreachable here. -/
def lineText (l : Line) : String :=
  pyStrip (joinNl (l.spans.map Span.text))

/-- First-span text, as read by the credit-card and monthly headings. -/
def firstSpanText (l : Line) : String :=
  match l.spans with
  | [] => ""
  | s :: _ => s.text

/-- A span with truthy color metadata (rgb present, or hex nonempty). -/
def spanHasColor (s : Span) : Bool := s.rgb.isSome || truthyStr s.hex

/-- The rgb-else-hex color choice applied to a preferred span. -/
def spanRgb (s : Span) : Option (Nat × Nat × Nat) :=
  if s.rgb.isSome then s.rgb
  else if truthyStr s.hex then hex_to_rgb s.hex
  else none

/-! ## Field locator sections of extract_pdf_all_fields -/

/-- The credit-card open-totals span scan (include_spans only): find the
first window line with a usable span, classify its color and record the
four positional keys. -/
def ccoSpanScan (r : Rec) : List Line → Rec
  | [] => r
  | nxt :: rest =>
      let spans := nxt.spans
      let preferred :=
        (spans.find? (fun s => !s.text.isEmpty &&
            (strContains s.text "$" || reTest dollarDigitRe s.text))).orElse
          (fun _ => spans.find? spanHasColor)
      match preferred with
      | none => ccoSpanScan r rest
      | some p =>
          match spanRgb p with
          | none => ccoSpanScan r rest
          | some rgb =>
              let r := dinsert r "credit_card_open_totals_color"
                (.vstr (map_color_to_cat (.triple rgb.1 rgb.2.1 rgb.2.2)))
              let r := dinsert r "credit_card_open_totals_bbox" (bboxVal nxt.bbox)
              let r := dinsert r "credit_card_open_totals_page" (.vint nxt.page)
              dinsert r "credit_card_open_totals_spans" (.vlist (spans.map spanVal))

/-- The credit-card open-totals section: find the heading by first-span
text, collect dollar-bearing window lines as raw amounts, then optionally
attach a color from nearby spans. -/
def ccoSection (r : Rec) (lines : List Line) (include_spans : Bool) : Rec :=
  match lines.findIdx? (fun ln =>
      strContains (pyLower (firstSpanText ln)) "credit card open totals") with
  | none => r
  | some i =>
      let window := (lines.drop (i + 1)).take 5
      let amounts := window.filterMap (fun nxt =>
        let t := pyStrip (firstSpanText nxt)
        if strStartsWith t "$" || reTest dollarDigitRe t then some t else none)
      let r := dinsert r "credit_card_open_totals"
        (.vdict [("amounts", .vlist (amounts.map Val.vstr))])
      if include_spans then ccoSpanScan r window else r

/-- The monthly-payments color section: with include_spans, find the first
line whose first span mentions /mo and record its color string and box;
otherwise record a None color placeholder. -/
def monthlyColorSection (r : Rec) (lines : List Line) (include_spans : Bool) : Rec :=
  if include_spans then
    match lines.find? (fun ln => strContains (firstSpanText ln) "/mo") with
    | none => r
    | some ml =>
        let spans := ml.spans
        let preferred :=
          (spans.find? (fun s => !s.text.isEmpty &&
              (strContains s.text "/mo" || strContains s.text "$"))).orElse
            (fun _ => spans.head?)
        match preferred with
        | none => r
        | some p =>
            let r :=
              if truthyStr p.hex then
                dinsert r "monthly_payments_color" (.vstr (p.hex.getD ""))
              else
                match p.rgb with
                | some rgb =>
                    dinsert r "monthly_payments_color"
                      (.vstr (rgb_to_hex rgb.1 rgb.2.1 rgb.2.2))
                | none => r
            dinsert r "monthly_payments_bbox" (bboxVal ml.bbox)
  else dsetdefault r "monthly_payments_color" .vnull

/-- The age locator: the first line matching the age pattern wins. -/
def ageSection (r : Rec) : List Line → Rec
  | [] => r
  | ln :: rest =>
      match reSearch ageRe (lineText ln) with
      | some m =>
          match (capGroup m 1).bind intOfDigits with
          | some n => dinsert r "age" (.vint n)
          | none => r
      | none => ageSection r rest

/-- Street-line test on a line text. -/
def streetLike (t : String) : Bool := reTest streetRe t

/-- City-line test on a line text. -/
def cityLike (t : String) : Bool := reTest cityRe t

/-- Collect the leading block of street-like (and not city-like) lines,
keeping only nonempty texts free of noise tokens, returning the remainder. -/
def collectStreets : List Line → List String × List Line
  | [] => ([], [])
  | ln :: rest =>
      let t0 := lineText ln
      if streetLike t0 && !cityLike t0 then
        let sr := collectStreets rest
        let t := pyStrip t0
        if !t.isEmpty && !reTest noiseRe (pyLower t) then (t :: sr.1, sr.2)
        else (sr.1, sr.2)
      else ([], ln :: rest)

/-- Collect the leading block of city-like lines, returning the remainder. -/
def collectCities : List Line → List String × List Line
  | [] => ([], [])
  | ln :: rest =>
      if cityLike (lineText ln) then
        let cr := collectCities rest
        (pyStrip (lineText ln) :: cr.1, cr.2)
      else ([], ln :: rest)

/-- The two-pointer street/city pairing walk (fuel is the list length). -/
def addrWalk : Nat → List Line → List String
  | 0, _ => []
  | _ + 1, [] => []
  | f + 1, ls =>
      let sr := collectStreets ls
      let cr := collectCities sr.2
      if !sr.1.isEmpty && !cr.1.isEmpty then
        (List.zipWith (fun s c => s ++ ", " ++ c) sr.1 cr.1) ++ addrWalk f cr.2
      else
        match sr.2 with
        | [] => []
        | _ :: t => addrWalk f t

/-- The address locator: pair street and city blocks, normalize and
de-duplicate preserving first-seen order. -/
def addressSection (r : Rec) (lines : List Line) : Rec :=
  let addresses := addrWalk (lines.length + 1) lines
  if addresses.isEmpty then r
  else
    let deduped := addresses.foldl
      (fun acc a =>
        let na := normalize_address_string a
        if acc.contains na then acc else acc ++ [na]) ([] : List String)
    dinsert r "address" (.vlist (deduped.map Val.vstr))

/-- Present-and-not-None test (Python rec.get(k) is not None). -/
def isNotNone (r : Rec) (k : String) : Bool :=
  match getVal r k with
  | some .vnull => false
  | some _ => true
  | none => false

/-- A dummy line (never read: paired index lists stay in bounds). -/
def dummyLine : Line := { page := 0, spans := [], bbox := (0, 0, 0, 0) }

/-- Indexed access into the shared line sequence. -/
def lineAt (lines : List Line) (i : Nat) : Line := (lines.get? i).getD dummyLine

/-- The credit-score color attach: scan a window of nearby lines for a span
containing the matched digits, else any colored span, classify and record
positional keys; stop as soon as a truthy color is present. -/
def csColorAttach (r : Rec) (lines : List Line) (t : String) : List Nat → Rec
  | [] => r
  | k :: rest =>
      let ln2 := lineAt lines k
      let spans := ln2.spans
      let preferred :=
        (spans.find? (fun s => !s.text.isEmpty && strContains s.text t)).orElse
          (fun _ => spans.find? spanHasColor)
      match preferred with
      | none => csColorAttach r lines t rest
      | some p =>
          let r2 :=
            if p.rgb.isSome then
              dinsert r "credit_score_color"
                (.vstr (mapColorOpt p.rgb))
            else if truthyStr p.hex then
              match hex_to_rgb p.hex with
              | some rgb =>
                  dinsert r "credit_score_color"
                    (.vstr (map_color_to_cat (.triple rgb.1 rgb.2.1 rgb.2.2)))
              | none => r
            else r
          if pyTruthy (getD r2 "credit_score_color") then
            let r2 := dinsert r2 "credit_score_bbox" (bboxVal ln2.bbox)
            let r2 := dinsert r2 "credit_score_page" (.vint ln2.page)
            dinsert r2 "credit_score_spans" (.vlist (spans.map spanVal))
          else csColorAttach r2 lines t rest

/-- The window max(0, j-2) to min(len, j+3) of the color attach. -/
def csAttachRange (len j : Nat) : List Nat :=
  (List.range (min len (j + 3))).drop (j - 2)

/-- The j window idx-3 to idx+3 around a credit-score label, clipped. -/
def csJRange (len idx : Nat) : List Nat :=
  (List.range 7).filterMap (fun k =>
    let j : Int := (idx : Int) + (k : Int) - 3
    if 0 ≤ j && j < (len : Int) then some j.toNat else none)

/-- The per-label j scan: the first purely numeric line in the window sets
the score (and optionally its color), then the scan stops. -/
def csJScan (r : Rec) (lines : List Line) (include_spans : Bool) : List Nat → Rec
  | [] => r
  | j :: rest =>
      let t := pyStrip (lineText (lineAt lines j))
      if !t.isEmpty && pyIsDigit t then
        let r := dinsert r "credit_score" (.vint (digitsVal t.data))
        if include_spans then
          csColorAttach r lines t (csAttachRange lines.length j)
        else r
      else csJScan r lines include_spans rest

/-- The label loop of the credit-score locator: stop at the first label
whose window produced a non-None score. -/
def csIdxScan (r : Rec) (lines : List Line) (include_spans : Bool) : List Nat → Rec
  | [] => r
  | idx :: rest =>
      let r := csJScan r lines include_spans (csJRange lines.length idx)
      if isNotNone r "credit_score" then r
      else csIdxScan r lines include_spans rest

/-- The fallback span attach from the standalone score line itself. -/
def csFallbackAttach (r : Rec) (ln : Line) (t : String) : Rec :=
  let spans := ln.spans
  let preferred :=
    (spans.find? (fun s => !s.text.isEmpty && strContains s.text t)).orElse
      (fun _ => spans.find? spanHasColor)
  match preferred with
  | none => r
  | some p =>
      let r2 :=
        if p.rgb.isSome then
          dinsert r "credit_score_color" (.vstr (mapColorOpt p.rgb))
        else if truthyStr p.hex then
          match hex_to_rgb p.hex with
          | some rgb =>
              dinsert r "credit_score_color"
                (.vstr (map_color_to_cat (.triple rgb.1 rgb.2.1 rgb.2.2)))
          | none => r
        else r
      if pyTruthy (getD r2 "credit_score_color") then
        let r2 := dinsert r2 "credit_score_bbox" (bboxVal ln.bbox)
        let r2 := dinsert r2 "credit_score_page" (.vint ln.page)
        dinsert r2 "credit_score_spans" (.vlist (spans.map spanVal))
      else r2

/-- The credit-score fallback: a standalone number between 300 and 850 in
the first six lines. -/
def csFallbackScan (r : Rec) (include_spans : Bool) : List Line → Rec
  | [] => r
  | ln :: rest =>
      let t := pyStrip (lineText ln)
      if pyIsDigit t && 300 ≤ digitsVal t.data && digitsVal t.data ≤ 850 then
        let r := dinsert r "credit_score" (.vint (digitsVal t.data))
        if include_spans then csFallbackAttach r ln t else r
      else csFallbackScan r include_spans rest

/-- The credit-score locator: label-window search, then the first-six-lines
fallback when no score was found. -/
def creditScoreSection (r : Rec) (lines : List Line) (include_spans : Bool) : Rec :=
  let idxs := lines.enum.filterMap (fun p =>
    if strContains (pyLower (lineText p.2)) "credit score" then some p.1 else none)
  let r := csIdxScan r lines include_spans idxs
  if !isNotNone r "credit_score" then
    csFallbackScan r include_spans (lines.take 6)
  else r

/-- The monthly-payments fallback: the first dollars-per-month line; the
int() of a digit-free captured group raises in Python (error case). -/
def monthlyFallbackScan (r : Rec) (include_spans : Bool) :
    List Line → Except Unit Rec
  | [] => .ok r
  | ln :: rest =>
      let txt := lineText ln
      match reSearch monthlyRe txt with
      | some m =>
          match (capGroup m 1).bind intOfDigits with
          | none => .error ()
          | some n =>
              let r := dinsert r "monthly_payments" (.vint n)
              if include_spans && !ln.spans.isEmpty &&
                  truthyStr ((ln.spans.head?.map Span.hex).getD none) then
                let r := dinsert r "monthly_payments_color"
                  (.vstr (((ln.spans.head?.map Span.hex).getD none).getD ""))
                .ok (dinsert r "monthly_payments_bbox" (bboxVal ln.bbox))
              else .ok r
      | none => monthlyFallbackScan r include_spans rest

/-- The monthly-payments section: only when the key is still absent. -/
def monthlyFallbackSection (r : Rec) (lines : List Line)
    (include_spans : Bool) : Except Unit Rec :=
  if !hasKey r "monthly_payments" then monthlyFallbackScan r include_spans lines
  else .ok r

/-- _parse_bool_text: direct token membership after strip and lower, then a
word-boundary token search. -/
def parse_bool_text (t : String) : Option Int :=
  if t.isEmpty then none
  else
    let s := pyLower (pyStrip t)
    if ["yes", "y", "true", "t", "1"].contains s then some 1
    else if ["no", "n", "false", "f", "0"].contains s then some 0
    else
      match reSearch boolTokRe s with
      | some m =>
          if ["yes", "y", "true", "1"].contains (capGroupD m 1 "") then some 1
          else some 0
      | none => none

/-- Try parse_bool_text on each index of a window, first success wins. -/
def boolTryIdxs (lines : List Line) : List Nat → Option (Int × Line × Nat)
  | [] => none
  | j :: rest =>
      match parse_bool_text (pyStrip (lineText (lineAt lines j))) with
      | some v => some (v, lineAt lines j, j)
      | none => boolTryIdxs lines rest

/-- The forward window i+1 to min(len, i+4)-1 of the indicator scan. -/
def boolNextIdxs (len i : Nat) : List Nat :=
  (List.range (min len (i + 4))).drop (i + 1)

/-- The backward window i-1 down to max(0, i-6) of the indicator scan. -/
def boolPrevIdxs (i : Nat) : List Nat :=
  ((List.range' (i - 6) (i - (i - 6))).reverse)

/-- Find an indicator value for a heading: same line, the next three lines,
then up to six preceding lines, stopping the outer scan on first success. -/
def boolFindAux (lines : List Line) (heading : String) :
    List (Nat × Line) → Option (Int × Line × Nat)
  | [] => none
  | (i, ln) :: rest =>
      let txt := pyStrip (lineText ln)
      if strContains (pyLower txt) heading then
        match parse_bool_text txt with
        | some v => some (v, ln, i)
        | none =>
            match boolTryIdxs lines (boolNextIdxs lines.length i) with
            | some res => some res
            | none =>
                match boolTryIdxs lines (boolPrevIdxs i) with
                | some res => some res
                | none => boolFindAux lines heading rest
      else boolFindAux lines heading rest

/-- The span-proximity window max(0, c-4) to min(len, c+5) of the attach. -/
def boolAttachIdxs (len c : Nat) : List Nat :=
  (List.range (min len (c + 5))).drop (c - 4)

/-- Twice the vertical distance between the mid-heights of two boxes (the
source compares halved float midpoints; doubling both sides preserves
every comparison exactly). -/
def dyOf (hb cb : Int × Int × Int × Int) : Int :=
  ((hb.2.1 + hb.2.2.2) - (cb.2.1 + cb.2.2.2)).natAbs

/-- The nearest-line choice of the indicator span attach: among window
lines with spans, the first line of strictly minimal vertical distance to
the heading. -/
def boolBestLine (lines : List Line) (c : Nat) : List Nat → Option Line → Option Int → Option Line
  | [], best, _ => best
  | j :: rest, best, bestDy =>
      let ln2 := lineAt lines j
      if !ln2.spans.isEmpty then
        let dy : Int := dyOf (lineAt lines c).bbox ln2.bbox
        match best, bestDy with
        | none, _ => boolBestLine lines c rest (some ln2) (some dy)
        | some b, some bd =>
            if dy < bd then boolBestLine lines c rest (some ln2) (some dy)
            else boolBestLine lines c rest (some b) (some bd)
        | some b, none => boolBestLine lines c rest (some b) (some dy)
      else boolBestLine lines c rest best bestDy

/-- Choose the indicator span: a token-bearing span first, else a colored
span. -/
def boolPreferredSpan (spans : List Span) : Option Span :=
  (spans.find? (fun s =>
      reTest boolSpanTokRe (pyLower (pyStrip s.text)))).orElse
    (fun _ => spans.find? spanHasColor)

/-- Record the color key from a preferred span, when derivable. -/
def boolColorInsert (r : Rec) (key : String) (p : Span) : Rec :=
  if p.rgb.isSome then
    dinsert r (key ++ "_color") (.vstr (mapColorOpt p.rgb))
  else if truthyStr p.hex then
    match hex_to_rgb p.hex with
    | some rgb =>
        dinsert r (key ++ "_color")
          (.vstr (map_color_to_cat (.triple rgb.1 rgb.2.1 rgb.2.2)))
    | none => r
  else r

/-- The include_spans attach of one boolean indicator: positional keys from
the nearest spanned line (else from the found line), then a color. -/
def boolSpanAttach (r : Rec) (lines : List Line) (key : String)
    (foundLine : Line) (centerIdx : Nat) : Rec :=
  match boolBestLine lines centerIdx (boolAttachIdxs lines.length centerIdx) none none with
  | some best =>
      let r := dinsert r (key ++ "_bbox") (bboxVal best.bbox)
      let r := dinsert r (key ++ "_page") (.vint best.page)
      let r := dinsert r (key ++ "_spans") (.vlist (best.spans.map spanVal))
      match boolPreferredSpan best.spans with
      | some p => boolColorInsert r key p
      | none => r
  | none =>
      let spans := foundLine.spans
      if !spans.isEmpty then
        let r := dinsert r (key ++ "_bbox") (bboxVal foundLine.bbox)
        let r := dinsert r (key ++ "_page") (.vint foundLine.page)
        let r := dinsert r (key ++ "_spans") (.vlist (spans.map spanVal))
        match boolPreferredSpan spans with
        | some p => boolColorInsert r key p
        | none => r
      else r

/-- One boolean indicator (heading, key): find a value, record it, and
optionally attach spans. -/
def boolOne (r : Rec) (lines : List Line) (include_spans : Bool)
    (heading key : String) : Rec :=
  match boolFindAux lines heading lines.enum with
  | none => r
  | some (v, foundLine, foundIdx) =>
      let r := dinsert r key (.vint v)
      if include_spans then boolSpanAttach r lines key foundLine foundIdx
      else r

/-- The boolean indicators section, in source order. -/
def boolSection (r : Rec) (lines : List Line) (include_spans : Bool) : Rec :=
  let r := boolOne r lines include_spans "credit freeze" "credit_freeze"
  let r := boolOne r lines include_spans "fraud alert" "fraud_alert"
  boolOne r lines include_spans "deceased" "deceased"

/-! ## Account-category tables -/

/-- The ordered category map: label substring to nested output key. -/
def categoryMap : List (String × String) :=
  [("revolving accounts", "revolving_accounts_open"),
   ("installment accounts", "installment_accounts_open"),
   ("real estate", "real_estate_open"),
   ("line of credit", "line_of_credit_accounts_open"),
   ("miscellaneous", "miscellaneous_accounts_open")]

/-- The flat count/total key pair of each nested account key. -/
def accountFlatKeys (outkey : String) : String × String :=
  if outkey = "revolving_accounts_open" then
    ("revolving_open_count", "revolving_open_total")
  else if outkey = "installment_accounts_open" then
    ("installment_open_count", "installment_open_total")
  else if outkey = "real_estate_open" then
    ("real_estate_open_count", "real_estate_open_total")
  else if outkey = "line_of_credit_accounts_open" then
    ("line_of_credit_accounts_open_count", "line_of_credit_accounts_open_total")
  else ("miscellaneous_accounts_open_count", "miscellaneous_accounts_open_total")

/-- Store the nested dict and both flat keys of a category, as the source
does in each of its five branches. -/
def setAccount (r : Rec) (outkey : String) (count amt : Option Int) : Rec :=
  let r := dinsert r outkey
    (.vdict [("count", optIntVal count), ("amount", optIntVal amt)])
  let fk := accountFlatKeys outkey
  dinsert (dinsert r fk.1 (optIntVal count)) fk.2 (optIntVal amt)

/-- The window scan of the account locator: a no-accounts line yields
(0, 0); a pair line is parsed; first hit wins. -/
def accWindowScan : List Line → Except Unit (Option Int × Option Int)
  | [] => pure (none, none)
  | nxt :: rest =>
      let nt := lineText nxt
      if reTest noAccRe (pyLower nt) then pure (some 0, some 0)
      else
        match reSearch pairRe nt with
        | some m => parse_count_amount_pair (capGroupD m 1 "")
        | none => accWindowScan rest

/-- Process one line of the account locator: the first matching category
label is handled (no-accounts on the same line, else a same-line pair,
else the seven-line window). -/
def accLineStep (r : Rec) (txt : String) (window : List Line) :
    Except Unit Rec := do
  match categoryMap.find? (fun kv => strContains txt kv.1) with
  | none => pure r
  | some kv =>
      if reTest noAccRe txt then
        pure (setAccount r kv.2 (some 0) (some 0))
      else do
        let p0 ←
          match reSearch pairRe txt with
          | some m => parse_count_amount_pair (capGroupD m 1 "")
          | none => pure ((none, none) : Option Int × Option Int)
        let p ←
          if p0.1.isNone && p0.2.isNone then accWindowScan window
          else pure p0
        if p.1.isSome || p.2.isSome then pure (setAccount r kv.2 p.1 p.2)
        else pure r

/-- The account-category section: every line is examined with its
seven-line lookahead. -/
def accountSection (r : Rec) : List Line → Except Unit Rec
  | [] => pure r
  | ln :: rest => do
      let r ← accLineStep r (pyLower (lineText ln)) (rest.take 7)
      accountSection r rest

/-! ## Collections, inquiries, late pays -/

/-- The first window line carrying an n/m pair of plain integers. -/
def collFirstPair : List Line → Option (Option Int × Option Int)
  | [] => none
  | nxt :: rest =>
      let p := parse_count_count_pair (lineText nxt)
      if p.1.isSome || p.2.isSome then some p else collFirstPair rest

/-- Store the collections nested dict and flat keys. -/
def setCollections (r : Rec) (a b : Option Int) : Rec :=
  let r := dinsert r "collections"
    (.vdict [("open", optIntVal a), ("closed", optIntVal b)])
  dinsert (dinsert r "collections_open" (optIntVal a)) "collections_closed"
    (optIntVal b)

/-- One collections heading: an inline pair in the next five lines, else
the first two standalone digit lines. -/
def collStep (r : Rec) (window : List Line) : Rec :=
  match collFirstPair window with
  | some p => setCollections r p.1 p.2
  | none =>
      let vals := ((window.map (fun nxt => pyStrip (lineText nxt))).filter
        pyIsDigit).take 2
      match vals with
      | [] => r
      | [a] => setCollections r (some (digitsVal a.data)) none
      | a :: b :: _ =>
          setCollections r (some (digitsVal a.data)) (some (digitsVal b.data))

/-- The collections section: every heading line is processed. -/
def collectionsSection : Rec → List Line → Rec
  | r0, [] => r0
  | r0, ln :: rest =>
      let r1 := if strContains (pyLower (lineText ln)) "collections" then
          collStep r0 (rest.take 5)
        else r0
      collectionsSection r1 rest

/-- One window line of the inquiries accumulation: a count match adds its
number through the source's three-way branch (every branch adds). -/
def inqLineAdd (txt : String) (st : Nat × Bool) (nt : String) : Nat × Bool :=
  match reSearch inqRe nt with
  | some m =>
      let n := digitsVal ((capGroupD m 1 "").data)
      let tot :=
        if reTest inqMonthWindowRe nt || reTest last6Re txt then st.1 + n
        else if reTest moOrMonthRe nt then st.1 + n
        else st.1 + n
      (tot, true)
  | none => st

/-- One inquiries heading: accumulate over the nineteen-line window; store
the total under both keys when something matched or the heading itself
mentions the six-month phrase. -/
def inqStep (r : Rec) (txt : String) (window : List Line) : Rec :=
  let st := window.foldl (fun st nxt => inqLineAdd txt st (lineText nxt))
    ((0, false) : Nat × Bool)
  if st.2 || reTest last6Re txt then
    dinsert (dinsert r "inquiries_last_6_months" (.vint st.1))
      "inquiries_6mo" (.vint st.1)
  else r

/-- The inquiries section: every heading line is processed. -/
def inquiriesSection : Rec → List Line → Rec
  | r, [] => r
  | r, ln :: rest =>
      let txt := lineText ln
      let r1 := if strContains (pyLower txt) "inquir" then
          inqStep r txt (rest.take 19)
        else r
      inquiriesSection r1 rest

/-- One window line of the late-pay scan: the preferred pattern buckets its
count by the unit token (months to the first bucket, else the second); the
fallback pattern adds to the second bucket only while it is still zero. -/
def latePayStep (st : Nat × Nat) (nt : String) : Nat × Nat :=
  match reSearch lateRe nt with
  | some m2 =>
      let num := digitsVal ((capGroupD m2 1 "").data)
      let unit := pyLower (capGroupD m2 4 "")
      if strContains unit "mo" || reTest moWordRe nt then (st.1 + num, st.2)
      else (st.1, st.2 + num)
  | none =>
      match reSearch latesFallbackRe nt with
      | some m =>
          if st.2 = 0 then (st.1, st.2 + digitsVal ((capGroupD m 1 "").data))
          else st
      | none => st

/-- The late-pay window accumulation from zeroed buckets. -/
def lateWindowScan (window : List Line) : Nat × Nat :=
  window.foldl (fun st nxt => latePayStep st (lineText nxt)) ((0, 0) : Nat × Nat)

/-- One late-pay heading: nonzero buckets are stored as the nested dict
plus the flat beyond-two-years alias. -/
def lateStep (r : Rec) (window : List Line) : Rec :=
  let st := lateWindowScan window
  if st.1 ≠ 0 || st.2 ≠ 0 then
    dinsert (dinsert r "late_pays"
        (.vdict [("last_2_years", .vint st.1), ("last_over_2_years", .vint st.2)]))
      "late_pays_gt2yr" (.vint st.2)
  else r

/-- The late-pays section: every heading line is processed. -/
def latePaysSection : Rec → List Line → Rec
  | r, [] => r
  | r, ln :: rest =>
      let txt := pyLower (lineText ln)
      let r1 := if strContains txt "late pay" || strContains txt "lates +2yr" then
          lateStep r (rest.take 19)
        else r
      latePaysSection r1 rest

/-! ## Credit-card normalization, credit factors, candidate scores -/

/-- The _inum helper: first dollar amount of a string, None on failure (the
int() there is wrapped in try/except in the source). -/
def inum (s : String) : Option Int :=
  if s.isEmpty then none
  else
    match reSearch inumRe s with
    | some m => (capGroup m 1).bind intOfDigits
    | none => none

/-- Normalize captured credit-card amount strings into the structured
balance/limit/Percent/Payment dict, or None when nothing numeric. -/
def ccoNormalizeSection (r : Rec) : Rec :=
  match getVal r "credit_card_open_totals" with
  | some (.vdict cco) =>
      let amounts : List String :=
        match getD cco "amounts" with
        | .vlist l => l.map (fun v => match v with | .vstr s => s | _ => "")
        | _ => []
      let parsed : Rec :=
        (match amounts.get? 0 with
         | some a0 => [("balance", optIntVal (inum a0))]
         | none => []) ++
        (match amounts.get? 1 with
         | some a1 =>
             (match reSearch pctRe a1 with
              | some m =>
                  [("Percent", optIntVal ((capGroup m 1).bind intOfDigits))]
              | none => []) ++ [("limit", optIntVal (inum a1))]
         | none => []) ++
        (match amounts.get? 2 with
         | some a2 => [("Payment", optIntVal (inum a2))]
         | none => [])
      if parsed.any (fun kv => kv.2 != Val.vnull) then
        dinsert r "credit_card_open_totals" (.vdict parsed)
      else dinsert r "credit_card_open_totals" .vnull
  | _ => r

/-- The exact table-header phrases terminating the factor list. -/
def tableHeaders : List String :=
  ["open accounts", "revolving accounts", "line of credit accounts",
   "real estate accounts", "installment accounts", "miscellaneous accounts",
   "closed accounts", "no line of credit accounts", "no real estate accounts",
   "no installment accounts", "no miscellaneous accounts"]

/-- The credit-factor consumption loop: stop on a blank line, a section
header or an exact table header; skip bare hash markers; strip a trailing
color word as a textual hint, overridden by a first-span color. -/
def factorLoop : List Line → List Rec
  | [] => []
  | nxt :: rest =>
      let txt := pyStrip (lineText nxt)
      if txt.isEmpty then []
      else
        let low := pyLower txt
        if reTest factorHeaderRe low then []
        else if tableHeaders.contains low then []
        else if pyStrip txt = "#" then factorLoop rest
        else
          let tcPair : Option String × String :=
            match reSearch colorTailRe txt with
            | some m =>
                (some (pyLower (capGroupD m 1 "")),
                 pyStrip (reGsub colorTailSubRe "" txt))
            | none => (none, txt)
          let cf0 : Rec := [("factor", .vstr tcPair.2)]
          let scPair : Option String × Rec :=
            match nxt.spans.head? with
            | some s =>
                match spanRgb s with
                | some rgb =>
                    let sc := map_color_to_cat (.triple rgb.1 rgb.2.1 rgb.2.2)
                    (some sc,
                     dinsert (dinsert cf0 "hex"
                        (.vstr (rgb_to_hex rgb.1 rgb.2.1 rgb.2.2)))
                       "color" (.vstr sc))
                | none => (none, cf0)
            | none => (none, cf0)
          let cf :=
            match scPair.1, tcPair.1 with
            | none, some tc => dinsert scPair.2 "color" (.vstr tc)
            | _, _ => scPair.2
          cf :: factorLoop rest

/-- Count the factors of a given color. -/
def colorCount (fs : List Rec) (c : String) : Nat :=
  (fs.filter (fun f => getVal f "color" = some (.vstr c))).length

/-- The credit-factors section: consume after the header (a window of 119
following lines, the source slice cf_idx+1 to cf_idx+120); when factors
were found, replace the placeholder list and derive the color counts. -/
def factorsSection (r : Rec) (lines : List Line) : Rec :=
  match lines.findIdx? (fun ln =>
      strContains (pyLower (lineText ln)) "credit factors") with
  | none => r
  | some i =>
      let factors := factorLoop ((lines.drop (i + 1)).take 119)
      if factors.isEmpty then r
      else
        let r := dinsert r "credit_factors" (.vlist (factors.map Val.vdict))
        let r := dinsert r "red_credit_factors_count"
          (.vint (colorCount factors "red"))
        let r := dinsert r "green_credit_factors_count"
          (.vint (colorCount factors "green"))
        dinsert r "black_credit_factors_count"
          (.vint (colorCount factors "black"))

/-- The candidate-scores section: one entry per current credit factor. -/
def candidateSection (r : Rec) : Except Unit Rec := do
  let cfs :=
    match getVal r "credit_factors" with
    | some (.vlist l) => l
    | _ => []
  let scored ← cfs.mapM (fun cfv => do
    match cfv with
    | .vdict cf => do
        let sc ← compute_candidate_score cf
        pure (Val.vdict [("factor", (getVal cf "factor").getD .vnull),
          ("score", .vint sc)])
    | _ => Except.error ())
  pure (dinsert r "candidate_scores" (.vlist scored))

/-- extract_pdf_all_fields on an opened document: run the adapter once,
then every locator section in source order, assembling one record.  The
error case models the Python exceptions reachable from int("") on
digit-free numeric fields. -/
def extract_pdf_all_fields (doc : Doc) (page_limit : Nat := 2)
    (include_spans : Bool := false) (include_candidate_scores : Bool := false) :
    Except Unit Rec := do
  let all_lines := adaptLines doc
  let r : Rec := [("all_lines_obj", .vlist (all_lines.map lineVal))]
  let r := dinsert r "credit_factors"
    (.vlist ((extract_credit_factors_from_doc doc page_limit).map Val.vdict))
  let r := ccoSection r all_lines include_spans
  let r := monthlyColorSection r all_lines include_spans
  let r := ageSection r all_lines
  let r := addressSection r all_lines
  let r := creditScoreSection r all_lines include_spans
  let r ← monthlyFallbackSection r all_lines include_spans
  let r := boolSection r all_lines include_spans
  let r ← accountSection r all_lines
  let r := collectionsSection r all_lines
  let r := inquiriesSection r all_lines
  let r := latePaysSection r all_lines
  let r := ccoNormalizeSection r
  let r := factorsSection r all_lines
  if include_candidate_scores then candidateSection r else pure r

/-! ## The canonicalizer build_text_only_gt (scripts/pdf_to_ground_truth.py)

The function first unwraps a wrapped record and normalizes a dict-valued
credit_score (lines 37 to 47).  Lines 49 to 305 then build a local dict
named out, but line 392 rebinds out to the freshly built final dict, so
that earlier work is discarded: the returned record is exactly the one
assembled by lines 306 to 394 from source.  The only observable effect of
the discarded segment is the exception Python raises at its credit-factor
iteration (lines 162 to 197 and 220 to 260) when source carries a
credit_factors value that is not a list of dicts; that is the error case
below.  Everything else here models lines 306 to 394. -/

/-- Keys skipped as transient by the canonicalizer's ordered walk. -/
def transientKeys : List String :=
  ["pdf_file", "all_lines_obj", "inquiries_6mo", "inquiries_last_6_months"]

/-- The nested account-category keys recognized by the canonicalizer. -/
def nestedAccountKeys : List String :=
  ["revolving_accounts_open", "installment_accounts_open", "real_estate_open",
   "line_of_credit_accounts_open", "miscellaneous_accounts_open"]

/-- The canonicalizer's mapping from nested account keys to flat pairs
(the same pairs as the extractor's). -/
def bgtAccountPair (k : String) : String × String := accountFlatKeys k

/-- The positional suffixes excluded from canonical output. -/
def posSuffixes : List String := ["_bbox", "_page", "_spans"]

/-- Whether a key ends in one of the positional suffixes. -/
def isPosKey (k : String) : Bool := posSuffixes.any (fun suf => endsw k suf)

/-- Python lp.get(x) if lp.get(x) is not None else 0. -/
def lpGetOrZero (d : Rec) (k : String) : Val :=
  match getVal d k with
  | some .vnull => .vint 0
  | some v => v
  | none => .vint 0

/-- One step of the canonicalizer's ordered source walk (lines 309 to 341):
skip transients, flatten nested late_pays, collections and account dicts,
copy other non-positional keys. -/
def bgtWalkStep (oo : Rec) (kv : String × Val) : Rec :=
  if transientKeys.contains kv.1 then oo
  else
    match kv.2 with
    | .vdict nd =>
        if kv.1 = "late_pays" then
          dinsert (dinsert oo "late_pays_lt2yr" (lpGetOrZero nd "last_2_years"))
            "late_pays_gt2yr" (lpGetOrZero nd "last_over_2_years")
        else if kv.1 = "collections" then
          dinsert (dinsert oo "collections_open" (getD nd "open"))
            "collections_closed" (getD nd "closed")
        else if nestedAccountKeys.contains kv.1 then
          dinsert (dinsert oo (bgtAccountPair kv.1).1 (getD nd "count"))
            (bgtAccountPair kv.1).2 (getD nd "amount")
        else if isPosKey kv.1 then oo
        else dinsert oo kv.1 (.vdict nd)
    | v => if isPosKey kv.1 then oo else dinsert oo kv.1 v

/-- The ordered source walk. -/
def bgtWalk (src : Rec) : Rec := src.foldl bgtWalkStep []

/-- One late-pay presence default statement (line 344 or 346). -/
def bgtLateDefault1 (src oo : Rec) (k : String) : Rec :=
  if hasKey oo k then oo
  else dinsert oo k (if hasKey src k then getD src k else .vint 0)

/-- The late-pay presence defaults (lines 344 to 347). -/
def bgtLateDefaults (src oo : Rec) : Rec :=
  bgtLateDefault1 src (bgtLateDefault1 src oo "late_pays_lt2yr") "late_pays_gt2yr"

/-- The skip list of the remaining-keys pass (line 353). -/
def bgtRemainingSkip : List String :=
  transientKeys ++ ["collections"] ++ nestedAccountKeys ++ ["late_pays"]

/-- The remaining-keys pass (lines 349 to 357). -/
def bgtRemaining (src oo : Rec) : Rec :=
  src.foldl
    (fun oo kv =>
      if hasKey oo kv.1 then oo
      else if bgtRemainingSkip.contains kv.1 then oo
      else if isPosKey kv.1 then oo
      else dinsert oo kv.1 kv.2)
    oo

/-- The color-key pass (lines 359 to 362). -/
def bgtColors (src oo : Rec) : Rec :=
  src.foldl
    (fun oo kv =>
      if endsw kv.1 "_color" && !hasKey oo kv.1 then dinsert oo kv.1 kv.2
      else oo)
    oo

/-- The include_spans copy of positional keys for already-present base keys
(lines 364 to 370); the key snapshot is taken before any insertion. -/
def bgtSpans (s : Bool) (src oo : Rec) : Rec :=
  if s then
    (rkeys oo).foldl
      (fun oo k =>
        posSuffixes.foldl
          (fun oo suf =>
            let sk := k ++ suf
            if hasKey src sk && !hasKey oo sk then dinsert oo sk (getD src sk)
            else oo)
          oo)
      oo
  else oo

/-- The legacy inquiry aliases (lines 372 to 376). -/
def bgtAliases (src oo : Rec) : Rec :=
  let oo :=
    if hasKey src "inquiries_last_6_months" && !hasKey oo "inquiries_lt6mo" then
      dinsert oo "inquiries_lt6mo" (getD src "inquiries_last_6_months")
    else oo
  if hasKey src "inquiries_lt6mo" && !hasKey oo "inquiries_lt6mo" then
    dinsert oo "inquiries_lt6mo" (getD src "inquiries_lt6mo")
  else oo

/-- The canonical front sequence of account count/total keys (line 380). -/
def accountSeq : List String :=
  ["revolving_open_count", "revolving_open_total",
   "installment_open_count", "installment_open_total",
   "real_estate_open_count", "real_estate_open_total",
   "line_of_credit_accounts_open_count", "line_of_credit_accounts_open_total",
   "miscellaneous_accounts_open_count", "miscellaneous_accounts_open_total"]

/-- Pop the listed keys out of a record in list order, appending the popped
bindings to the accumulator (lines 381 to 388). -/
def popKeys (ks : List String) (st : Rec × Rec) : Rec × Rec :=
  ks.foldl
    (fun st k =>
      match getVal st.2 k with
      | some v => (st.1 ++ [(k, v)], dremove st.2 k)
      | none => st)
    st

/-- Concatenate the moved front segment with the remainder. -/
def joinPair (st : Rec × Rec) : Rec := st.1 ++ st.2

/-- The final reordering: account pairs first, late-pay buckets next, the
rest in walk order (lines 378 to 392). -/
def bgtReorder (oo : Rec) : Rec :=
  joinPair (popKeys ["late_pays_lt2yr", "late_pays_gt2yr"]
    (popKeys accountSeq ([], oo)))

/-- The source preparation (lines 34 to 47): unwrap a dict-valued rec
entry, then flatten a dict-valued credit_score into value and color. -/
def bgtPrep (r : Rec) : Rec :=
  let src :=
    match getVal r "rec" with
    | some (.vdict d) => d
    | _ => r
  match getVal src "credit_score" with
  | some (.vdict cs) =>
      dinsert (dinsert src "credit_score" (getD cs "value"))
        "credit_score_color" (getD cs "color")
  | _ => src

/-- Whether a credit_factors value survives the discarded segment's
iteration (a list whose entries are all dicts; anything else raises). -/
def okFactorsVal : Option Val → Bool
  | none => true
  | some (.vlist l) => l.all (fun v => match v with | .vdict _ => true | _ => false)
  | some _ => false

/-- build_text_only_gt: source preparation, the crash guard of the
discarded segment, then the ordered walk, defaults, remaining keys, color
keys, optional span keys, inquiry aliases, and the final reordering. -/
def build_text_only_gt (r : Rec) (include_spans : Bool) : Except Unit Rec :=
  let src := bgtPrep r
  if okFactorsVal (getVal src "credit_factors") then
    .ok (bgtReorder (bgtAliases src (bgtSpans include_spans src
      (bgtColors src (bgtRemaining src (bgtLateDefaults src (bgtWalk src)))))))
  else .error ()

/-! ## Concrete test documents

A one-page document of single-span colorless lines with zero boxes, the
shape the synthetic counterexample documents take. -/

/-- A raw line with one colorless span. -/
def rawLineOf (t : String) : BLine := ⟨some (0, 0, 0, 0), [⟨t, none⟩]⟩

/-- A one-page document with the given line texts. -/
def docOfTexts (ts : List String) : Doc :=
  .pages [⟨[⟨some (0, 0, 0, 0), ts.map rawLineOf⟩]⟩]

/-! ## Record lemmas (Python dict semantics) -/

theorem getVal_dinsert_self (r : Rec) (k : String) (v : Val) :
    getVal (dinsert r k v) k = some v := by
  induction r with
  | nil => simp [dinsert, getVal]
  | cons kv t ih =>
      by_cases h : kv.1 = k
      · simp [dinsert, h, getVal]
      · simp [dinsert, h, getVal, ih]

theorem getVal_dinsert_ne (r : Rec) (k : String) (v : Val) (k2 : String)
    (h : k2 ≠ k) : getVal (dinsert r k v) k2 = getVal r k2 := by
  have hne : k ≠ k2 := fun hh => h hh.symm
  induction r with
  | nil => simp [dinsert, getVal, hne]
  | cons kv t ih =>
      by_cases hk : kv.1 = k
      · simp [dinsert, hk, getVal, hne]
      · simp only [dinsert, hk, if_false, getVal]
        by_cases h2 : kv.1 = k2 <;> simp [h2, ih]

theorem hasKey_dinsert (r : Rec) (k : String) (v : Val) (k2 : String) :
    hasKey (dinsert r k v) k2 = (k2 == k || hasKey r k2) := by
  by_cases h : k2 = k
  · subst h; simp [hasKey, getVal_dinsert_self]
  · simp [hasKey, getVal_dinsert_ne r k v k2 h, h]

theorem hasKey_dinsert_ne (r : Rec) (k : String) (v : Val) (k2 : String)
    (h : k2 ≠ k) : hasKey (dinsert r k v) k2 = hasKey r k2 := by
  simp [hasKey, getVal_dinsert_ne r k v k2 h]

theorem getVal_eq_none_of_not_mem (r : Rec) (k : String)
    (h : ∀ kv ∈ r, kv.1 ≠ k) : getVal r k = none := by
  induction r with
  | nil => rfl
  | cons kv t ih =>
      have h1 := h kv (by simp)
      simp only [getVal, h1, if_false]
      exact ih (fun kv2 hm => h kv2 (by simp [hm]))

theorem not_mem_of_getVal_eq_none (r : Rec) (k : String)
    (h : getVal r k = none) : ∀ kv ∈ r, kv.1 ≠ k := by
  induction r with
  | nil => simp
  | cons kv t ih =>
      intro kv2 hm
      simp only [getVal] at h
      by_cases hk : kv.1 = k
      · simp [hk] at h
      · simp only [hk, if_false] at h
        rcases List.mem_cons.mp hm with h2 | h2
        · subst h2; exact hk
        · exact ih h kv2 h2

theorem mem_keys_of_getVal_eq_some (r : Rec) (k : String) (v : Val)
    (h : getVal r k = some v) : k ∈ rkeys r := by
  induction r with
  | nil => simp [getVal] at h
  | cons kv t ih =>
      simp only [getVal] at h
      by_cases hk : kv.1 = k
      · simp [rkeys, hk]
      · simp only [hk, if_false] at h
        simp [rkeys] at ih ⊢
        exact Or.inr (ih h)

theorem nodup_keys_dinsert (r : Rec) (k : String) (v : Val)
    (h : (rkeys r).Nodup) : (rkeys (dinsert r k v)).Nodup := by
  induction r with
  | nil => simp [dinsert, rkeys]
  | cons kv t ih =>
      by_cases hk : kv.1 = k
      · simpa [dinsert, hk, rkeys] using h
      · simp only [dinsert, hk, if_false]
        simp only [rkeys, List.map_cons, List.nodup_cons] at h ⊢
        refine ⟨?_, ih h.2⟩
        intro hm
        have : kv.1 ∈ rkeys (dinsert t k v) := hm
        by_cases hkk : kv.1 = k
        · exact hk hkk
        · have hh : hasKey (dinsert t k v) kv.1 = hasKey t kv.1 :=
            hasKey_dinsert_ne t k v kv.1 hkk
          have h1 : hasKey (dinsert t k v) kv.1 = true := by
            simp only [hasKey]
            rcases List.mem_map.mp this with ⟨kv2, hmem, hfst⟩
            cases hO : getVal (dinsert t k v) kv.1 with
            | some _ => rfl
            | none =>
                exact absurd hfst (not_mem_of_getVal_eq_none _ _ hO kv2 hmem)
          rw [hh] at h1
          simp only [hasKey] at h1
          cases hO : getVal t kv.1 with
          | none => rw [hO] at h1; simp at h1
          | some w => exact absurd (mem_keys_of_getVal_eq_some t kv.1 w hO) h.1

/-! ## Claim C2: the color classifier -/

/-- C2: map_color_to_cat is a deterministic total function on valid RGB
triples with components in 0..255: it returns red exactly when r is more
than 40 above both g and b, above 100, and g is below 120; green exactly
when g is more than 40 above both r and b and above 100; black whenever
all three channels are below 80 (neither red nor green can then apply);
neutral on every other valid triple; and malformed input returns black. -/
theorem color_classifier_characterization (r g b : Nat)
    (hr : r ≤ 255) (hg : g ≤ 255) (hb : b ≤ 255) :
    (map_color_to_cat (.triple r g b) = "red" ↔
      (r > g + 40 ∧ r > b + 40 ∧ r > 100 ∧ g < 120)) ∧
    (map_color_to_cat (.triple r g b) = "green" ↔
      (g > r + 40 ∧ g > b + 40 ∧ g > 100)) ∧
    ((r < 80 ∧ g < 80 ∧ b < 80) → map_color_to_cat (.triple r g b) = "black") ∧
    (¬(r > g + 40 ∧ r > b + 40 ∧ r > 100 ∧ g < 120) →
      ¬(g > r + 40 ∧ g > b + 40 ∧ g > 100) →
      ¬(r < 80 ∧ g < 80 ∧ b < 80) →
      map_color_to_cat (.triple r g b) = "neutral") ∧
    map_color_to_cat .malformed = "black" := by
  have ered : map_color_to_cat (.triple r g b) = "red" ↔
      (r > g + 40 ∧ r > b + 40 ∧ r > 100 ∧ g < 120) := by
    simp only [map_color_to_cat]
    split_ifs with h1 h2 h3 <;>
      simp_all [Bool.and_eq_true, decide_eq_true_eq] <;> omega
  have egreen : map_color_to_cat (.triple r g b) = "green" ↔
      (g > r + 40 ∧ g > b + 40 ∧ g > 100) := by
    simp only [map_color_to_cat]
    split_ifs with h1 h2 h3 <;>
      simp_all [Bool.and_eq_true, decide_eq_true_eq] <;> omega
  refine ⟨ered, egreen, ?_, ?_, rfl⟩
  · intro h
    simp only [map_color_to_cat]
    split_ifs with h1 h2 h3 <;>
      simp_all [Bool.and_eq_true, decide_eq_true_eq] <;> omega
  · intro h1 h2 h3
    clear ered egreen
    simp only [map_color_to_cat]
    have b1 : ¬((r > g + 40 && r > b + 40 && r > 100 && g < 120) = true) := by
      simp only [Bool.and_eq_true, decide_eq_true_eq, and_assoc]
      exact h1
    have b2 : ¬((g > r + 40 && g > b + 40 && g > 100) = true) := by
      simp only [Bool.and_eq_true, decide_eq_true_eq, and_assoc]
      exact h2
    have b3 : ¬((r < 80 && g < 80 && b < 80) = true) := by
      simp only [Bool.and_eq_true, decide_eq_true_eq, and_assoc]
      exact h3
    rw [if_neg b1, if_neg b2, if_neg b3]

/-- C2 witness: the characterization applied at the triple (200, 10, 10),
which the classifier maps to red, and at malformed input. -/
theorem color_classifier_characterization_witness :
    map_color_to_cat (.triple 200 10 10) = "red" ∧
    map_color_to_cat .malformed = "black" := by
  have h := color_classifier_characterization 200 10 10
    (by decide) (by decide) (by decide)
  exact ⟨h.1.mpr (by decide), h.2.2.2.2⟩

/-! ## Claim C9: the hex round trip -/

theorem hexDigitVal_hexDigitChar (n : Nat) (h : n < 16) :
    hexDigitVal (hexDigitChar n) = some n := by
  interval_cases n <;> decide

theorem isPySpace_hexDigitChar (n : Nat) (h : n < 16) :
    isPySpace (hexDigitChar n) = false := by
  interval_cases n <;> decide

theorem hexDigitChar_ne_hash (n : Nat) (h : n < 16) :
    (hexDigitChar n = '#') = False := by
  interval_cases n <;> simp <;> decide

theorem pyIntHex2_hex02 (c : Nat) (h : c ≤ 255) :
    pyIntHex2 (hexDigitChar (c / 16)) (hexDigitChar (c % 16)) = some c := by
  have h1 : c / 16 < 16 := by omega
  have h2 : c % 16 < 16 := Nat.mod_lt _ (by norm_num)
  simp [pyIntHex2, hexDigitVal_hexDigitChar _ h1, hexDigitVal_hexDigitChar _ h2]
  omega

/-- C9: decoding the extractor's hex encoding of any valid RGB triple with
hex_to_rgb returns exactly that triple. -/
theorem hex_rgb_roundtrip (r g b : Nat)
    (hr : r ≤ 255) (hg : g ≤ 255) (hb : b ≤ 255) :
    hex_to_rgb (some (rgb_to_hex r g b)) = some (r, g, b) := by
  have hr1 : r / 16 < 16 := by omega
  have hr2 : r % 16 < 16 := Nat.mod_lt _ (by norm_num)
  have hg1 : g / 16 < 16 := by omega
  have hg2 : g % 16 < 16 := Nat.mod_lt _ (by norm_num)
  have hb1 : b / 16 < 16 := by omega
  have hb2 : b % 16 < 16 := Nat.mod_lt _ (by norm_num)
  have hsp : isPySpace '#' = false := by decide
  simp [rgb_to_hex, hex02, hex_to_rgb, List.cons_append, List.nil_append,
    stripChars, List.dropWhile, hsp,
    isPySpace_hexDigitChar _ hr1, isPySpace_hexDigitChar _ hr2,
    isPySpace_hexDigitChar _ hg1, isPySpace_hexDigitChar _ hg2,
    isPySpace_hexDigitChar _ hb1, isPySpace_hexDigitChar _ hb2,
    hexDigitChar_ne_hash _ hr1, hexDigitChar_ne_hash _ hr2,
    hexDigitChar_ne_hash _ hg1, hexDigitChar_ne_hash _ hg2,
    hexDigitChar_ne_hash _ hb1, hexDigitChar_ne_hash _ hb2,
    pyIntHex2_hex02 r hr, pyIntHex2_hex02 g hg, pyIntHex2_hex02 b hb]

/-- C9 witness: the round trip at the triple (255, 0, 160), whose encoding
is the hash string of ff, 00 and a0. -/
theorem hex_rgb_roundtrip_witness :
    rgb_to_hex 255 0 160 = "#ff00a0" ∧
    hex_to_rgb (some (rgb_to_hex 255 0 160)) = some (255, 0, 160) :=
  ⟨by decide, hex_rgb_roundtrip 255 0 160 (by decide) (by decide) (by decide)⟩

/-! ## Claim C5: graceful degradation on uniterable documents -/

/-- The line-derived fields named by the failure-mode contract. -/
def lineDerivedKeys : List String :=
  ["age", "address", "credit_score", "credit_score_color",
   "revolving_open_count", "revolving_open_total",
   "installment_open_count", "installment_open_total",
   "real_estate_open_count", "real_estate_open_total",
   "line_of_credit_accounts_open_count", "line_of_credit_accounts_open_total",
   "miscellaneous_accounts_open_count", "miscellaneous_accounts_open_total",
   "revolving_accounts_open", "installment_accounts_open", "real_estate_open",
   "line_of_credit_accounts_open", "miscellaneous_accounts_open",
   "collections", "collections_open", "collections_closed",
   "inquiries_last_6_months", "inquiries_6mo",
   "late_pays", "late_pays_gt2yr",
   "credit_card_open_totals", "monthly_payments"]

/-- C5: extraction of a document that cannot be iterated returns a record
(no exception), for every page limit and option combination; the line
sequence degrades to empty and every line-derived field is absent. -/
theorem uniterable_extraction_degrades (pl : Nat) (s ics : Bool) :
    ∃ r, extract_pdf_all_fields Doc.bad pl s ics = .ok r ∧
      adaptLines Doc.bad = [] ∧
      lineDerivedKeys.all (fun k => !hasKey r k) = true := by
  cases s <;> cases ics
  · exact ⟨[("all_lines_obj", .vlist []), ("credit_factors", .vlist []),
      ("monthly_payments_color", .vnull)], rfl, rfl, by decide⟩
  · exact ⟨[("all_lines_obj", .vlist []), ("credit_factors", .vlist []),
      ("monthly_payments_color", .vnull), ("candidate_scores", .vlist [])],
      rfl, rfl, by decide⟩
  · exact ⟨[("all_lines_obj", .vlist []), ("credit_factors", .vlist [])],
      rfl, rfl, by decide⟩
  · exact ⟨[("all_lines_obj", .vlist []), ("credit_factors", .vlist []),
      ("candidate_scores", .vlist [])], rfl, rfl, by decide⟩

/-- C5 witness: the same at the default options. -/
theorem uniterable_extraction_degrades_witness :
    ∃ r, extract_pdf_all_fields Doc.bad 2 false false = .ok r ∧
      adaptLines Doc.bad = [] ∧
      lineDerivedKeys.all (fun k => !hasKey r k) = true :=
  uniterable_extraction_degrades 2 false false

/-! ## Claim C6: late-pay unit bucketing -/

/-- C6: every window line matched by the preferred late-pay pattern is
bucketed by its time unit: when the captured unit token contains mo, or
the line carries the word mo, the count is added to the within-two-years
bucket, otherwise to the beyond-two-years bucket; in particular the line
2 Rev Lates in 4-6 mo adds 2 to the first bucket and the line
40 RE Lates in 2-4 yrs adds 40 to the second. -/
theorem late_pay_unit_bucketing :
    (∀ (l2 lgt2 : Nat) (nt : String) (m : SRes),
      reSearch lateRe nt = some m →
      latePayStep (l2, lgt2) nt =
        (if strContains (pyLower (capGroupD m 4 "")) "mo" || reTest moWordRe nt
         then (l2 + digitsVal ((capGroupD m 1 "").data), lgt2)
         else (l2, lgt2 + digitsVal ((capGroupD m 1 "").data)))) ∧
    (∀ l2 lgt2 : Nat,
      latePayStep (l2, lgt2) "2 Rev Lates in 4-6 mo" = (l2 + 2, lgt2)) ∧
    (∀ l2 lgt2 : Nat,
      latePayStep (l2, lgt2) "40 RE Lates in 2-4 yrs" = (l2, lgt2 + 40)) := by
  refine ⟨?_, ?_, ?_⟩
  · intro l2 lgt2 nt m h
    simp only [latePayStep, h]
  · intro l2 lgt2
    rfl
  · intro l2 lgt2
    rfl

/-- C6 witness: the bucketing applied at the cited concrete lines from
nonzero starting buckets. -/
theorem late_pay_unit_bucketing_witness :
    latePayStep (1, 2) "2 Rev Lates in 4-6 mo" = (3, 2) ∧
    latePayStep (1, 2) "40 RE Lates in 2-4 yrs" = (1, 42) := by
  constructor
  · have h := late_pay_unit_bucketing.1 1 2 "2 Rev Lates in 4-6 mo"
      ⟨0, "2 Rev Lates in 4-6 mo".data,
        [(1, ['2']), (2, ['4']), (3, ['6']), (4, ['m', 'o'])]⟩ (by decide)
    rw [h]; decide
  · have h := late_pay_unit_bucketing.1 1 2 "40 RE Lates in 2-4 yrs"
      ⟨0, "40 RE Lates in 2-4 yr".data,
        [(1, ['4', '0']), (2, ['2']), (3, ['4']), (4, ['y', 'r'])]⟩ (by decide)
    rw [h]; decide

/-! ## Claim C7: the late-pay fallback fires only on a zero bucket -/

/-- C7: a window line matching only the fallback pattern lates +2yr: N
contributes N to the beyond-two-years bucket exactly when that bucket is
still zero at the moment the line is scanned; otherwise the value is
silently discarded. -/
theorem late_fallback_requires_zero_bucket :
    ∀ (l2 lgt2 : Nat) (nt : String) (m : SRes),
      reSearch lateRe nt = none →
      reSearch latesFallbackRe nt = some m →
      latePayStep (l2, lgt2) nt =
        (if lgt2 = 0 then (l2, lgt2 + digitsVal ((capGroupD m 1 "").data))
         else (l2, lgt2)) := by
  intro l2 lgt2 nt m h1 h2
  simp only [latePayStep, h1, h2]

/-- C7 witness: the fallback line Lates +2yr: 5 adds 5 when the bucket is
zero and is discarded when the bucket already holds 7. -/
theorem late_fallback_requires_zero_bucket_witness :
    latePayStep (3, 0) "Lates +2yr: 5" = (3, 5) ∧
    latePayStep (3, 7) "Lates +2yr: 5" = (3, 7) := by
  constructor
  · have h := late_fallback_requires_zero_bucket 3 0 "Lates +2yr: 5"
      ⟨0, "Lates +2yr: 5".data, [(1, ['5'])]⟩ (by decide) (by decide)
    rw [h]; decide
  · have h := late_fallback_requires_zero_bucket 3 7 "Lates +2yr: 5"
      ⟨0, "Lates +2yr: 5".data, [(1, ['5'])]⟩ (by decide) (by decide)
    rw [h]; decide

/-! ## Claim C8: the inquiries accumulation -/

/-- C8 counterexample: the document whose single line is the word inquiry
contains a line with the substring inquir, extraction succeeds, yet
neither inquiries key is stored (the claim promises the total is always
stored), because no window line matched and the heading does not mention
the six-month phrase. -/
theorem inquiries_not_always_stored :
    (extract_pdf_all_fields (docOfTexts ["inquiry"])).map
        (fun r => (hasKey r "inquiries_last_6_months", hasKey r "inquiries_6mo")) =
      .ok (false, false) ∧
    strContains (pyLower "inquiry") "inquir" = true := by
  constructor
  · decide
  · decide

/-- The per-window count of one line of the inquiries scan. -/
def inqCountOf (nt : String) : Nat :=
  match reSearch inqRe nt with
  | some m => digitsVal ((capGroupD m 1 "").data)
  | none => 0

/-- The inquiries fold from any starting state adds the plain sum of the
matched counts (each branch of the source's timeframe conditional adds)
and records whether anything matched. -/
theorem inqFold_characterization (txt : String) :
    ∀ (window : List Line) (t : Nat) (fa : Bool),
      window.foldl (fun st nxt => inqLineAdd txt st (lineText nxt)) (t, fa) =
        (t + (window.map (fun nxt => inqCountOf (lineText nxt))).sum,
         fa || window.any (fun nxt => (reSearch inqRe (lineText nxt)).isSome)) := by
  intro window
  induction window with
  | nil => intro t fa; simp
  | cons nxt rest ih =>
      intro t fa
      simp only [List.foldl_cons, List.map_cons, List.sum_cons, List.any_cons]
      cases h : reSearch inqRe (lineText nxt) with
      | some m =>
          have hstep : inqLineAdd txt (t, fa) (lineText nxt) =
              (t + digitsVal ((capGroupD m 1 "").data), true) := by
            simp only [inqLineAdd, h]
            split_ifs <;> rfl
          rw [hstep, ih]
          simp [inqCountOf, h]
          omega
      | none =>
          have hstep : inqLineAdd txt (t, fa) (lineText nxt) = (t, fa) := by
            simp only [inqLineAdd, h]
          rw [hstep, ih]
          simp [inqCountOf, h]

/-- C8 amended: on finding an inquiries heading, the locator sums the
captured count of every window line matching the count pattern,
unconditionally (the plain sum over the window), and stores the identical
total under both the inquiries_last_6_months key and the inquiries_6mo
alias, provided at least one window line matched or the heading itself
mentions the last-six-months phrase; with no match and no such phrase,
nothing is stored for that heading. -/
theorem inquiries_sum_stored_under_both_keys :
    ∀ (r : Rec) (txt : String) (window : List Line),
      strContains (pyLower txt) "inquir" = true →
      inqStep r txt window =
        (if window.any (fun nxt => (reSearch inqRe (lineText nxt)).isSome) ||
            reTest last6Re txt then
          dinsert (dinsert r "inquiries_last_6_months"
              (.vint ((window.map (fun nxt => inqCountOf (lineText nxt))).sum)))
            "inquiries_6mo"
            (.vint ((window.map (fun nxt => inqCountOf (lineText nxt))).sum))
        else r) := by
  intro r txt window _
  simp only [inqStep, inqFold_characterization txt window 0 false,
    Nat.zero_add, Bool.false_or]

/-- C8 amended witness: the heading Inquires over the window of the lines
2 Inq last 6 months and 1 inq 12 mo stores the sum 3 under both keys. -/
theorem inquiries_sum_stored_under_both_keys_witness :
    inqStep [] "Inquires"
        [⟨0, [⟨"2 Inq last 6 months", none, none⟩], (0, 0, 0, 0)⟩,
         ⟨0, [⟨"1 inq 12 mo", none, none⟩], (0, 0, 0, 0)⟩] =
      [("inquiries_last_6_months", .vint 3), ("inquiries_6mo", .vint 3)] := by
  rw [inquiries_sum_stored_under_both_keys [] "Inquires" _ (by decide)]
  decide

/-! ## Claim C3 counterexample: a half-known account category -/

/-- C3 counterexample: on the document whose single line is
revolving accounts 3 / 4, the extractor stores revolving_open_count as 4
while storing revolving_open_total as None (the slash pair carries no
dollar amount), so a category can be half-known, refuting the invariant
as claimed. -/
theorem account_half_known_counterexample :
    (extract_pdf_all_fields (docOfTexts ["revolving accounts 3 / 4"])).map
        (fun r => (getVal r "revolving_open_count",
                   getVal r "revolving_open_total",
                   getVal r "revolving_accounts_open")) =
      .ok (some (.vint 4), some .vnull,
           some (.vdict [("count", .vint 4), ("amount", .vnull)])) := by
  decide

/-! ## Fold invariants and stage lemmas for the canonicalizer -/

theorem foldl_pres {α : Type} (P : Rec → Prop) (f : Rec → α → Rec)
    (hstep : ∀ oo a, P oo → P (f oo a)) :
    ∀ (l : List α) (oo : Rec), P oo → P (l.foldl f oo) := by
  intro l
  induction l with
  | nil => intro oo h; exact h
  | cons a t ih => intro oo h; exact ih (f oo a) (hstep oo a h)

theorem foldl_pres_mem {α : Type} (P : Rec → Prop) (f : Rec → α → Rec) :
    ∀ (l : List α), (∀ oo a, a ∈ l → P oo → P (f oo a)) →
      ∀ (oo : Rec), P oo → P (l.foldl f oo) := by
  intro l
  induction l with
  | nil => intro _ oo h; exact h
  | cons a t ih =>
      intro hstep oo h
      exact ih (fun oo2 a2 hm => hstep oo2 a2 (by simp [hm])) (f oo a)
        (hstep oo a (by simp) h)

theorem getVal_of_mem_nodup (r : Rec) (kv : String × Val)
    (hnd : (rkeys r).Nodup) (hm : kv ∈ r) : getVal r kv.1 = some kv.2 := by
  induction r with
  | nil => simp at hm
  | cons kv2 t ih =>
      simp only [rkeys, List.map_cons, List.nodup_cons] at hnd
      rcases List.mem_cons.mp hm with h | h
      · subst h; simp [getVal]
      · have hne : kv2.1 ≠ kv.1 := by
          intro he
          exact hnd.1 (he ▸ List.mem_map.mpr ⟨kv, h, rfl⟩)
        simp only [getVal, hne, if_false]
        exact ih hnd.2 h

theorem hasKey_true_iff (r : Rec) (k : String) :
    hasKey r k = true ↔ ∃ v, getVal r k = some v := by
  simp only [hasKey, Option.isSome_iff_exists]

/-- Present bindings survive bgtLateDefaults. -/
theorem getVal_bgtLateDefault1_of_present (src oo : Rec) (k2 k : String) (v : Val)
    (h : getVal oo k = some v) :
    getVal (bgtLateDefault1 src oo k2) k = some v := by
  unfold bgtLateDefault1
  split_ifs with h1 h2
  · exact h
  · have he : k ≠ k2 := fun he => h1 (by rw [← he]; simp [hasKey, h])
    rw [getVal_dinsert_ne _ _ _ _ he]
    exact h
  · have he : k ≠ k2 := fun he => h1 (by rw [← he]; simp [hasKey, h])
    rw [getVal_dinsert_ne _ _ _ _ he]
    exact h

theorem getVal_bgtLateDefaults_of_present (src oo : Rec) (k : String) (v : Val)
    (h : getVal oo k = some v) :
    getVal (bgtLateDefaults src oo) k = some v := by
  unfold bgtLateDefaults
  exact getVal_bgtLateDefault1_of_present src _ _ k v
    (getVal_bgtLateDefault1_of_present src oo _ k v h)

/-- Present bindings survive bgtRemaining. -/
theorem getVal_bgtRemaining_of_present (src oo : Rec) (k : String) (v : Val)
    (h : getVal oo k = some v) :
    getVal (bgtRemaining src oo) k = some v := by
  unfold bgtRemaining
  refine foldl_pres (fun oo => getVal oo k = some v) _ ?_ src oo h
  intro oo2 kv hP
  by_cases h1 : hasKey oo2 kv.1
  · simp [h1]
    exact hP
  · have hne : k ≠ kv.1 := by
      intro he
      subst he
      exact h1 (by simp [hasKey, hP])
    by_cases h2 : kv.1 ∈ bgtRemainingSkip <;>
      by_cases h3 : isPosKey kv.1 <;>
        simp [h1, h2, h3, hP, getVal_dinsert_ne _ _ _ _ hne]

/-- Present bindings survive bgtColors. -/
theorem getVal_bgtColors_of_present (src oo : Rec) (k : String) (v : Val)
    (h : getVal oo k = some v) :
    getVal (bgtColors src oo) k = some v := by
  unfold bgtColors
  refine foldl_pres (fun oo => getVal oo k = some v) _ ?_ src oo h
  intro oo2 kv hP
  by_cases h1 : endsw kv.1 "_color" && !hasKey oo2 kv.1
  · have hne : k ≠ kv.1 := by
      intro he
      simp only [Bool.and_eq_true, Bool.not_eq_true'] at h1
      rw [← he] at h1
      simp [hasKey, hP] at h1
    simp [h1, getVal_dinsert_ne _ _ _ _ hne]
    exact hP
  · simp [h1]
    exact hP

/-- Present bindings survive bgtSpans. -/
theorem getVal_bgtSpans_of_present (s : Bool) (src oo : Rec) (k : String) (v : Val)
    (h : getVal oo k = some v) :
    getVal (bgtSpans s src oo) k = some v := by
  unfold bgtSpans
  cases s
  · simpa using h
  · simp only [if_true]
    refine foldl_pres (fun oo => getVal oo k = some v) _ ?_ (rkeys oo) oo h
    intro oo2 k2 hP
    refine foldl_pres (fun oo => getVal oo k = some v) _ ?_ posSuffixes oo2 hP
    intro oo3 suf hP3
    by_cases h1 : hasKey src (k2 ++ suf) && !hasKey oo3 (k2 ++ suf)
    · have hne : k ≠ k2 ++ suf := by
        intro he
        simp only [Bool.and_eq_true, Bool.not_eq_true'] at h1
        rw [← he] at h1
        simp [hasKey, hP3] at h1
      simp [h1, getVal_dinsert_ne _ _ _ _ hne]
      exact hP3
    · simp [h1]
      exact hP3

/-- Present bindings survive bgtAliases. -/
theorem getVal_bgtAliases_of_present (src oo : Rec) (k : String) (v : Val)
    (h : getVal oo k = some v) :
    getVal (bgtAliases src oo) k = some v := by
  unfold bgtAliases
  by_cases h1 : hasKey src "inquiries_last_6_months" && !hasKey oo "inquiries_lt6mo"
  · have hne : k ≠ "inquiries_lt6mo" := by
      intro he
      simp only [Bool.and_eq_true, Bool.not_eq_true'] at h1
      rw [← he] at h1
      simp [hasKey, h] at h1
    simp only [h1, if_true]
    have h2 : hasKey (dinsert oo "inquiries_lt6mo" (getD src "inquiries_last_6_months"))
        "inquiries_lt6mo" = true := by
      simp [hasKey, getVal_dinsert_self]
    simp [h2, getVal_dinsert_ne _ _ _ _ hne, h]
  · simp only [h1, Bool.false_eq_true, if_false]
    by_cases h2 : hasKey src "inquiries_lt6mo" && !hasKey oo "inquiries_lt6mo"
    · have hne : k ≠ "inquiries_lt6mo" := by
        intro he
        simp only [Bool.and_eq_true, Bool.not_eq_true'] at h2
        rw [← he] at h2
        simp [hasKey, h] at h2
      simp [h2, getVal_dinsert_ne _ _ _ _ hne, h]
    · simp [h2, h]

/-! ## The final reordering: a characterization and its consequences -/

/-- The keys moved to the front by the reordering, in order. -/
def reorderKeys : List String :=
  accountSeq ++ ["late_pays_lt2yr", "late_pays_gt2yr"]

/-- The bindings of the listed keys present in a record, in list order. -/
def pickList (ks : List String) (oo : Rec) : Rec :=
  ks.filterMap (fun k => (getVal oo k).map (fun v => (k, v)))

theorem getVal_filter_of_kept (r : Rec) (p : String × Val → Bool) (k : String)
    (hp : ∀ v, p (k, v) = true) :
    getVal (r.filter p) k = getVal r k := by
  induction r with
  | nil => rfl
  | cons kv t ih =>
      by_cases h1 : kv.1 = k
      · have hkv : p kv = true := by
          rcases kv with ⟨k1, v1⟩
          simp only at h1
          subst h1
          exact hp v1
        simp [List.filter_cons, hkv, getVal, h1]
      · cases hkv : p kv
        · simp only [List.filter_cons, hkv, Bool.false_eq_true, if_false]
          rw [ih]
          simp [getVal, h1]
        · simp [List.filter_cons, hkv, getVal, h1, ih]

theorem getVal_filter_of_dropped (r : Rec) (p : String × Val → Bool) (k : String)
    (hp : ∀ v, p (k, v) = false) :
    getVal (r.filter p) k = none := by
  refine getVal_eq_none_of_not_mem _ _ ?_
  intro kv hm he
  have hmem := List.mem_filter.mp hm
  rcases kv with ⟨k1, v1⟩
  simp only at he
  subst he
  rw [hp v1] at hmem
  exact Bool.false_ne_true hmem.2

theorem nodup_keys_filter (r : Rec) (p : String × Val → Bool)
    (h : (rkeys r).Nodup) : (rkeys (r.filter p)).Nodup := by
  have hsub : List.Sublist (rkeys (r.filter p)) (rkeys r) :=
    (List.filter_sublist r).map Prod.fst
  exact h.sublist hsub

theorem dremove_eq_filter (r : Rec) (k : String) (h : (rkeys r).Nodup) :
    dremove r k = r.filter (fun kv => !(kv.1 == k)) := by
  induction r with
  | nil => rfl
  | cons kv t ih =>
      simp only [rkeys, List.map_cons, List.nodup_cons] at h
      by_cases h1 : kv.1 = k
      · have ht : t.filter (fun kv => !(kv.1 == k)) = t := by
          rw [List.filter_eq_self]
          intro kv2 hm
          simp only [Bool.not_eq_eq_eq_not, Bool.not_true, beq_eq_false_iff_ne]
          intro he
          exact h.1 (h1 ▸ he ▸ List.mem_map.mpr ⟨kv2, hm, rfl⟩)
        simp [dremove, h1, List.filter_cons, ht]
      · simp [dremove, h1, List.filter_cons, ih h.2]

theorem nodup_keys_dremove (r : Rec) (k : String) (h : (rkeys r).Nodup) :
    (rkeys (dremove r k)).Nodup := by
  rw [dremove_eq_filter r k h]
  exact nodup_keys_filter r _ h

theorem getVal_dremove_ne (r : Rec) (k k2 : String) (h : (rkeys r).Nodup)
    (hne : k2 ≠ k) : getVal (dremove r k) k2 = getVal r k2 := by
  rw [dremove_eq_filter r k h]
  refine getVal_filter_of_kept r _ k2 ?_
  intro v
  simp [hne]

theorem pickList_congr (ks : List String) (a b : Rec)
    (h : ∀ k ∈ ks, getVal a k = getVal b k) : pickList ks a = pickList ks b := by
  unfold pickList
  induction ks with
  | nil => rfl
  | cons k t ih =>
      simp only [List.filterMap_cons]
      rw [h k (by simp), ih (fun k2 hm => h k2 (by simp [hm]))]

/-- The popKeys fold described as a pick plus a filter. -/
theorem popKeys_char : ∀ (ks : List String) (acc l : Rec),
    (rkeys l).Nodup → ks.Nodup →
    popKeys ks (acc, l) =
      (acc ++ pickList ks l, l.filter (fun kv => !(ks.contains kv.1))) := by
  intro ks
  induction ks with
  | nil =>
      intro acc l _ _
      simp [popKeys, pickList, List.filter_eq_self]
  | cons k t ih =>
      intro acc l hnd hknd
      simp only [List.nodup_cons] at hknd
      have hfold : popKeys (k :: t) (acc, l) =
          popKeys t (match getVal l k with
            | some v => (acc ++ [(k, v)], dremove l k)
            | none => (acc, l)) := by
        simp [popKeys, List.foldl_cons]
      cases hv : getVal l k with
      | some v =>
          rw [hfold]
          simp only [hv]
          rw [ih (acc ++ [(k, v)]) (dremove l k) (nodup_keys_dremove l k hnd) hknd.2]
          have hpick : pickList t (dremove l k) = pickList t l := by
            refine pickList_congr t _ _ ?_
            intro k2 hm
            exact getVal_dremove_ne l k k2 hnd (fun he => hknd.1 (he ▸ hm))
          have hfilter : (dremove l k).filter (fun kv => !(t.contains kv.1)) =
              l.filter (fun kv => !((k :: t).contains kv.1)) := by
            rw [dremove_eq_filter l k hnd, List.filter_filter]
            refine List.filter_congr ?_
            intro kv _
            simp only [List.contains_cons]
            rcases kv with ⟨k1, v1⟩
            by_cases h1 : k1 = k <;> simp [h1, Bool.and_comm]
          rw [hpick, hfilter]
          simp [pickList, List.filterMap_cons, hv, List.append_assoc]
      | none =>
          rw [hfold]
          simp only [hv]
          rw [ih acc l hnd hknd.2]
          have hfilter : l.filter (fun kv => !(t.contains kv.1)) =
              l.filter (fun kv => !((k :: t).contains kv.1)) := by
            refine List.filter_congr ?_
            intro kv hm
            have hne : kv.1 ≠ k := not_mem_of_getVal_eq_none l k hv kv hm
            simp [List.contains_cons, hne]
          rw [hfilter]
          simp [pickList, List.filterMap_cons, hv]

/-- The reordering as a pick plus a filter. -/
theorem bgtReorder_char (oo : Rec) (hnd : (rkeys oo).Nodup) :
    bgtReorder oo =
      pickList reorderKeys oo ++
        oo.filter (fun kv => !(reorderKeys.contains kv.1)) := by
  unfold bgtReorder joinPair
  rw [popKeys_char accountSeq [] oo hnd (by decide)]
  rw [popKeys_char ["late_pays_lt2yr", "late_pays_gt2yr"]
    ([] ++ pickList accountSeq oo)
    (oo.filter (fun kv => !(accountSeq.contains kv.1)))
    (nodup_keys_filter oo _ hnd) (by decide)]
  have hpick : pickList ["late_pays_lt2yr", "late_pays_gt2yr"]
      (oo.filter (fun kv => !(accountSeq.contains kv.1))) =
      pickList ["late_pays_lt2yr", "late_pays_gt2yr"] oo := by
    refine pickList_congr _ _ _ ?_
    intro k hm
    refine getVal_filter_of_kept oo _ k ?_
    intro v
    simp only [List.mem_cons, List.not_mem_nil, or_false] at hm
    rcases hm with h | h <;> subst h
    · exact (show (!accountSeq.contains "late_pays_lt2yr") = true by decide)
    · exact (show (!accountSeq.contains "late_pays_gt2yr") = true by decide)
  have hfilter : (oo.filter (fun kv => !(accountSeq.contains kv.1))).filter
        (fun kv => !((["late_pays_lt2yr", "late_pays_gt2yr"] : List String).contains kv.1)) =
      oo.filter (fun kv => !(reorderKeys.contains kv.1)) := by
    rw [List.filter_filter]
    refine List.filter_congr ?_
    intro kv _
    simp only [reorderKeys, List.contains, List.elem_eq_mem, List.mem_append]
    by_cases h1 : kv.1 ∈ accountSeq <;>
      by_cases h2 : kv.1 ∈ (["late_pays_lt2yr", "late_pays_gt2yr"] : List String) <;>
        simp [h1, h2]
  rw [hpick, hfilter]
  simp [pickList, reorderKeys, List.filterMap_append, List.append_assoc]

theorem getVal_append_some (a b : Rec) (k : String) (v : Val)
    (h : getVal a k = some v) : getVal (a ++ b) k = some v := by
  induction a with
  | nil => simp [getVal] at h
  | cons kv t ih =>
      simp only [getVal] at h
      by_cases h1 : kv.1 = k
      · simp [getVal, h1, h1 ▸ h]
        simp [h1] at h
        exact h
      · simp only [List.cons_append, getVal, h1, if_false]
        exact ih (by simpa [h1] using h)

theorem getVal_append_none (a b : Rec) (k : String)
    (h : getVal a k = none) : getVal (a ++ b) k = getVal b k := by
  induction a with
  | nil => rfl
  | cons kv t ih =>
      simp only [getVal] at h
      by_cases h1 : kv.1 = k
      · simp [h1] at h
      · simp only [List.cons_append, getVal, h1, if_false]
        exact ih (by simpa [h1] using h)

theorem getVal_pickList (ks : List String) (oo : Rec) (k : String)
    (hknd : ks.Nodup) :
    getVal (pickList ks oo) k = if k ∈ ks then getVal oo k else none := by
  induction ks with
  | nil => simp [pickList, getVal]
  | cons k1 t ih =>
      simp only [List.nodup_cons] at hknd
      have ihr := ih hknd.2
      cases hv : getVal oo k1 with
      | some v =>
          have hstep : pickList (k1 :: t) oo = (k1, v) :: pickList t oo := by
            simp [pickList, List.filterMap_cons, hv]
          rw [hstep]
          by_cases h1 : k1 = k
          · subst h1
            simp [getVal, hv]
          · simp only [getVal, h1, if_false]
            rw [ihr]
            by_cases h2 : k ∈ t
            · simp [h2, List.mem_cons]
            · have hnc : ¬(k ∈ k1 :: t) := by
                intro hm
                rcases List.mem_cons.mp hm with he | he
                · exact h1 he.symm
                · exact h2 he
              simp [h2, hnc]
      | none =>
          have hstep : pickList (k1 :: t) oo = pickList t oo := by
            simp [pickList, List.filterMap_cons, hv]
          rw [hstep, ihr]
          by_cases h1 : k1 = k
          · subst h1
            by_cases h2 : k1 ∈ t
            · exact absurd h2 hknd.1
            · simp [h2, hv]
          · by_cases h2 : k ∈ t
            · simp [h2, List.mem_cons]
            · have hnc : ¬(k ∈ k1 :: t) := by
                intro hm
                rcases List.mem_cons.mp hm with he | he
                · exact h1 he.symm
                · exact h2 he
              simp [h2, hnc]

theorem rkeys_pickList (ks : List String) (oo : Rec) :
    rkeys (pickList ks oo) = ks.filter (fun k => hasKey oo k) := by
  induction ks with
  | nil => rfl
  | cons k t ih =>
      cases hv : getVal oo k with
      | some v =>
          simp [pickList, List.filterMap_cons, hv, rkeys, List.filter_cons,
            hasKey] at ih ⊢
          exact ih
      | none =>
          simp [pickList, List.filterMap_cons, hv, rkeys, List.filter_cons,
            hasKey] at ih ⊢
          exact ih

theorem getVal_bgtReorder (oo : Rec) (hnd : (rkeys oo).Nodup) (k : String) :
    getVal (bgtReorder oo) k = getVal oo k := by
  by_cases h : k ∈ reorderKeys
  · cases hv : getVal oo k with
    | some v =>
        have hp : getVal (pickList reorderKeys oo) k = some v := by
          rw [getVal_pickList _ _ _ (by decide)]
          simp [h, hv]
        rw [bgtReorder_char oo hnd, getVal_append_some _ _ _ _ hp]
    | none =>
        have hp : getVal (pickList reorderKeys oo) k = none := by
          rw [getVal_pickList _ _ _ (by decide)]
          simp [h, hv]
        have hdrop : getVal (oo.filter (fun kv => !(reorderKeys.contains kv.1))) k =
            none := by
          refine getVal_filter_of_dropped oo _ k ?_
          intro v
          simp [List.contains, List.elem_eq_mem, h]
        rw [bgtReorder_char oo hnd, getVal_append_none _ _ _ hp, hdrop]
  · have hp : getVal (pickList reorderKeys oo) k = none := by
      rw [getVal_pickList _ _ _ (by decide)]
      simp [h]
    have hkeep : getVal (oo.filter (fun kv => !(reorderKeys.contains kv.1))) k =
        getVal oo k := by
      refine getVal_filter_of_kept oo _ k ?_
      intro v
      simp [List.contains, List.elem_eq_mem, h]
    rw [bgtReorder_char oo hnd, getVal_append_none _ _ _ hp, hkeep]

theorem hasKey_bgtReorder (oo : Rec) (hnd : (rkeys oo).Nodup) (k : String) :
    hasKey (bgtReorder oo) k = hasKey oo k := by
  simp [hasKey, getVal_bgtReorder oo hnd k]

theorem nodup_keys_bgtReorder (oo : Rec) (hnd : (rkeys oo).Nodup) :
    (rkeys (bgtReorder oo)).Nodup := by
  rw [bgtReorder_char oo hnd]
  have hmap : rkeys (pickList reorderKeys oo ++
      oo.filter (fun kv => !(reorderKeys.contains kv.1))) =
      rkeys (pickList reorderKeys oo) ++
      rkeys (oo.filter (fun kv => !(reorderKeys.contains kv.1))) := by
    simp [rkeys]
  rw [hmap, List.nodup_append]
  refine ⟨?_, nodup_keys_filter oo _ hnd, ?_⟩
  · rw [rkeys_pickList]
    exact (by decide : (reorderKeys).Nodup).filter _
  · intro a ha hb
    rw [rkeys_pickList] at ha
    have ha2 : a ∈ reorderKeys := (List.mem_filter.mp ha).1
    rcases List.mem_map.mp hb with ⟨kv, hkv, hfst⟩
    have := (List.mem_filter.mp hkv).2
    rw [hfst] at this
    simp [List.contains, List.elem_eq_mem, ha2] at this

/-- The reordering is idempotent on records with distinct keys. -/
theorem bgtReorder_idem (oo : Rec) (hnd : (rkeys oo).Nodup) :
    bgtReorder (bgtReorder oo) = bgtReorder oo := by
  rw [bgtReorder_char (bgtReorder oo) (nodup_keys_bgtReorder oo hnd)]
  have hpick : pickList reorderKeys (bgtReorder oo) = pickList reorderKeys oo :=
    pickList_congr _ _ _ (fun k _ => getVal_bgtReorder oo hnd k)
  have hfilter : (bgtReorder oo).filter (fun kv => !(reorderKeys.contains kv.1)) =
      oo.filter (fun kv => !(reorderKeys.contains kv.1)) := by
    rw [bgtReorder_char oo hnd, List.filter_append]
    have h1 : (pickList reorderKeys oo).filter
        (fun kv => !(reorderKeys.contains kv.1)) = [] := by
      rw [List.filter_eq_nil_iff]
      intro kv hm
      have : kv.1 ∈ rkeys (pickList reorderKeys oo) :=
        List.mem_map.mpr ⟨kv, hm, rfl⟩
      rw [rkeys_pickList] at this
      have := (List.mem_filter.mp this).1
      simp [List.contains, List.elem_eq_mem, this]
    have h2 : (oo.filter (fun kv => !(reorderKeys.contains kv.1))).filter
        (fun kv => !(reorderKeys.contains kv.1)) =
        oo.filter (fun kv => !(reorderKeys.contains kv.1)) := by
      rw [List.filter_eq_self]
      intro kv hm
      exact (List.mem_filter.mp hm).2
    rw [h1, h2, List.nil_append]
  rw [hpick, hfilter, bgtReorder_char oo hnd]

/-! ## Distinct keys through the canonicalizer stages -/

theorem bgtWalkStep_vdict (oo : Rec) (k : String) (nd : Rec) :
    bgtWalkStep oo (k, .vdict nd) =
      if transientKeys.contains k then oo
      else if k = "late_pays" then
        dinsert (dinsert oo "late_pays_lt2yr" (lpGetOrZero nd "last_2_years"))
          "late_pays_gt2yr" (lpGetOrZero nd "last_over_2_years")
      else if k = "collections" then
        dinsert (dinsert oo "collections_open" (getD nd "open"))
          "collections_closed" (getD nd "closed")
      else if nestedAccountKeys.contains k then
        dinsert (dinsert oo (bgtAccountPair k).1 (getD nd "count"))
          (bgtAccountPair k).2 (getD nd "amount")
      else if isPosKey k then oo
      else dinsert oo k (.vdict nd) := rfl

theorem bgtWalkStep_nondict (oo : Rec) (k : String) (v : Val)
    (h : ∀ d, v ≠ .vdict d) :
    bgtWalkStep oo (k, v) =
      if transientKeys.contains k then oo
      else if isPosKey k then oo
      else dinsert oo k v := by
  cases v <;> first | rfl | exact absurd rfl (h _)

theorem nodup_keys_bgtWalkStep (oo : Rec) (kv : String × Val)
    (h : (rkeys oo).Nodup) : (rkeys (bgtWalkStep oo kv)).Nodup := by
  rcases kv with ⟨k0, v0⟩
  by_cases hd : ∃ d, v0 = .vdict d
  · rcases hd with ⟨d, rfl⟩
    rw [bgtWalkStep_vdict]
    split_ifs <;>
      first
        | exact h
        | exact nodup_keys_dinsert _ _ _ h
        | exact nodup_keys_dinsert _ _ _ (nodup_keys_dinsert _ _ _ h)
  · rw [bgtWalkStep_nondict oo k0 v0 (fun d hd2 => hd ⟨d, hd2⟩)]
    split_ifs <;> first | exact h | exact nodup_keys_dinsert _ _ _ h

theorem nodup_keys_bgtWalk (src : Rec) : (rkeys (bgtWalk src)).Nodup := by
  unfold bgtWalk
  refine foldl_pres (fun oo => (rkeys oo).Nodup) _ ?_ src [] (by simp [rkeys])
  exact nodup_keys_bgtWalkStep

theorem nodup_keys_bgtLateDefault1 (src oo : Rec) (k : String)
    (h : (rkeys oo).Nodup) : (rkeys (bgtLateDefault1 src oo k)).Nodup := by
  unfold bgtLateDefault1
  split_ifs <;> first | exact h | exact nodup_keys_dinsert _ _ _ h

theorem nodup_keys_bgtLateDefaults (src oo : Rec) (h : (rkeys oo).Nodup) :
    (rkeys (bgtLateDefaults src oo)).Nodup := by
  unfold bgtLateDefaults
  exact nodup_keys_bgtLateDefault1 src _ _ (nodup_keys_bgtLateDefault1 src oo _ h)

theorem nodup_keys_bgtRemaining (src oo : Rec) (h : (rkeys oo).Nodup) :
    (rkeys (bgtRemaining src oo)).Nodup := by
  unfold bgtRemaining
  refine foldl_pres (fun oo => (rkeys oo).Nodup) _ ?_ src oo h
  intro oo2 kv h2
  split_ifs <;> first | exact h2 | exact nodup_keys_dinsert _ _ _ h2

theorem nodup_keys_bgtColors (src oo : Rec) (h : (rkeys oo).Nodup) :
    (rkeys (bgtColors src oo)).Nodup := by
  unfold bgtColors
  refine foldl_pres (fun oo => (rkeys oo).Nodup) _ ?_ src oo h
  intro oo2 kv h2
  split_ifs <;> first | exact h2 | exact nodup_keys_dinsert _ _ _ h2

theorem nodup_keys_bgtSpans (s : Bool) (src oo : Rec) (h : (rkeys oo).Nodup) :
    (rkeys (bgtSpans s src oo)).Nodup := by
  unfold bgtSpans
  cases s
  · simpa using h
  · simp only [if_true]
    refine foldl_pres (fun oo => (rkeys oo).Nodup) _ ?_ (rkeys oo) oo h
    intro oo2 k2 h2
    refine foldl_pres (fun oo => (rkeys oo).Nodup) _ ?_ posSuffixes oo2 h2
    intro oo3 suf h3
    split_ifs <;> first | exact h3 | exact nodup_keys_dinsert _ _ _ h3

theorem nodup_keys_bgtAliases (src oo : Rec) (h : (rkeys oo).Nodup) :
    (rkeys (bgtAliases src oo)).Nodup := by
  have step : ∀ oo2 : Rec, (rkeys oo2).Nodup →
      (rkeys (if (hasKey src "inquiries_lt6mo" && !hasKey oo2 "inquiries_lt6mo") = true
        then dinsert oo2 "inquiries_lt6mo" (getD src "inquiries_lt6mo")
        else oo2)).Nodup := by
    intro oo2 h2
    split_ifs <;> first | exact h2 | exact nodup_keys_dinsert _ _ _ h2
  have base : (rkeys (if (hasKey src "inquiries_last_6_months" &&
        !hasKey oo "inquiries_lt6mo") = true
      then dinsert oo "inquiries_lt6mo" (getD src "inquiries_last_6_months")
      else oo)).Nodup := by
    split_ifs <;> first | exact h | exact nodup_keys_dinsert _ _ _ h
  exact step _ base

/-! ## Claim C10: the late-pay buckets of the canonical record -/

theorem getVal_eq_none_of_hasKey_false (r : Rec) (k : String)
    (h : hasKey r k = false) : getVal r k = none := by
  unfold hasKey at h
  cases hv : getVal r k with
  | none => rfl
  | some v =>
      rw [hv] at h
      simp at h

/-- Under the C10 hypotheses the ordered walk never creates either flat
late-pay key. -/
theorem hasKey_bgtWalk_late_false (src : Rec) (K : String)
    (hnd : (rkeys src).Nodup)
    (hlp : ∀ d, getVal src "late_pays" ≠ some (.vdict d))
    (hK : hasKey src K = false)
    (hK1 : K = "late_pays_lt2yr" ∨ K = "late_pays_gt2yr") :
    hasKey (bgtWalk src) K = false := by
  unfold bgtWalk
  refine foldl_pres_mem (fun oo => hasKey oo K = false) _ src ?_ [] rfl
  intro oo kv hm hP
  rcases kv with ⟨k0, v0⟩
  have hkv : k0 ≠ K :=
    not_mem_of_getVal_eq_none src K (getVal_eq_none_of_hasKey_false src K hK) _ hm
  have hKne : K ≠ k0 := fun he => hkv he.symm
  by_cases hd : ∃ d, v0 = .vdict d
  · rcases hd with ⟨nd, rfl⟩
    rw [bgtWalkStep_vdict]
    split_ifs with ht h1 h2 h3 h4
    · exact hP
    · exfalso
      have hgv := getVal_of_mem_nodup src (k0, .vdict nd) hnd hm
      rw [h1] at hgv
      exact hlp nd hgv
    · have e1 : K ≠ "collections_open" := by
        rcases hK1 with h | h <;> subst h <;> decide
      have e2 : K ≠ "collections_closed" := by
        rcases hK1 with h | h <;> subst h <;> decide
      rw [hasKey_dinsert_ne _ _ _ _ e2, hasKey_dinsert_ne _ _ _ _ e1]
      exact hP
    · have hk5 : k0 ∈ nestedAccountKeys := by
        simpa [List.contains, List.elem_eq_mem] using h3
      simp only [nestedAccountKeys, List.mem_cons, List.not_mem_nil,
        or_false] at hk5
      have e1 : K ≠ (bgtAccountPair k0).1 := by
        rcases hK1 with h | h <;> subst h <;>
          rcases hk5 with h5 | h5 | h5 | h5 | h5 <;> subst h5 <;> decide
      have e2 : K ≠ (bgtAccountPair k0).2 := by
        rcases hK1 with h | h <;> subst h <;>
          rcases hk5 with h5 | h5 | h5 | h5 | h5 <;> subst h5 <;> decide
      rw [hasKey_dinsert_ne _ _ _ _ e2, hasKey_dinsert_ne _ _ _ _ e1]
      exact hP
    · exact hP
    · rw [hasKey_dinsert_ne _ _ _ _ hKne]
      exact hP
  · rw [bgtWalkStep_nondict oo k0 v0 (fun d hd2 => hd ⟨d, hd2⟩)]
    split_ifs <;>
      first
        | exact hP
        | (rw [hasKey_dinsert_ne _ _ _ _ hKne]; exact hP)

/-- With both keys still absent on both sides, the defaults stage installs
integer zeros. -/
theorem bgtLateDefaults_zero (src oo : Rec)
    (hlt : hasKey oo "late_pays_lt2yr" = false)
    (hgt : hasKey oo "late_pays_gt2yr" = false)
    (hslt : hasKey src "late_pays_lt2yr" = false)
    (hsgt : hasKey src "late_pays_gt2yr" = false) :
    getVal (bgtLateDefaults src oo) "late_pays_lt2yr" = some (.vint 0) ∧
    getVal (bgtLateDefaults src oo) "late_pays_gt2yr" = some (.vint 0) := by
  have e1 : bgtLateDefault1 src oo "late_pays_lt2yr" =
      dinsert oo "late_pays_lt2yr" (.vint 0) := by
    unfold bgtLateDefault1
    rw [if_neg (by simp [hlt]), if_neg (by simp [hslt])]
  have hgt2 : hasKey (dinsert oo "late_pays_lt2yr" (Val.vint 0))
      "late_pays_gt2yr" = false := by
    rw [hasKey_dinsert_ne _ _ _ _ (by decide)]
    exact hgt
  have e2 : bgtLateDefaults src oo =
      dinsert (dinsert oo "late_pays_lt2yr" (.vint 0)) "late_pays_gt2yr" (.vint 0) := by
    unfold bgtLateDefaults
    rw [e1]
    unfold bgtLateDefault1
    rw [if_neg (by simp [hgt2]), if_neg (by simp [hsgt])]
  rw [e2]
  constructor
  · rw [getVal_dinsert_ne _ _ _ _ (by decide)]
    exact getVal_dinsert_self oo _ _
  · exact getVal_dinsert_self _ _ _

theorem hasKey_bgtLateDefault1_self (src oo : Rec) (k : String) :
    hasKey (bgtLateDefault1 src oo k) k = true := by
  unfold bgtLateDefault1
  by_cases h1 : hasKey oo k = true
  · rw [if_pos h1]
    exact h1
  · rw [if_neg h1]
    simp [hasKey, getVal_dinsert_self]

theorem hasKey_bgtLateDefault1_of_present (src oo : Rec) (k2 k : String)
    (h : hasKey oo k = true) : hasKey (bgtLateDefault1 src oo k2) k = true := by
  rcases (hasKey_true_iff oo k).mp h with ⟨v, hv⟩
  exact (hasKey_true_iff _ k).mpr ⟨v, getVal_bgtLateDefault1_of_present src oo k2 k v hv⟩

/-- The defaults stage always leaves both flat late-pay keys present. -/
theorem bgtLateDefaults_present (src oo : Rec) :
    hasKey (bgtLateDefaults src oo) "late_pays_lt2yr" = true ∧
    hasKey (bgtLateDefaults src oo) "late_pays_gt2yr" = true := by
  unfold bgtLateDefaults
  constructor
  · exact hasKey_bgtLateDefault1_of_present src _ _ _
      (hasKey_bgtLateDefault1_self src oo _)
  · exact hasKey_bgtLateDefault1_self src _ _


/-- C10: build_text_only_gt always returns a record containing both flat
late-pay keys; and when the prepared source record has neither a nested
late_pays dict nor either flat key (and no duplicate keys), both are
defaulted to the integer 0 rather than left absent. -/
theorem late_pay_keys_always_present (r : Rec) (s : Bool) (out : Rec)
    (h : build_text_only_gt r s = .ok out) :
    (hasKey out "late_pays_lt2yr" = true ∧ hasKey out "late_pays_gt2yr" = true) ∧
    ((rkeys (bgtPrep r)).Nodup →
      (∀ d, getVal (bgtPrep r) "late_pays" ≠ some (.vdict d)) →
      hasKey (bgtPrep r) "late_pays_lt2yr" = false →
      hasKey (bgtPrep r) "late_pays_gt2yr" = false →
      getVal out "late_pays_lt2yr" = some (.vint 0) ∧
      getVal out "late_pays_gt2yr" = some (.vint 0)) := by
  simp only [build_text_only_gt] at h
  split at h
  · rw [Except.ok.injEq] at h
    subst h
    have hndW : (rkeys (bgtWalk (bgtPrep r))).Nodup := nodup_keys_bgtWalk _
    have hndD := nodup_keys_bgtLateDefaults (bgtPrep r) _ hndW
    have hndR := nodup_keys_bgtRemaining (bgtPrep r) _ hndD
    have hndC := nodup_keys_bgtColors (bgtPrep r) _ hndR
    have hndS := nodup_keys_bgtSpans s (bgtPrep r) _ hndC
    have hndA := nodup_keys_bgtAliases (bgtPrep r) _ hndS
    constructor
    · obtain ⟨p1, p2⟩ := bgtLateDefaults_present (bgtPrep r) (bgtWalk (bgtPrep r))
      obtain ⟨v1, hv1⟩ := (hasKey_true_iff _ _).mp p1
      obtain ⟨v2, hv2⟩ := (hasKey_true_iff _ _).mp p2
      have hv1A := getVal_bgtAliases_of_present (bgtPrep r) _ _ _
        (getVal_bgtSpans_of_present s (bgtPrep r) _ _ _
          (getVal_bgtColors_of_present (bgtPrep r) _ _ _
            (getVal_bgtRemaining_of_present (bgtPrep r) _ _ _ hv1)))
      have hv2A := getVal_bgtAliases_of_present (bgtPrep r) _ _ _
        (getVal_bgtSpans_of_present s (bgtPrep r) _ _ _
          (getVal_bgtColors_of_present (bgtPrep r) _ _ _
            (getVal_bgtRemaining_of_present (bgtPrep r) _ _ _ hv2)))
      constructor
      · rw [hasKey_bgtReorder _ hndA]
        exact (hasKey_true_iff _ _).mpr ⟨v1, hv1A⟩
      · rw [hasKey_bgtReorder _ hndA]
        exact (hasKey_true_iff _ _).mpr ⟨v2, hv2A⟩
    · intro hnd hlp hlt hgt
      have w1 : hasKey (bgtWalk (bgtPrep r)) "late_pays_lt2yr" = false :=
        hasKey_bgtWalk_late_false _ _ hnd hlp hlt (Or.inl rfl)
      have w2 : hasKey (bgtWalk (bgtPrep r)) "late_pays_gt2yr" = false :=
        hasKey_bgtWalk_late_false _ _ hnd hlp hgt (Or.inr rfl)
      obtain ⟨z1, z2⟩ := bgtLateDefaults_zero (bgtPrep r) _ w1 w2 hlt hgt
      have z1A := getVal_bgtAliases_of_present (bgtPrep r) _ _ _
        (getVal_bgtSpans_of_present s (bgtPrep r) _ _ _
          (getVal_bgtColors_of_present (bgtPrep r) _ _ _
            (getVal_bgtRemaining_of_present (bgtPrep r) _ _ _ z1)))
      have z2A := getVal_bgtAliases_of_present (bgtPrep r) _ _ _
        (getVal_bgtSpans_of_present s (bgtPrep r) _ _ _
          (getVal_bgtColors_of_present (bgtPrep r) _ _ _
            (getVal_bgtRemaining_of_present (bgtPrep r) _ _ _ z2)))
      constructor
      · rw [getVal_bgtReorder _ hndA]
        exact z1A
      · rw [getVal_bgtReorder _ hndA]
        exact z2A
  · exact absurd h (by simp)

/-- C10 witness: the empty raw record yields exactly the two zero defaults. -/
theorem late_pay_keys_always_present_witness :
    getVal [("late_pays_lt2yr", Val.vint 0), ("late_pays_gt2yr", Val.vint 0)]
      "late_pays_lt2yr" = some (.vint 0) ∧
    getVal [("late_pays_lt2yr", Val.vint 0), ("late_pays_gt2yr", Val.vint 0)]
      "late_pays_gt2yr" = some (.vint 0) :=
  (late_pay_keys_always_present [] false
      [("late_pays_lt2yr", Val.vint 0), ("late_pays_gt2yr", Val.vint 0)]
      (by decide)).2
    (by decide)
    (by
      intro d hc
      have hn : getVal (bgtPrep ([] : Rec)) "late_pays" = none := rfl
      rw [hn] at hc
      exact Option.noConfusion hc)
    (by decide) (by decide)


/-! ## Claim C1: positional data in the canonical record -/

/-- C1 counterexample: with include_spans = false, the canonical record of a
one-line document keeps raw page and bbox fields inside the entries of its
credit_factors list (the per-page placeholder factors are copied verbatim). -/
theorem positional_leak_counterexample :
    (match (extract_pdf_all_fields (docOfTexts ["zzz"]) 2 false false).bind
        (fun r => build_text_only_gt r false) with
     | .ok out =>
         match getVal out "credit_factors" with
         | some (.vlist fs) =>
             fs.any (fun f =>
               match f with
               | .vdict d => hasKey d "page" && hasKey d "bbox"
               | _ => false)
         | _ => false
     | .error _ => false) = true := by decide

theorem mem_dinsert (r : Rec) (k : String) (v : Val) :
    ∀ kv2 ∈ dinsert r k v, kv2 ∈ r ∨ kv2.1 = k := by
  induction r with
  | nil =>
      intro kv2 hm
      simp only [dinsert, List.mem_singleton] at hm
      right
      rw [hm]
  | cons kv t ih =>
      intro kv2 hm
      rcases kv with ⟨k1, v1⟩
      by_cases h1 : k1 = k
      · simp only [dinsert, h1, if_true] at hm
        rcases List.mem_cons.mp hm with h | h
        · right
          rw [h]
        · exact Or.inl (List.mem_cons_of_mem _ h)
      · simp only [dinsert, h1, if_false] at hm
        rcases List.mem_cons.mp hm with h | h
        · exact Or.inl (h ▸ List.mem_cons_self _ _)
        · rcases ih kv2 h with h2 | h2
          · exact Or.inl (List.mem_cons_of_mem _ h2)
          · exact Or.inr h2

theorem notPos_dinsert (r : Rec) (k : String) (v : Val)
    (hr : ∀ kv ∈ r, isPosKey kv.1 = false) (hk : isPosKey k = false) :
    ∀ kv ∈ dinsert r k v, isPosKey kv.1 = false := by
  intro kv hm
  rcases mem_dinsert r k v kv hm with h | h
  · exact hr kv h
  · rw [h]
    exact hk

theorem isPrefixOf_head_ne (a b : Char) (as t : List Char) (hne : a ≠ b) :
    List.isPrefixOf (a :: as) (b :: t) = false := by
  have hb : (a == b) = false := beq_eq_false_iff_ne.mpr hne
  simp [List.isPrefixOf, hb]

/-- A key ending in _color ends in none of the positional suffixes. -/
theorem endsw_color_not_pos (k : String) (h : endsw k "_color" = true) :
    isPosKey k = false := by
  unfold endsw at h
  cases hrev : k.data.reverse with
  | nil =>
      rw [hrev] at h
      exact absurd h (by decide)
  | cons c t =>
      rw [hrev] at h
      have hc : c = 'r' := by
        by_contra hne
        rw [show ("_color".data.reverse) = 'r' :: "oloc_".data from rfl] at h
        rw [isPrefixOf_head_ne 'r' c _ _ (fun he => hne he.symm)] at h
        exact Bool.false_ne_true h
      subst hc
      unfold isPosKey posSuffixes endsw
      rw [hrev]
      simp only [List.any_cons, List.any_nil]
      rw [show ("_bbox".data.reverse) = 'x' :: "obb_".data from rfl,
        show ("_page".data.reverse) = 'e' :: "gap_".data from rfl,
        show ("_spans".data.reverse) = 's' :: "naps_".data from rfl]
      rw [isPrefixOf_head_ne 'x' 'r' _ _ (by decide),
        isPrefixOf_head_ne 'e' 'r' _ _ (by decide),
        isPrefixOf_head_ne 's' 'r' _ _ (by decide)]
      rfl

theorem notPos_bgtWalkStep (oo : Rec) (kv : String × Val)
    (h : ∀ kv2 ∈ oo, isPosKey kv2.1 = false) :
    ∀ kv2 ∈ bgtWalkStep oo kv, isPosKey kv2.1 = false := by
  rcases kv with ⟨k0, v0⟩
  by_cases hd : ∃ d, v0 = .vdict d
  · rcases hd with ⟨nd, rfl⟩
    rw [bgtWalkStep_vdict]
    split_ifs with ht h1 h2 h3 h4
    · exact h
    · exact notPos_dinsert _ _ _
        (notPos_dinsert _ _ _ h (by decide)) (by decide)
    · exact notPos_dinsert _ _ _
        (notPos_dinsert _ _ _ h (by decide)) (by decide)
    · have hk5 : k0 ∈ nestedAccountKeys := by
        simpa [List.contains, List.elem_eq_mem] using h3
      have hp : ∀ k ∈ nestedAccountKeys,
          isPosKey (bgtAccountPair k).1 = false ∧
          isPosKey (bgtAccountPair k).2 = false := by decide
      exact notPos_dinsert _ _ _
        (notPos_dinsert _ _ _ h (hp k0 hk5).1) (hp k0 hk5).2
    · exact h
    · exact notPos_dinsert _ _ _ h (Bool.not_eq_true _ ▸ (by simpa using h4))
  · rw [bgtWalkStep_nondict oo k0 v0 (fun d hd2 => hd ⟨d, hd2⟩)]
    split_ifs with ht h4
    · exact h
    · exact h
    · exact notPos_dinsert _ _ _ h (Bool.not_eq_true _ ▸ (by simpa using h4))

theorem notPos_bgtWalk (src : Rec) :
    ∀ kv ∈ bgtWalk src, isPosKey kv.1 = false := by
  unfold bgtWalk
  refine foldl_pres (fun oo => ∀ kv ∈ oo, isPosKey kv.1 = false) _ ?_ src [] ?_
  · exact notPos_bgtWalkStep
  · intro kv hm
    exact absurd hm (List.not_mem_nil kv)

theorem notPos_bgtLateDefault1 (src oo : Rec) (k : String)
    (hk : isPosKey k = false) (h : ∀ kv ∈ oo, isPosKey kv.1 = false) :
    ∀ kv ∈ bgtLateDefault1 src oo k, isPosKey kv.1 = false := by
  unfold bgtLateDefault1
  split_ifs
  · exact h
  · exact notPos_dinsert _ _ _ h hk
  · exact notPos_dinsert _ _ _ h hk

theorem notPos_bgtLateDefaults (src oo : Rec)
    (h : ∀ kv ∈ oo, isPosKey kv.1 = false) :
    ∀ kv ∈ bgtLateDefaults src oo, isPosKey kv.1 = false := by
  unfold bgtLateDefaults
  exact notPos_bgtLateDefault1 src _ _ (by decide)
    (notPos_bgtLateDefault1 src oo _ (by decide) h)

theorem notPos_bgtRemaining (src oo : Rec)
    (h : ∀ kv ∈ oo, isPosKey kv.1 = false) :
    ∀ kv ∈ bgtRemaining src oo, isPosKey kv.1 = false := by
  unfold bgtRemaining
  refine foldl_pres (fun oo => ∀ kv ∈ oo, isPosKey kv.1 = false) _ ?_ src oo h
  intro oo2 kv h2
  split_ifs with h1 h2b h3
  · exact h2
  · exact h2
  · exact h2
  · exact notPos_dinsert _ _ _ h2 (Bool.not_eq_true _ ▸ (by simpa using h3))

theorem notPos_bgtColors (src oo : Rec)
    (h : ∀ kv ∈ oo, isPosKey kv.1 = false) :
    ∀ kv ∈ bgtColors src oo, isPosKey kv.1 = false := by
  unfold bgtColors
  refine foldl_pres (fun oo => ∀ kv ∈ oo, isPosKey kv.1 = false) _ ?_ src oo h
  intro oo2 kv h2
  split_ifs with h1
  · have h1b : endsw kv.1 "_color" = true ∧ !hasKey oo2 kv.1 = true := by
      simpa [Bool.and_eq_true] using h1
    have hcol : endsw kv.1 "_color" = true := h1b.1
    exact notPos_dinsert _ _ _ h2 (endsw_color_not_pos kv.1 hcol)
  · exact h2

theorem bgtSpans_false (src oo : Rec) : bgtSpans false src oo = oo := rfl

theorem notPos_bgtAliases (src oo : Rec)
    (h : ∀ kv ∈ oo, isPosKey kv.1 = false) :
    ∀ kv ∈ bgtAliases src oo, isPosKey kv.1 = false := by
  have step : ∀ oo2 : Rec, (∀ kv ∈ oo2, isPosKey kv.1 = false) →
      ∀ kv ∈ (if (hasKey src "inquiries_lt6mo" && !hasKey oo2 "inquiries_lt6mo") = true
        then dinsert oo2 "inquiries_lt6mo" (getD src "inquiries_lt6mo")
        else oo2), isPosKey kv.1 = false := by
    intro oo2 h2
    split_ifs
    · exact notPos_dinsert _ _ _ h2 (by decide)
    · exact h2
  have base : ∀ kv ∈ (if (hasKey src "inquiries_last_6_months" &&
        !hasKey oo "inquiries_lt6mo") = true
      then dinsert oo "inquiries_lt6mo" (getD src "inquiries_last_6_months")
      else oo), isPosKey kv.1 = false := by
    split_ifs
    · exact notPos_dinsert _ _ _ h (by decide)
    · exact h
  exact step _ base

theorem mem_pickList (ks : List String) (oo : Rec) :
    ∀ kv ∈ pickList ks oo, kv.1 ∈ ks := by
  intro kv hm
  unfold pickList at hm
  rcases List.mem_filterMap.mp hm with ⟨k, hk, hf⟩
  cases hv : getVal oo k with
  | none =>
      rw [hv] at hf
      exact Option.noConfusion hf
  | some v =>
      rw [hv] at hf
      have hf2 : (k, v) = kv := by injection hf
      rw [← hf2]
      exact hk

/-- C1 amended: with include_spans = false every top-level key of the
canonical record is free of the positional suffixes _bbox, _page and
_spans (the credit_factors entries, being whole values, are not covered). -/
theorem no_toplevel_positional_keys (r : Rec) (out : Rec)
    (h : build_text_only_gt r false = .ok out) :
    ∀ kv ∈ out, isPosKey kv.1 = false := by
  simp only [build_text_only_gt] at h
  split at h
  · rw [Except.ok.injEq] at h
    subst h
    have hndW : (rkeys (bgtWalk (bgtPrep r))).Nodup := nodup_keys_bgtWalk _
    have hndD := nodup_keys_bgtLateDefaults (bgtPrep r) _ hndW
    have hndR := nodup_keys_bgtRemaining (bgtPrep r) _ hndD
    have hndC := nodup_keys_bgtColors (bgtPrep r) _ hndR
    have hndS := nodup_keys_bgtSpans false (bgtPrep r) _ hndC
    have hndA := nodup_keys_bgtAliases (bgtPrep r) _ hndS
    have hA : ∀ kv ∈ bgtAliases (bgtPrep r) (bgtSpans false (bgtPrep r)
        (bgtColors (bgtPrep r) (bgtRemaining (bgtPrep r)
          (bgtLateDefaults (bgtPrep r) (bgtWalk (bgtPrep r)))))),
        isPosKey kv.1 = false := by
      refine notPos_bgtAliases _ _ ?_
      rw [bgtSpans_false]
      exact notPos_bgtColors _ _ (notPos_bgtRemaining _ _
        (notPos_bgtLateDefaults _ _ (notPos_bgtWalk _)))
    intro kv hm
    rw [bgtReorder_char _ hndA] at hm
    rcases List.mem_append.mp hm with hm | hm
    · have hks : kv.1 ∈ reorderKeys := mem_pickList _ _ kv hm
      have hall : ∀ k ∈ reorderKeys, isPosKey k = false := by decide
      exact hall kv.1 hks
    · exact hA kv (List.mem_filter.mp hm).1
  · exact absurd h (by simp)

/-- C1 witness: the key late_pays_lt2yr of the canonical empty-record
output carries no positional suffix. -/
theorem no_toplevel_positional_keys_witness :
    isPosKey ("late_pays_lt2yr", Val.vint 0).1 = false :=
  no_toplevel_positional_keys []
    [("late_pays_lt2yr", Val.vint 0), ("late_pays_gt2yr", Val.vint 0)]
    (by decide) ("late_pays_lt2yr", Val.vint 0) (by decide)


/-! ## Claim C3: keys each section can touch -/

theorem except_bind_ok {α β : Type} (x : Except Unit α) (f : α → Except Unit β)
    (b : β) (h : (x >>= f) = .ok b) : ∃ a, x = .ok a ∧ f a = .ok b := by
  cases x with
  | error e => exact Except.noConfusion h
  | ok a => exact ⟨a, rfl, h⟩

theorem hasKey_dinsert_self (r : Rec) (k : String) (v : Val) :
    hasKey (dinsert r k v) k = true := by
  simp [hasKey, getVal_dinsert_self]

theorem hasKey_dsetdefault_ne (r : Rec) (k : String) (v : Val) (k2 : String)
    (h : k2 ≠ k) : hasKey (dsetdefault r k v) k2 = hasKey r k2 := by
  unfold dsetdefault
  split_ifs
  · rfl
  · exact hasKey_dinsert_ne r k v k2 h

theorem hasKey_ccoSpanScan (k : String)
    (hk : ∀ k2 ∈ (["credit_card_open_totals_color", "credit_card_open_totals_bbox",
      "credit_card_open_totals_page", "credit_card_open_totals_spans"] : List String),
      k ≠ k2) :
    ∀ (ls : List Line) (r : Rec), hasKey (ccoSpanScan r ls) k = hasKey r k := by
  have h1 : k ≠ "credit_card_open_totals_color" := hk _ (by decide)
  have h2 : k ≠ "credit_card_open_totals_bbox" := hk _ (by decide)
  have h3 : k ≠ "credit_card_open_totals_page" := hk _ (by decide)
  have h4 : k ≠ "credit_card_open_totals_spans" := hk _ (by decide)
  intro ls
  induction ls with
  | nil => intro r; rfl
  | cons ln rest ih =>
      intro r
      unfold ccoSpanScan
      dsimp only
      split
      · exact ih r
      · split
        · exact ih r
        · rw [hasKey_dinsert_ne _ _ _ _ h4, hasKey_dinsert_ne _ _ _ _ h3,
            hasKey_dinsert_ne _ _ _ _ h2, hasKey_dinsert_ne _ _ _ _ h1]

theorem hasKey_ccoSection (r : Rec) (lines : List Line) (s : Bool) (k : String)
    (hk : ∀ k2 ∈ (["credit_card_open_totals", "credit_card_open_totals_color",
      "credit_card_open_totals_bbox", "credit_card_open_totals_page",
      "credit_card_open_totals_spans"] : List String), k ≠ k2) :
    hasKey (ccoSection r lines s) k = hasKey r k := by
  have h0 : k ≠ "credit_card_open_totals" := hk _ (by decide)
  unfold ccoSection
  split
  · rfl
  · dsimp only
    split_ifs
    · rw [hasKey_ccoSpanScan k (fun k2 hm => hk k2 (List.mem_cons_of_mem _ hm)),
        hasKey_dinsert_ne _ _ _ _ h0]
    · rw [hasKey_dinsert_ne _ _ _ _ h0]

theorem hasKey_monthlyColorSection (r : Rec) (lines : List Line) (s : Bool)
    (k : String) (h1 : k ≠ "monthly_payments_color")
    (h2 : k ≠ "monthly_payments_bbox") :
    hasKey (monthlyColorSection r lines s) k = hasKey r k := by
  unfold monthlyColorSection
  split_ifs
  · split
    · rfl
    · dsimp only
      split
      · rfl
      · rw [hasKey_dinsert_ne _ _ _ _ h2]
        split_ifs
        · rw [hasKey_dinsert_ne _ _ _ _ h1]
        · split
          · rw [hasKey_dinsert_ne _ _ _ _ h1]
          · rfl
  · exact hasKey_dsetdefault_ne _ _ _ _ h1

theorem hasKey_ageSection (k : String) (hk : k ≠ "age") :
    ∀ (ls : List Line) (r : Rec), hasKey (ageSection r ls) k = hasKey r k := by
  intro ls
  induction ls with
  | nil => intro r; rfl
  | cons ln rest ih =>
      intro r
      unfold ageSection
      split
      · split
        · exact hasKey_dinsert_ne _ _ _ _ hk
        · rfl
      · exact ih r

theorem hasKey_addressSection (r : Rec) (lines : List Line) (k : String)
    (hk : k ≠ "address") :
    hasKey (addressSection r lines) k = hasKey r k := by
  unfold addressSection
  dsimp only
  split_ifs
  · rfl
  · exact hasKey_dinsert_ne _ _ _ _ hk

theorem hasKey_csColorAttach (lines : List Line) (t : String) (k : String)
    (hk : ∀ k2 ∈ (["credit_score_color", "credit_score_bbox", "credit_score_page",
      "credit_score_spans"] : List String), k ≠ k2) :
    ∀ (idxs : List Nat) (r : Rec),
      hasKey (csColorAttach r lines t idxs) k = hasKey r k := by
  have hc : k ≠ "credit_score_color" := hk _ (by decide)
  have hb : k ≠ "credit_score_bbox" := hk _ (by decide)
  have hp : k ≠ "credit_score_page" := hk _ (by decide)
  have hs : k ≠ "credit_score_spans" := hk _ (by decide)
  intro idxs
  induction idxs with
  | nil => intro r; rfl
  | cons j rest ih =>
      intro r
      unfold csColorAttach
      dsimp only
      split
      · exact ih r
      · have key : ∀ (r2 : Rec) (v1 v2 v3 : Val), hasKey r2 k = hasKey r k →
            hasKey (if pyTruthy (getD r2 "credit_score_color") then
                dinsert (dinsert (dinsert r2 "credit_score_bbox" v1)
                  "credit_score_page" v2) "credit_score_spans" v3
              else csColorAttach r2 lines t rest) k = hasKey r k := by
          intro r2 v1 v2 v3 h2
          split_ifs
          · rw [hasKey_dinsert_ne _ _ _ _ hs, hasKey_dinsert_ne _ _ _ _ hp,
              hasKey_dinsert_ne _ _ _ _ hb]
            exact h2
          · rw [ih r2]
            exact h2
        refine key _ _ _ _ ?_
        split_ifs
        · exact hasKey_dinsert_ne _ _ _ _ hc
        · split
          · exact hasKey_dinsert_ne _ _ _ _ hc
          · rfl
        · rfl

theorem hasKey_csJScan (lines : List Line) (s : Bool) (k : String)
    (hk : ∀ k2 ∈ (["credit_score", "credit_score_color", "credit_score_bbox",
      "credit_score_page", "credit_score_spans"] : List String), k ≠ k2) :
    ∀ (idxs : List Nat) (r : Rec),
      hasKey (csJScan r lines s idxs) k = hasKey r k := by
  have h0 : k ≠ "credit_score" := hk _ (by decide)
  intro idxs
  induction idxs with
  | nil => intro r; rfl
  | cons j rest ih =>
      intro r
      unfold csJScan
      dsimp only
      split_ifs
      · rw [hasKey_csColorAttach lines _ k
          (fun k2 hm => hk k2 (List.mem_cons_of_mem _ hm)),
          hasKey_dinsert_ne _ _ _ _ h0]
      · rw [hasKey_dinsert_ne _ _ _ _ h0]
      · exact ih r

theorem hasKey_csIdxScan (lines : List Line) (s : Bool) (k : String)
    (hk : ∀ k2 ∈ (["credit_score", "credit_score_color", "credit_score_bbox",
      "credit_score_page", "credit_score_spans"] : List String), k ≠ k2) :
    ∀ (idxs : List Nat) (r : Rec),
      hasKey (csIdxScan r lines s idxs) k = hasKey r k := by
  intro idxs
  induction idxs with
  | nil => intro r; rfl
  | cons idx rest ih =>
      intro r
      unfold csIdxScan
      dsimp only
      split_ifs
      · exact hasKey_csJScan lines s k hk _ r
      · rw [ih _, hasKey_csJScan lines s k hk _ r]

theorem hasKey_csFallbackAttach (ln : Line) (t : String) (k : String) (r : Rec)
    (hk : ∀ k2 ∈ (["credit_score_color", "credit_score_bbox", "credit_score_page",
      "credit_score_spans"] : List String), k ≠ k2) :
    hasKey (csFallbackAttach r ln t) k = hasKey r k := by
  have hc : k ≠ "credit_score_color" := hk _ (by decide)
  have hb : k ≠ "credit_score_bbox" := hk _ (by decide)
  have hp : k ≠ "credit_score_page" := hk _ (by decide)
  have hs : k ≠ "credit_score_spans" := hk _ (by decide)
  unfold csFallbackAttach
  dsimp only
  split
  · rfl
  · have key : ∀ (r2 : Rec) (v1 v2 v3 : Val), hasKey r2 k = hasKey r k →
        hasKey (if pyTruthy (getD r2 "credit_score_color") then
            dinsert (dinsert (dinsert r2 "credit_score_bbox" v1)
              "credit_score_page" v2) "credit_score_spans" v3
          else r2) k = hasKey r k := by
      intro r2 v1 v2 v3 h2
      split_ifs
      · rw [hasKey_dinsert_ne _ _ _ _ hs, hasKey_dinsert_ne _ _ _ _ hp,
          hasKey_dinsert_ne _ _ _ _ hb]
        exact h2
      · exact h2
    refine key _ _ _ _ ?_
    split_ifs
    · exact hasKey_dinsert_ne _ _ _ _ hc
    · split
      · exact hasKey_dinsert_ne _ _ _ _ hc
      · rfl
    · rfl

theorem hasKey_csFallbackScan (s : Bool) (k : String)
    (hk : ∀ k2 ∈ (["credit_score", "credit_score_color", "credit_score_bbox",
      "credit_score_page", "credit_score_spans"] : List String), k ≠ k2) :
    ∀ (ls : List Line) (r : Rec),
      hasKey (csFallbackScan r s ls) k = hasKey r k := by
  have h0 : k ≠ "credit_score" := hk _ (by decide)
  intro ls
  induction ls with
  | nil => intro r; rfl
  | cons ln rest ih =>
      intro r
      unfold csFallbackScan
      dsimp only
      split_ifs
      · rw [hasKey_csFallbackAttach ln _ k _
          (fun k2 hm => hk k2 (List.mem_cons_of_mem _ hm)),
          hasKey_dinsert_ne _ _ _ _ h0]
      · rw [hasKey_dinsert_ne _ _ _ _ h0]
      · exact ih r

theorem hasKey_creditScoreSection (r : Rec) (lines : List Line) (s : Bool)
    (k : String)
    (hk : ∀ k2 ∈ (["credit_score", "credit_score_color", "credit_score_bbox",
      "credit_score_page", "credit_score_spans"] : List String), k ≠ k2) :
    hasKey (creditScoreSection r lines s) k = hasKey r k := by
  unfold creditScoreSection
  dsimp only
  split_ifs
  · rw [hasKey_csFallbackScan s k hk, hasKey_csIdxScan lines s k hk]
  · exact hasKey_csIdxScan lines s k hk _ r

theorem hasKey_monthlyFallbackScan (s : Bool) (k : String)
    (h1 : k ≠ "monthly_payments") (h2 : k ≠ "monthly_payments_color")
    (h3 : k ≠ "monthly_payments_bbox") :
    ∀ (ls : List Line) (r r2 : Rec), monthlyFallbackScan r s ls = .ok r2 →
      hasKey r2 k = hasKey r k := by
  intro ls
  induction ls with
  | nil =>
      intro r r2 h
      injection h with h
      subst h
      rfl
  | cons ln rest ih =>
      intro r r2 h
      unfold monthlyFallbackScan at h
      dsimp only at h
      cases hm : reSearch monthlyRe (lineText ln) with
      | none =>
          rw [hm] at h
          exact ih r r2 h
      | some m =>
          rw [hm] at h
          dsimp only at h
          cases hn : (capGroup m 1).bind intOfDigits with
          | none =>
              rw [hn] at h
              exact Except.noConfusion h
          | some n =>
              rw [hn] at h
              dsimp only at h
              split_ifs at h
              · injection h with h
                subst h
                rw [hasKey_dinsert_ne _ _ _ _ h3, hasKey_dinsert_ne _ _ _ _ h2,
                  hasKey_dinsert_ne _ _ _ _ h1]
              · injection h with h
                subst h
                exact hasKey_dinsert_ne _ _ _ _ h1

theorem hasKey_monthlyFallbackSection (r : Rec) (lines : List Line) (s : Bool)
    (k : String) (r2 : Rec) (h : monthlyFallbackSection r lines s = .ok r2)
    (h1 : k ≠ "monthly_payments") (h2 : k ≠ "monthly_payments_color")
    (h3 : k ≠ "monthly_payments_bbox") :
    hasKey r2 k = hasKey r k := by
  unfold monthlyFallbackSection at h
  split_ifs at h
  · exact hasKey_monthlyFallbackScan s k h1 h2 h3 lines r r2 h
  · injection h with h
    subst h
    rfl

theorem hasKey_boolColorInsert (r : Rec) (key : String) (p : Span) (k : String)
    (h : k ≠ key ++ "_color") :
    hasKey (boolColorInsert r key p) k = hasKey r k := by
  unfold boolColorInsert
  split_ifs
  · exact hasKey_dinsert_ne _ _ _ _ h
  · split
    · exact hasKey_dinsert_ne _ _ _ _ h
    · rfl
  · rfl

theorem hasKey_boolSpanAttach (r : Rec) (lines : List Line) (key : String)
    (fl : Line) (ci : Nat) (k : String)
    (h1 : k ≠ key ++ "_bbox") (h2 : k ≠ key ++ "_page")
    (h3 : k ≠ key ++ "_spans") (h4 : k ≠ key ++ "_color") :
    hasKey (boolSpanAttach r lines key fl ci) k = hasKey r k := by
  unfold boolSpanAttach
  split
  · dsimp only
    split
    · rw [hasKey_boolColorInsert _ _ _ _ h4, hasKey_dinsert_ne _ _ _ _ h3,
        hasKey_dinsert_ne _ _ _ _ h2, hasKey_dinsert_ne _ _ _ _ h1]
    · rw [hasKey_dinsert_ne _ _ _ _ h3, hasKey_dinsert_ne _ _ _ _ h2,
        hasKey_dinsert_ne _ _ _ _ h1]
  · dsimp only
    split_ifs
    · split
      · rw [hasKey_boolColorInsert _ _ _ _ h4, hasKey_dinsert_ne _ _ _ _ h3,
          hasKey_dinsert_ne _ _ _ _ h2, hasKey_dinsert_ne _ _ _ _ h1]
      · rw [hasKey_dinsert_ne _ _ _ _ h3, hasKey_dinsert_ne _ _ _ _ h2,
          hasKey_dinsert_ne _ _ _ _ h1]
    · rfl

theorem hasKey_boolOne (r : Rec) (lines : List Line) (s : Bool)
    (heading key : String) (k : String) (h0 : k ≠ key)
    (h1 : k ≠ key ++ "_bbox") (h2 : k ≠ key ++ "_page")
    (h3 : k ≠ key ++ "_spans") (h4 : k ≠ key ++ "_color") :
    hasKey (boolOne r lines s heading key) k = hasKey r k := by
  unfold boolOne
  split
  · rfl
  · dsimp only
    split_ifs
    · rw [hasKey_boolSpanAttach _ _ _ _ _ _ h1 h2 h3 h4,
        hasKey_dinsert_ne _ _ _ _ h0]
    · exact hasKey_dinsert_ne _ _ _ _ h0

theorem hasKey_boolSection (r : Rec) (lines : List Line) (s : Bool) (k : String)
    (hk : ∀ k2 ∈ (["credit_freeze", "credit_freeze_bbox", "credit_freeze_page",
      "credit_freeze_spans", "credit_freeze_color", "fraud_alert",
      "fraud_alert_bbox", "fraud_alert_page", "fraud_alert_spans",
      "fraud_alert_color", "deceased", "deceased_bbox", "deceased_page",
      "deceased_spans", "deceased_color"] : List String), k ≠ k2) :
    hasKey (boolSection r lines s) k = hasKey r k := by
  unfold boolSection
  rw [hasKey_boolOne _ _ _ _ _ _ (hk _ (by decide)) (hk _ (by decide))
      (hk _ (by decide)) (hk _ (by decide)) (hk _ (by decide)),
    hasKey_boolOne _ _ _ _ _ _ (hk _ (by decide)) (hk _ (by decide))
      (hk _ (by decide)) (hk _ (by decide)) (hk _ (by decide)),
    hasKey_boolOne _ _ _ _ _ _ (hk _ (by decide)) (hk _ (by decide))
      (hk _ (by decide)) (hk _ (by decide)) (hk _ (by decide))]


theorem hasKey_setCollections (r : Rec) (a b : Option Int) (k : String)
    (h1 : k ≠ "collections") (h2 : k ≠ "collections_open")
    (h3 : k ≠ "collections_closed") :
    hasKey (setCollections r a b) k = hasKey r k := by
  unfold setCollections
  dsimp only
  rw [hasKey_dinsert_ne _ _ _ _ h3, hasKey_dinsert_ne _ _ _ _ h2,
    hasKey_dinsert_ne _ _ _ _ h1]

theorem hasKey_collStep (r : Rec) (w : List Line) (k : String)
    (h1 : k ≠ "collections") (h2 : k ≠ "collections_open")
    (h3 : k ≠ "collections_closed") :
    hasKey (collStep r w) k = hasKey r k := by
  unfold collStep
  split
  · exact hasKey_setCollections r _ _ k h1 h2 h3
  · dsimp only
    split
    · rfl
    · exact hasKey_setCollections r _ _ k h1 h2 h3
    · exact hasKey_setCollections r _ _ k h1 h2 h3

theorem hasKey_collectionsSection (k : String)
    (h1 : k ≠ "collections") (h2 : k ≠ "collections_open")
    (h3 : k ≠ "collections_closed") :
    ∀ (ls : List Line) (r : Rec),
      hasKey (collectionsSection r ls) k = hasKey r k := by
  intro ls
  induction ls with
  | nil => intro r; rfl
  | cons ln rest ih =>
      intro r
      unfold collectionsSection
      dsimp only
      rw [ih _]
      split_ifs
      · exact hasKey_collStep r _ k h1 h2 h3
      · rfl

theorem hasKey_inqStep (r : Rec) (txt : String) (w : List Line) (k : String)
    (h1 : k ≠ "inquiries_last_6_months") (h2 : k ≠ "inquiries_6mo") :
    hasKey (inqStep r txt w) k = hasKey r k := by
  unfold inqStep
  dsimp only
  split_ifs
  · rw [hasKey_dinsert_ne _ _ _ _ h2, hasKey_dinsert_ne _ _ _ _ h1]
  · rfl

theorem hasKey_inquiriesSection (k : String)
    (h1 : k ≠ "inquiries_last_6_months") (h2 : k ≠ "inquiries_6mo") :
    ∀ (ls : List Line) (r : Rec),
      hasKey (inquiriesSection r ls) k = hasKey r k := by
  intro ls
  induction ls with
  | nil => intro r; rfl
  | cons ln rest ih =>
      intro r
      unfold inquiriesSection
      dsimp only
      rw [ih _]
      split_ifs
      · exact hasKey_inqStep r _ _ k h1 h2
      · rfl

theorem hasKey_lateStep (r : Rec) (w : List Line) (k : String)
    (h1 : k ≠ "late_pays") (h2 : k ≠ "late_pays_gt2yr") :
    hasKey (lateStep r w) k = hasKey r k := by
  unfold lateStep
  dsimp only
  split_ifs
  · rw [hasKey_dinsert_ne _ _ _ _ h2, hasKey_dinsert_ne _ _ _ _ h1]
  · rfl

theorem hasKey_latePaysSection (k : String)
    (h1 : k ≠ "late_pays") (h2 : k ≠ "late_pays_gt2yr") :
    ∀ (ls : List Line) (r : Rec),
      hasKey (latePaysSection r ls) k = hasKey r k := by
  intro ls
  induction ls with
  | nil => intro r; rfl
  | cons ln rest ih =>
      intro r
      unfold latePaysSection
      dsimp only
      rw [ih _]
      split_ifs
      · exact hasKey_lateStep r _ k h1 h2
      · rfl

theorem hasKey_ccoNormalizeSection (r : Rec) (k : String)
    (h1 : k ≠ "credit_card_open_totals") :
    hasKey (ccoNormalizeSection r) k = hasKey r k := by
  unfold ccoNormalizeSection
  split
  · dsimp only
    split_ifs
    · exact hasKey_dinsert_ne _ _ _ _ h1
    · exact hasKey_dinsert_ne _ _ _ _ h1
  · rfl

theorem hasKey_factorsSection (r : Rec) (lines : List Line) (k : String)
    (hk : ∀ k2 ∈ (["credit_factors", "red_credit_factors_count",
      "green_credit_factors_count", "black_credit_factors_count"] : List String),
      k ≠ k2) :
    hasKey (factorsSection r lines) k = hasKey r k := by
  unfold factorsSection
  split
  · rfl
  · dsimp only
    split_ifs
    · rfl
    · rw [hasKey_dinsert_ne _ _ _ _ (hk _ (by decide)),
        hasKey_dinsert_ne _ _ _ _ (hk _ (by decide)),
        hasKey_dinsert_ne _ _ _ _ (hk _ (by decide)),
        hasKey_dinsert_ne _ _ _ _ (hk _ (by decide))]

theorem hasKey_candidateSection (r r2 : Rec) (k : String)
    (h : candidateSection r = .ok r2) (hc : k ≠ "candidate_scores") :
    hasKey r2 k = hasKey r k := by
  unfold candidateSection at h
  rcases except_bind_ok _ _ _ h with ⟨scored, _, h2⟩
  injection h2 with h2
  subst h2
  exact hasKey_dinsert_ne _ _ _ _ hc


/-! ## Claim C3: the pair-balance invariant -/

/-- The five open-count/open-total pairs are present or absent together. -/
def accPairBalanced (r : Rec) : Prop :=
  ∀ p ∈ categoryMap,
    hasKey r (accountFlatKeys p.2).1 = hasKey r (accountFlatKeys p.2).2

theorem accPairBalanced_setAccount (r : Rec) (kv : String × String)
    (hm : kv ∈ categoryMap) (c t : Option Int) (hb : accPairBalanced r) :
    accPairBalanced (setAccount r kv.2 c t) := by
  intro q hq
  unfold setAccount
  dsimp only
  by_cases he : q.2 = kv.2
  · rw [he]
    have hne : (accountFlatKeys kv.2).1 ≠ (accountFlatKeys kv.2).2 := by
      simp only [categoryMap, List.mem_cons, List.not_mem_nil, or_false] at hm
      rcases hm with h | h | h | h | h <;> subst h <;> decide
    rw [hasKey_dinsert_ne _ _ _ _ hne, hasKey_dinsert_self, hasKey_dinsert_self]
  · simp only [categoryMap, List.mem_cons, List.not_mem_nil, or_false] at hm hq
    rcases hm with h | h | h | h | h <;> subst h <;>
      rcases hq with h2 | h2 | h2 | h2 | h2 <;> subst h2 <;>
        first
          | exact absurd rfl he
          | (rw [hasKey_dinsert_ne _ _ _ _ (by decide),
              hasKey_dinsert_ne _ _ _ _ (by decide),
              hasKey_dinsert_ne _ _ _ _ (by decide),
              hasKey_dinsert_ne _ _ _ _ (by decide),
              hasKey_dinsert_ne _ _ _ _ (by decide),
              hasKey_dinsert_ne _ _ _ _ (by decide)]
             exact hb _ (by decide))

theorem accPairBalanced_accLineStep (r : Rec) (txt : String) (w : List Line)
    (r2 : Rec) (h : accLineStep r txt w = .ok r2) (hb : accPairBalanced r) :
    accPairBalanced r2 := by
  unfold accLineStep at h
  split at h
  · injection h with h
    subst h
    exact hb
  · rename_i kv heq
    have hmem : kv ∈ categoryMap := List.mem_of_find?_eq_some heq
    split_ifs at h
    · injection h with h
      subst h
      exact accPairBalanced_setAccount r kv hmem _ _ hb
    · try dsimp only at h
      split at h
      · rcases except_bind_ok _ _ _ h with ⟨p0, hp0, h⟩
        try dsimp only at h
        split_ifs at h
        · rcases except_bind_ok _ _ _ h with ⟨p, hp, h⟩
          try dsimp only at h
          split_ifs at h
          · injection h with h
            subst h
            exact accPairBalanced_setAccount r kv hmem _ _ hb
          · injection h with h
            subst h
            exact hb
        · rcases except_bind_ok _ _ _ h with ⟨p, hp, h⟩
          try dsimp only at h
          split_ifs at h
          · injection h with h
            subst h
            exact accPairBalanced_setAccount r kv hmem _ _ hb
          · injection h with h
            subst h
            exact hb
      · rcases except_bind_ok _ _ _ h with ⟨p0, hp0, h⟩
        try dsimp only at h
        split_ifs at h
        · rcases except_bind_ok _ _ _ h with ⟨p, hp, h⟩
          try dsimp only at h
          split_ifs at h
          · injection h with h
            subst h
            exact accPairBalanced_setAccount r kv hmem _ _ hb
          · injection h with h
            subst h
            exact hb
        · rcases except_bind_ok _ _ _ h with ⟨p, hp, h⟩
          try dsimp only at h
          split_ifs at h
          · injection h with h
            subst h
            exact accPairBalanced_setAccount r kv hmem _ _ hb
          · injection h with h
            subst h
            exact hb

theorem accPairBalanced_accountSection :
    ∀ (ls : List Line) (r out : Rec), accountSection r ls = .ok out →
      accPairBalanced r → accPairBalanced out := by
  intro ls
  induction ls with
  | nil =>
      intro r out h hb
      injection h with h
      subst h
      exact hb
  | cons ln rest ih =>
      intro r out h hb
      unfold accountSection at h
      rcases except_bind_ok _ _ _ h with ⟨r1, h1, h2⟩
      exact ih r1 out h2 (accPairBalanced_accLineStep r _ _ r1 h1 hb)

/-- C3 (amended): in any successfully extracted record each category's
open-count key is present exactly when its open-total key is (they are
assigned together, though possibly with a None half), and a category label
line that itself matches the no-accounts phrasing stores the pair as
exactly (0, 0) at that step. -/
theorem account_pair_assigned_together (doc : Doc) (pl : Nat) (s c : Bool)
    (out : Rec) (h : extract_pdf_all_fields doc pl s c = .ok out) :
    (∀ p ∈ categoryMap,
      hasKey out (accountFlatKeys p.2).1 = hasKey out (accountFlatKeys p.2).2) ∧
    (∀ (r : Rec) (txt : String) (w : List Line) (r2 : Rec) (kv : String × String),
      accLineStep r txt w = .ok r2 →
      categoryMap.find? (fun q => strContains txt q.1) = some kv →
      reTest noAccRe txt = true →
      getVal r2 (accountFlatKeys kv.2).1 = some (.vint 0) ∧
      getVal r2 (accountFlatKeys kv.2).2 = some (.vint 0)) := by
  constructor
  · simp only [extract_pdf_all_fields] at h
    rcases except_bind_ok _ _ _ h with ⟨r7, h7, h⟩
    rcases except_bind_ok _ _ _ h with ⟨r9, h9, h⟩
    have hpre : ∀ p ∈ categoryMap,
        hasKey (boolSection r7 (adaptLines doc) s) (accountFlatKeys p.2).1 = false ∧
        hasKey (boolSection r7 (adaptLines doc) s) (accountFlatKeys p.2).2 = false := by
      intro p hp
      simp only [categoryMap, List.mem_cons, List.not_mem_nil, or_false] at hp
      rcases hp with h2 | h2 | h2 | h2 | h2 <;> subst h2 <;>
        constructor <;>
          (rw [hasKey_boolSection _ _ _ _ (by decide),
            hasKey_monthlyFallbackSection _ _ _ _ _ h7 (by decide) (by decide)
              (by decide),
            hasKey_creditScoreSection _ _ _ _ (by decide),
            hasKey_addressSection _ _ _ (by decide),
            hasKey_ageSection _ (by decide),
            hasKey_monthlyColorSection _ _ _ _ (by decide) (by decide),
            hasKey_ccoSection _ _ _ _ (by decide),
            hasKey_dinsert_ne _ _ _ _ (by decide)]
           rfl)
    have hb9 : accPairBalanced r9 := by
      refine accPairBalanced_accountSection _ _ _ h9 ?_
      intro p hp
      rcases hpre p hp with ⟨ha, hb2⟩
      rw [ha, hb2]
    intro q hq
    simp only [categoryMap, List.mem_cons, List.not_mem_nil, or_false] at hq
    cases c
    · injection h with h
      subst h
      rcases hq with h2 | h2 | h2 | h2 | h2 <;> subst h2 <;>
        (rw [hasKey_factorsSection _ _ _ (by decide),
          hasKey_factorsSection _ _ _ (by decide),
          hasKey_ccoNormalizeSection _ _ (by decide),
          hasKey_ccoNormalizeSection _ _ (by decide),
          hasKey_latePaysSection _ (by decide) (by decide),
          hasKey_latePaysSection _ (by decide) (by decide),
          hasKey_inquiriesSection _ (by decide) (by decide),
          hasKey_inquiriesSection _ (by decide) (by decide),
          hasKey_collectionsSection _ (by decide) (by decide) (by decide),
          hasKey_collectionsSection _ (by decide) (by decide) (by decide)]
         exact hb9 _ (by decide))
    · rcases hq with h2 | h2 | h2 | h2 | h2 <;> subst h2 <;>
        (rw [hasKey_candidateSection _ _ _ h (by decide),
          hasKey_candidateSection _ _ _ h (by decide),
          hasKey_factorsSection _ _ _ (by decide),
          hasKey_factorsSection _ _ _ (by decide),
          hasKey_ccoNormalizeSection _ _ (by decide),
          hasKey_ccoNormalizeSection _ _ (by decide),
          hasKey_latePaysSection _ (by decide) (by decide),
          hasKey_latePaysSection _ (by decide) (by decide),
          hasKey_inquiriesSection _ (by decide) (by decide),
          hasKey_inquiriesSection _ (by decide) (by decide),
          hasKey_collectionsSection _ (by decide) (by decide) (by decide),
          hasKey_collectionsSection _ (by decide) (by decide) (by decide)]
         exact hb9 _ (by decide))
  · intro r txt w r2 kv h2 hfind hno
    unfold accLineStep at h2
    split at h2
    · rename_i heq
      rw [hfind] at heq
      exact Option.noConfusion heq
    · rename_i kv2 heq
      rw [hfind] at heq
      injection heq with heq
      subst heq
      have hmem : kv ∈ categoryMap := List.mem_of_find?_eq_some hfind
      rw [if_pos hno] at h2
      injection h2 with h2
      subst h2
      unfold setAccount
      dsimp only
      have hne : (accountFlatKeys kv.2).1 ≠ (accountFlatKeys kv.2).2 := by
        simp only [categoryMap, List.mem_cons, List.not_mem_nil, or_false] at hmem
        rcases hmem with h3 | h3 | h3 | h3 | h3 <;> subst h3 <;> decide
      constructor
      · rw [getVal_dinsert_ne _ _ _ _ hne, getVal_dinsert_self]
        rfl
      · rw [getVal_dinsert_self]
        rfl

/-- C3 witness: the degraded document's record has the revolving pair keys
equally (both absent). -/
theorem account_pair_assigned_together_witness :
    hasKey [("all_lines_obj", Val.vlist []), ("credit_factors", Val.vlist []),
        ("monthly_payments_color", Val.vnull)]
      (accountFlatKeys "revolving_accounts_open").1 =
    hasKey [("all_lines_obj", Val.vlist []), ("credit_factors", Val.vlist []),
        ("monthly_payments_color", Val.vnull)]
      (accountFlatKeys "revolving_accounts_open").2 :=
  (account_pair_assigned_together Doc.bad 2 false false
      [("all_lines_obj", Val.vlist []), ("credit_factors", Val.vlist []),
       ("monthly_payments_color", Val.vnull)] (by decide)).1
    ("revolving accounts", "revolving_accounts_open") (by decide)


/-! ## Claim C4: towards idempotence of the canonicalizer -/

theorem isPrefixOf_self_append (l t : List Char) :
    List.isPrefixOf l (l ++ t) = true := by
  induction l with
  | nil => simp [List.isPrefixOf]
  | cons a as ih => simp [List.isPrefixOf, ih]

theorem endsw_append (a b : String) : endsw (a ++ b) b = true := by
  rcases a with ⟨as⟩
  rcases b with ⟨bs⟩
  show List.isPrefixOf bs.reverse (as ++ bs).reverse = true
  rw [List.reverse_append]
  exact isPrefixOf_self_append bs.reverse as.reverse

theorem ne_of_endsw_append (a : String) (suf t : String)
    (hts : endsw t suf = false) : a ++ suf ≠ t := by
  intro he
  rw [← he] at hts
  rw [endsw_append] at hts
  exact Bool.true_eq_false ▸ hts

/-- No transient key survives into the walked record. -/
theorem notTr_dinsert (r : Rec) (k : String) (v : Val)
    (hr : ∀ kv ∈ r, transientKeys.contains kv.1 = false)
    (hk : transientKeys.contains k = false) :
    ∀ kv ∈ dinsert r k v, transientKeys.contains kv.1 = false := by
  intro kv hm
  rcases mem_dinsert r k v kv hm with h | h
  · exact hr kv h
  · rw [h]
    exact hk

theorem notTr_endsw_color (k : String) (h : endsw k "_color" = true) :
    transientKeys.contains k = false := by
  by_contra hc
  have hk : k ∈ transientKeys := by
    simpa [List.contains, List.elem_eq_mem] using
      (Bool.not_eq_false _).mp hc
  simp only [transientKeys, List.mem_cons, List.not_mem_nil, or_false] at hk
  rcases hk with h2 | h2 | h2 | h2 <;> subst h2 <;> exact absurd h (by decide)

theorem notTr_bgtWalkStep (oo : Rec) (kv : String × Val)
    (h : ∀ kv2 ∈ oo, transientKeys.contains kv2.1 = false) :
    ∀ kv2 ∈ bgtWalkStep oo kv, transientKeys.contains kv2.1 = false := by
  rcases kv with ⟨k0, v0⟩
  by_cases hd : ∃ d, v0 = .vdict d
  · rcases hd with ⟨nd, rfl⟩
    rw [bgtWalkStep_vdict]
    split_ifs with ht h1 h2 h3 h4
    · exact h
    · exact notTr_dinsert _ _ _ (notTr_dinsert _ _ _ h (by decide)) (by decide)
    · exact notTr_dinsert _ _ _ (notTr_dinsert _ _ _ h (by decide)) (by decide)
    · have hk5 : k0 ∈ nestedAccountKeys := by
        simpa [List.contains, List.elem_eq_mem] using h3
      have hp : ∀ k ∈ nestedAccountKeys,
          transientKeys.contains (bgtAccountPair k).1 = false ∧
          transientKeys.contains (bgtAccountPair k).2 = false := by decide
      exact notTr_dinsert _ _ _
        (notTr_dinsert _ _ _ h (hp k0 hk5).1) (hp k0 hk5).2
    · exact h
    · exact notTr_dinsert _ _ _ h (Bool.not_eq_true _ ▸ (by simpa using ht))
  · rw [bgtWalkStep_nondict oo k0 v0 (fun d hd2 => hd ⟨d, hd2⟩)]
    split_ifs with ht h4
    · exact h
    · exact h
    · exact notTr_dinsert _ _ _ h (Bool.not_eq_true _ ▸ (by simpa using ht))

theorem notTr_bgtWalk (src : Rec) :
    ∀ kv ∈ bgtWalk src, transientKeys.contains kv.1 = false := by
  unfold bgtWalk
  refine foldl_pres (fun oo => ∀ kv ∈ oo, transientKeys.contains kv.1 = false)
    _ ?_ src [] ?_
  · exact notTr_bgtWalkStep
  · intro kv hm
    exact absurd hm (List.not_mem_nil kv)

theorem notTr_bgtLateDefault1 (src oo : Rec) (k : String)
    (hk : transientKeys.contains k = false)
    (h : ∀ kv ∈ oo, transientKeys.contains kv.1 = false) :
    ∀ kv ∈ bgtLateDefault1 src oo k, transientKeys.contains kv.1 = false := by
  unfold bgtLateDefault1
  split_ifs
  · exact h
  · exact notTr_dinsert _ _ _ h hk
  · exact notTr_dinsert _ _ _ h hk

theorem notTr_bgtLateDefaults (src oo : Rec)
    (h : ∀ kv ∈ oo, transientKeys.contains kv.1 = false) :
    ∀ kv ∈ bgtLateDefaults src oo, transientKeys.contains kv.1 = false := by
  unfold bgtLateDefaults
  exact notTr_bgtLateDefault1 src _ _ (by decide)
    (notTr_bgtLateDefault1 src oo _ (by decide) h)

theorem notTr_bgtRemaining (src oo : Rec)
    (h : ∀ kv ∈ oo, transientKeys.contains kv.1 = false) :
    ∀ kv ∈ bgtRemaining src oo, transientKeys.contains kv.1 = false := by
  unfold bgtRemaining
  refine foldl_pres (fun oo => ∀ kv ∈ oo, transientKeys.contains kv.1 = false)
    _ ?_ src oo h
  intro oo2 kv h2
  split_ifs with h1 h2b h3
  · exact h2
  · exact h2
  · exact h2
  · refine notTr_dinsert _ _ _ h2 ?_
    have : kv.1 ∈ bgtRemainingSkip → False := by
      intro hmem
      exact absurd (by simpa [List.contains, List.elem_eq_mem] using hmem) h2b
    rcases hc : transientKeys.contains kv.1 with _ | _
    · rfl
    · exfalso
      refine this ?_
      have : kv.1 ∈ transientKeys := by
        simpa [List.contains, List.elem_eq_mem] using hc
      unfold bgtRemainingSkip
      exact List.mem_append.mpr (Or.inl (List.mem_append.mpr (Or.inl
        (List.mem_append.mpr (Or.inl this)))))

theorem notTr_bgtColors (src oo : Rec)
    (h : ∀ kv ∈ oo, transientKeys.contains kv.1 = false) :
    ∀ kv ∈ bgtColors src oo, transientKeys.contains kv.1 = false := by
  unfold bgtColors
  refine foldl_pres (fun oo => ∀ kv ∈ oo, transientKeys.contains kv.1 = false)
    _ ?_ src oo h
  intro oo2 kv h2
  split_ifs with h1
  · have h1b : endsw kv.1 "_color" = true ∧ !hasKey oo2 kv.1 = true := by
      simpa [Bool.and_eq_true] using h1
    exact notTr_dinsert _ _ _ h2 (notTr_endsw_color kv.1 h1b.1)
  · exact h2

theorem notTr_pos_suffixed (k : String) (suf : String) (hs : suf ∈ posSuffixes) :
    transientKeys.contains (k ++ suf) = false := by
  have hall : ∀ t ∈ transientKeys, ∀ s2 ∈ posSuffixes, endsw t s2 = false := by
    decide
  rcases hc : transientKeys.contains (k ++ suf) with _ | _
  · rfl
  · exfalso
    have hmem : k ++ suf ∈ transientKeys := by
      simpa [List.contains, List.elem_eq_mem] using hc
    exact ne_of_endsw_append k suf _ (hall _ hmem suf hs) rfl

theorem notTr_bgtSpans (s : Bool) (src oo : Rec)
    (h : ∀ kv ∈ oo, transientKeys.contains kv.1 = false) :
    ∀ kv ∈ bgtSpans s src oo, transientKeys.contains kv.1 = false := by
  unfold bgtSpans
  cases s
  · simpa using h
  · simp only [if_true]
    refine foldl_pres (fun oo => ∀ kv ∈ oo, transientKeys.contains kv.1 = false)
      _ ?_ (rkeys oo) oo h
    intro oo2 k2 h2
    refine foldl_pres_mem (fun oo => ∀ kv ∈ oo, transientKeys.contains kv.1 = false)
      _ posSuffixes ?_ oo2 h2
    intro oo3 suf hsm h3
    dsimp only
    split_ifs
    · exact notTr_dinsert _ _ _ h3 (notTr_pos_suffixed k2 suf hsm)
    · exact h3

theorem notTr_bgtAliases (src oo : Rec)
    (h : ∀ kv ∈ oo, transientKeys.contains kv.1 = false) :
    ∀ kv ∈ bgtAliases src oo, transientKeys.contains kv.1 = false := by
  have step : ∀ oo2 : Rec, (∀ kv ∈ oo2, transientKeys.contains kv.1 = false) →
      ∀ kv ∈ (if (hasKey src "inquiries_lt6mo" && !hasKey oo2 "inquiries_lt6mo") = true
        then dinsert oo2 "inquiries_lt6mo" (getD src "inquiries_lt6mo")
        else oo2), transientKeys.contains kv.1 = false := by
    intro oo2 h2
    split_ifs
    · exact notTr_dinsert _ _ _ h2 (by decide)
    · exact h2
  have base : ∀ kv ∈ (if (hasKey src "inquiries_last_6_months" &&
        !hasKey oo "inquiries_lt6mo") = true
      then dinsert oo "inquiries_lt6mo" (getD src "inquiries_last_6_months")
      else oo), transientKeys.contains kv.1 = false := by
    split_ifs
    · exact notTr_dinsert _ _ _ h (by decide)
    · exact h
  exact step _ base


/-- The keys the walk treats specially when dict-valued. -/
def specialKeys : List String := "late_pays" :: "collections" :: nestedAccountKeys

/-- No dict value sits at a special key. -/
def noDictAt (K : String) (oo : Rec) : Prop :=
  ∀ d, getVal oo K ≠ some (.vdict d)

theorem getVal_bgtLateDefault1_ne (src oo : Rec) (k K : String) (hne : K ≠ k) :
    getVal (bgtLateDefault1 src oo k) K = getVal oo K := by
  unfold bgtLateDefault1
  split_ifs
  · rfl
  · exact getVal_dinsert_ne _ _ _ _ hne
  · exact getVal_dinsert_ne _ _ _ _ hne

theorem noDictAt_bgtWalkStep (K : String) (hK : K ∈ specialKeys)
    (oo : Rec) (kv : String × Val) (h : noDictAt K oo) :
    noDictAt K (bgtWalkStep oo kv) := by
  have hlt : ("late_pays_lt2yr" : String) ≠ K := by
    simp only [specialKeys, nestedAccountKeys, List.mem_cons,
      List.not_mem_nil, or_false] at hK
    rcases hK with h2|h2|h2|h2|h2|h2|h2 <;> subst h2 <;> decide
  have hgt : ("late_pays_gt2yr" : String) ≠ K := by
    simp only [specialKeys, nestedAccountKeys, List.mem_cons,
      List.not_mem_nil, or_false] at hK
    rcases hK with h2|h2|h2|h2|h2|h2|h2 <;> subst h2 <;> decide
  have hco : ("collections_open" : String) ≠ K := by
    simp only [specialKeys, nestedAccountKeys, List.mem_cons,
      List.not_mem_nil, or_false] at hK
    rcases hK with h2|h2|h2|h2|h2|h2|h2 <;> subst h2 <;> decide
  have hcc : ("collections_closed" : String) ≠ K := by
    simp only [specialKeys, nestedAccountKeys, List.mem_cons,
      List.not_mem_nil, or_false] at hK
    rcases hK with h2|h2|h2|h2|h2|h2|h2 <;> subst h2 <;> decide
  have hpair : ∀ k ∈ nestedAccountKeys,
      (bgtAccountPair k).1 ≠ K ∧ (bgtAccountPair k).2 ≠ K := by
    intro k hk
    simp only [specialKeys, nestedAccountKeys, List.mem_cons,
      List.not_mem_nil, or_false] at hK hk
    rcases hK with h2|h2|h2|h2|h2|h2|h2 <;> subst h2 <;>
      rcases hk with h3|h3|h3|h3|h3 <;> subst h3 <;> exact ⟨by decide, by decide⟩
  rcases kv with ⟨k0, v0⟩
  by_cases hd : ∃ d, v0 = .vdict d
  · rcases hd with ⟨nd, rfl⟩
    rw [bgtWalkStep_vdict]
    intro d
    split_ifs with ht h1 h2 h3 h4
    · exact h d
    · rw [getVal_dinsert_ne _ _ _ _ (fun he => hgt he.symm),
        getVal_dinsert_ne _ _ _ _ (fun he => hlt he.symm)]
      exact h d
    · rw [getVal_dinsert_ne _ _ _ _ (fun he => hcc he.symm),
        getVal_dinsert_ne _ _ _ _ (fun he => hco he.symm)]
      exact h d
    · have hk5 : k0 ∈ nestedAccountKeys := by
        simpa [List.contains, List.elem_eq_mem] using h3
      rw [getVal_dinsert_ne _ _ _ _ (fun he => (hpair k0 hk5).2 he.symm),
        getVal_dinsert_ne _ _ _ _ (fun he => (hpair k0 hk5).1 he.symm)]
      exact h d
    · exact h d
    · have hne : K ≠ k0 := by
        intro he
        subst he
        simp only [specialKeys, nestedAccountKeys, List.mem_cons,
          List.not_mem_nil, or_false] at hK
        rcases hK with h5|h5|h5|h5|h5|h5|h5 <;> subst h5 <;>
          first
            | exact h1 rfl
            | exact h2 rfl
            | exact h3 (by decide)
      rw [getVal_dinsert_ne _ _ _ _ hne]
      exact h d
  · rw [bgtWalkStep_nondict oo k0 v0 (fun d hd2 => hd ⟨d, hd2⟩)]
    intro d
    split_ifs with ht h4
    · exact h d
    · exact h d
    · by_cases he : K = k0
      · subst he
        rw [getVal_dinsert_self]
        intro hc
        injection hc with hc
        exact hd ⟨d, hc⟩
      · rw [getVal_dinsert_ne _ _ _ _ he]
        exact h d

theorem noDictAt_bgtWalk (K : String) (hK : K ∈ specialKeys) (src : Rec) :
    noDictAt K (bgtWalk src) := by
  unfold bgtWalk
  refine foldl_pres (noDictAt K) _ ?_ src [] ?_
  · intro oo kv h
    exact noDictAt_bgtWalkStep K hK oo kv h
  · intro d hc
    exact Option.noConfusion hc

theorem noDictAt_bgtLateDefaults (K : String) (hK : K ∈ specialKeys)
    (src oo : Rec) (h : noDictAt K oo) : noDictAt K (bgtLateDefaults src oo) := by
  have hlt : K ≠ "late_pays_lt2yr" := by
    simp only [specialKeys, nestedAccountKeys, List.mem_cons,
      List.not_mem_nil, or_false] at hK
    rcases hK with h2|h2|h2|h2|h2|h2|h2 <;> subst h2 <;> decide
  have hgt : K ≠ "late_pays_gt2yr" := by
    simp only [specialKeys, nestedAccountKeys, List.mem_cons,
      List.not_mem_nil, or_false] at hK
    rcases hK with h2|h2|h2|h2|h2|h2|h2 <;> subst h2 <;> decide
  intro d
  unfold bgtLateDefaults
  rw [getVal_bgtLateDefault1_ne _ _ _ _ hgt, getVal_bgtLateDefault1_ne _ _ _ _ hlt]
  exact h d

theorem noDictAt_bgtRemaining (K : String) (hK : K ∈ specialKeys)
    (src oo : Rec) (h : noDictAt K oo) : noDictAt K (bgtRemaining src oo) := by
  have hskip : bgtRemainingSkip.contains K = true := by
    simp only [specialKeys, nestedAccountKeys, List.mem_cons,
      List.not_mem_nil, or_false] at hK
    rcases hK with h2|h2|h2|h2|h2|h2|h2 <;> subst h2 <;> decide
  unfold bgtRemaining
  refine foldl_pres (noDictAt K) _ ?_ src oo h
  intro oo2 kv h2
  intro d
  split_ifs with h1 h2b h3
  · exact h2 d
  · exact h2 d
  · exact h2 d
  · have hne : K ≠ kv.1 := by
      intro he
      subst he
      exact h2b hskip
    rw [getVal_dinsert_ne _ _ _ _ hne]
    exact h2 d

theorem noDictAt_bgtColors (K : String) (hK : K ∈ specialKeys)
    (src oo : Rec) (h : noDictAt K oo) : noDictAt K (bgtColors src oo) := by
  have hcol : endsw K "_color" = false := by
    simp only [specialKeys, nestedAccountKeys, List.mem_cons,
      List.not_mem_nil, or_false] at hK
    rcases hK with h2|h2|h2|h2|h2|h2|h2 <;> subst h2 <;> decide
  unfold bgtColors
  refine foldl_pres (noDictAt K) _ ?_ src oo h
  intro oo2 kv h2
  intro d
  split_ifs with h1
  · have h1b : endsw kv.1 "_color" = true ∧ !hasKey oo2 kv.1 = true := by
      simpa [Bool.and_eq_true] using h1
    have hne : K ≠ kv.1 := by
      intro he
      rw [← he] at h1b
      rw [hcol] at h1b
      exact Bool.false_ne_true h1b.1
    rw [getVal_dinsert_ne _ _ _ _ hne]
    exact h2 d
  · exact h2 d

theorem noDictAt_bgtSpans (K : String) (hK : K ∈ specialKeys)
    (s : Bool) (src oo : Rec) (h : noDictAt K oo) :
    noDictAt K (bgtSpans s src oo) := by
  have hsuf : ∀ suf ∈ posSuffixes, endsw K suf = false := by
    simp only [specialKeys, nestedAccountKeys, List.mem_cons,
      List.not_mem_nil, or_false] at hK
    rcases hK with h2|h2|h2|h2|h2|h2|h2 <;> subst h2 <;> decide
  unfold bgtSpans
  cases s
  · simpa using h
  · simp only [if_true]
    refine foldl_pres (noDictAt K) _ ?_ (rkeys oo) oo h
    intro oo2 k2 h2
    refine foldl_pres_mem (noDictAt K) _ posSuffixes ?_ oo2 h2
    intro oo3 suf hsm h3
    intro d
    split_ifs
    · have hne : K ≠ k2 ++ suf :=
        fun he => ne_of_endsw_append k2 suf K (hsuf suf hsm) he.symm
      rw [getVal_dinsert_ne _ _ _ _ hne]
      exact h3 d
    · exact h3 d

theorem noDictAt_bgtAliases (K : String) (hK : K ∈ specialKeys)
    (src oo : Rec) (h : noDictAt K oo) : noDictAt K (bgtAliases src oo) := by
  have hne : K ≠ "inquiries_lt6mo" := by
    simp only [specialKeys, nestedAccountKeys, List.mem_cons,
      List.not_mem_nil, or_false] at hK
    rcases hK with h2|h2|h2|h2|h2|h2|h2 <;> subst h2 <;> decide
  have step : ∀ oo2 : Rec, noDictAt K oo2 →
      noDictAt K (if (hasKey src "inquiries_lt6mo" &&
          !hasKey oo2 "inquiries_lt6mo") = true
        then dinsert oo2 "inquiries_lt6mo" (getD src "inquiries_lt6mo")
        else oo2) := by
    intro oo2 h2
    intro d
    split_ifs
    · rw [getVal_dinsert_ne _ _ _ _ hne]
      exact h2 d
    · exact h2 d
  have base : noDictAt K (if (hasKey src "inquiries_last_6_months" &&
        !hasKey oo "inquiries_lt6mo") = true
      then dinsert oo "inquiries_lt6mo" (getD src "inquiries_last_6_months")
      else oo) := by
    intro d
    split_ifs
    · rw [getVal_dinsert_ne _ _ _ _ hne]
      exact h d
    · exact h d
  exact step _ base


theorem getVal_some_mem (r : Rec) (k : String) (v : Val)
    (h : getVal r k = some v) : (k, v) ∈ r := by
  induction r with
  | nil => exact Option.noConfusion h
  | cons kv t ih =>
      rcases kv with ⟨k1, v1⟩
      by_cases h1 : k1 = k
      · subst h1
        have hv : v1 = v := by
          have h2 := h
          simp [getVal] at h2
          exact h2
        subst hv
        exact List.mem_cons_self _ _
      · simp only [getVal, if_neg h1] at h
        exact List.mem_cons_of_mem _ (ih h)

theorem isPosKey_append (k suf : String) (h : suf ∈ posSuffixes) :
    isPosKey (k ++ suf) = true := by
  unfold isPosKey
  exact List.any_eq_true.mpr ⟨suf, h, endsw_append k suf⟩

theorem hasKey_cons_false (k1 : String) (v1 : Val) (t : Rec) (k : String)
    (h : hasKey ((k1, v1) :: t) k = false) : k1 ≠ k ∧ hasKey t k = false := by
  by_cases h1 : k1 = k
  · subst h1
    simp [hasKey, getVal] at h
  · constructor
    · exact h1
    · simpa [hasKey, getVal, h1] using h

theorem dinsert_append (r : Rec) (k : String) (v : Val)
    (h : hasKey r k = false) : dinsert r k v = r ++ [(k, v)] := by
  induction r with
  | nil => rfl
  | cons kv t ih =>
      rcases kv with ⟨k1, v1⟩
      rcases hasKey_cons_false k1 v1 t k h with ⟨h1, h2⟩
      simp [dinsert, h1, ih h2]

/-- The walk copies a record verbatim when nothing triggers a transform. -/
theorem walk_copy : ∀ (l : List (String × Val)) (acc : Rec),
    (∀ kv ∈ l, transientKeys.contains kv.1 = false ∧ isPosKey kv.1 = false ∧
      ∀ d, kv.2 = Val.vdict d → (kv.1 ≠ "late_pays" ∧ kv.1 ≠ "collections" ∧
        nestedAccountKeys.contains kv.1 = false)) →
    (∀ kv ∈ l, hasKey acc kv.1 = false) →
    (rkeys l).Nodup →
    l.foldl bgtWalkStep acc = acc ++ l := by
  intro l
  induction l with
  | nil =>
      intro acc _ _ _
      simp
  | cons kv t ih =>
      intro acc hc hdis hnd
      rcases kv with ⟨k0, v0⟩
      obtain ⟨ht0, hp0, hd0⟩ := hc _ (List.mem_cons_self _ _)
      have hstep : bgtWalkStep acc (k0, v0) = dinsert acc k0 v0 := by
        by_cases hd : ∃ d, v0 = .vdict d
        · rcases hd with ⟨nd, rfl⟩
          obtain ⟨hl, hcl, hn⟩ := hd0 nd rfl
          rw [bgtWalkStep_vdict, if_neg (by simpa using ht0), if_neg hl,
            if_neg hcl, if_neg (by simpa using hn), if_neg (by simpa using hp0)]
        · rw [bgtWalkStep_nondict acc k0 v0 (fun d hd2 => hd ⟨d, hd2⟩),
            if_neg (by simpa using ht0), if_neg (by simpa using hp0)]
      have hk0 : hasKey acc k0 = false := hdis _ (List.mem_cons_self _ _)
      simp only [rkeys, List.map_cons, List.nodup_cons] at hnd
      rw [List.foldl_cons, hstep, dinsert_append acc k0 v0 hk0]
      rw [ih (acc ++ [(k0, v0)])
        (fun kv2 hm => hc kv2 (List.mem_cons_of_mem _ hm))
        ?_ hnd.2]
      · rw [List.append_assoc]
        rfl
      · intro kv2 hm
        have hne : k0 ≠ kv2.1 := by
          intro he
          exact hnd.1 (he ▸ List.mem_map.mpr ⟨kv2, hm, rfl⟩)
        have hacc : hasKey acc kv2.1 = false := hdis _ (List.mem_cons_of_mem _ hm)
        have hg : getVal acc kv2.1 = none :=
          getVal_eq_none_of_hasKey_false _ _ hacc
        unfold hasKey
        rw [getVal_append_none _ _ _ hg]
        simp [getVal, hne]

theorem bgtLateDefault1_noop (src oo : Rec) (k : String)
    (h : hasKey oo k = true) : bgtLateDefault1 src oo k = oo := by
  unfold bgtLateDefault1
  rw [if_pos h]

theorem bgtRemaining_self_noop (src oo : Rec)
    (h : ∀ kv ∈ src, hasKey oo kv.1 = true) : bgtRemaining src oo = oo := by
  unfold bgtRemaining
  refine foldl_pres_mem (fun x => x = oo) _ src ?_ oo rfl
  intro oo2 kv hm h2
  subst h2
  rw [if_pos (h kv hm)]

theorem bgtColors_self_noop (src oo : Rec)
    (h : ∀ kv ∈ src, hasKey oo kv.1 = true) : bgtColors src oo = oo := by
  unfold bgtColors
  refine foldl_pres_mem (fun x => x = oo) _ src ?_ oo rfl
  intro oo2 kv hm h2
  subst h2
  rw [if_neg (by simp [h kv hm])]

theorem bgtSpans_self_noop (s : Bool) (src oo : Rec)
    (h : ∀ (k : String), ∀ suf ∈ posSuffixes, hasKey src (k ++ suf) = false) :
    bgtSpans s src oo = oo := by
  unfold bgtSpans
  cases s
  · simp
  · simp only [if_true]
    refine foldl_pres (fun x => x = oo) _ ?_ (rkeys oo) oo rfl
    intro oo2 k2 h2
    rw [h2]
    refine foldl_pres_mem (fun x => x = oo) _ posSuffixes ?_ oo rfl
    intro oo3 suf hsm h3
    rw [h3]
    rw [if_neg (by simp [h k2 suf hsm])]

theorem bgtAliases_self_noop (u : Rec)
    (h6 : hasKey u "inquiries_last_6_months" = false) : bgtAliases u u = u := by
  have step : ∀ oo2 : Rec, oo2 = u →
      (if (hasKey u "inquiries_lt6mo" && !hasKey oo2 "inquiries_lt6mo") = true
        then dinsert oo2 "inquiries_lt6mo" (getD u "inquiries_lt6mo")
        else oo2) = u := by
    intro oo2 h2
    subst h2
    rw [if_neg (by simp)]
  exact step _ (if_neg (by simp [h6]))

theorem bgtPrep_fix (u : Rec)
    (hrec : ∀ d, getVal u "rec" ≠ some (.vdict d))
    (hcs : ∀ d, getVal u "credit_score" ≠ some (.vdict d)) :
    bgtPrep u = u := by
  unfold bgtPrep
  have h1 : (match getVal u "rec" with
      | some (.vdict d) => d
      | _ => u) = u := by
    cases hv : getVal u "rec" with
    | none => rfl
    | some v =>
        cases v <;> first | rfl | exact absurd hv (hrec _)
  rw [h1]
  dsimp only
  cases hv : getVal u "credit_score" with
  | none => rfl
  | some v =>
      cases v <;> first | rfl | exact absurd hv (hcs _)


/-- The canonical credit_factors value is absent or the source's own. -/
def cfProv (src oo : Rec) : Prop :=
  getVal oo "credit_factors" = none ∨
  getVal oo "credit_factors" = getVal src "credit_factors"

theorem cfProv_dinsert_ne (src oo : Rec) (k : String) (v : Val)
    (hne : ("credit_factors" : String) ≠ k) (h : cfProv src oo) :
    cfProv src (dinsert oo k v) := by
  rcases h with h | h
  · left
    rw [getVal_dinsert_ne _ _ _ _ hne]
    exact h
  · right
    rw [getVal_dinsert_ne _ _ _ _ hne]
    exact h

theorem cfProv_dinsert_mem (src oo : Rec) (k0 : String) (v0 : Val)
    (hnd : (rkeys src).Nodup) (hm : (k0, v0) ∈ src) (h : cfProv src oo) :
    cfProv src (dinsert oo k0 v0) := by
  by_cases he : k0 = "credit_factors"
  · right
    subst he
    rw [getVal_dinsert_self]
    exact (getVal_of_mem_nodup src ("credit_factors", v0) hnd hm).symm
  · exact cfProv_dinsert_ne src oo k0 v0 (fun hh => he hh.symm) h

theorem cfProv_bgtWalkStep (src : Rec) (hnd : (rkeys src).Nodup)
    (oo : Rec) (kv : String × Val) (hm : kv ∈ src) (h : cfProv src oo) :
    cfProv src (bgtWalkStep oo kv) := by
  rcases kv with ⟨k0, v0⟩
  by_cases hd : ∃ d, v0 = .vdict d
  · rcases hd with ⟨nd, rfl⟩
    rw [bgtWalkStep_vdict]
    split_ifs with ht h1 h2 h3 h4
    · exact h
    · exact cfProv_dinsert_ne _ _ _ _ (by decide)
        (cfProv_dinsert_ne _ _ _ _ (by decide) h)
    · exact cfProv_dinsert_ne _ _ _ _ (by decide)
        (cfProv_dinsert_ne _ _ _ _ (by decide) h)
    · have hk5 : k0 ∈ nestedAccountKeys := by
        simpa [List.contains, List.elem_eq_mem] using h3
      have hp : ∀ k ∈ nestedAccountKeys,
          ("credit_factors" : String) ≠ (bgtAccountPair k).1 ∧
          ("credit_factors" : String) ≠ (bgtAccountPair k).2 := by decide
      exact cfProv_dinsert_ne _ _ _ _ (hp k0 hk5).2
        (cfProv_dinsert_ne _ _ _ _ (hp k0 hk5).1 h)
    · exact h
    · exact cfProv_dinsert_mem src oo k0 _ hnd hm h
  · rw [bgtWalkStep_nondict oo k0 v0 (fun d hd2 => hd ⟨d, hd2⟩)]
    split_ifs with ht h4
    · exact h
    · exact h
    · exact cfProv_dinsert_mem src oo k0 v0 hnd hm h

theorem cfProv_bgtWalk (src : Rec) (hnd : (rkeys src).Nodup) :
    cfProv src (bgtWalk src) := by
  unfold bgtWalk
  refine foldl_pres_mem (cfProv src) _ src ?_ [] (Or.inl rfl)
  intro oo kv hm h
  exact cfProv_bgtWalkStep src hnd oo kv hm h

theorem cfProv_bgtLateDefaults (src oo : Rec) (h : cfProv src oo) :
    cfProv src (bgtLateDefaults src oo) := by
  have hrw : getVal (bgtLateDefaults src oo) "credit_factors" =
      getVal oo "credit_factors" := by
    unfold bgtLateDefaults
    rw [getVal_bgtLateDefault1_ne _ _ _ _ (by decide),
      getVal_bgtLateDefault1_ne _ _ _ _ (by decide)]
  rcases h with h | h
  · left
    rw [hrw]
    exact h
  · right
    rw [hrw]
    exact h

theorem cfProv_bgtRemaining (src oo : Rec) (hnd : (rkeys src).Nodup)
    (h : cfProv src oo) : cfProv src (bgtRemaining src oo) := by
  unfold bgtRemaining
  refine foldl_pres_mem (cfProv src) _ src ?_ oo h
  intro oo2 kv hm h2
  split_ifs
  · exact h2
  · exact h2
  · exact h2
  · rcases kv with ⟨k0, v0⟩
    exact cfProv_dinsert_mem src oo2 k0 v0 hnd hm h2

theorem cfProv_bgtColors (src oo : Rec) (h : cfProv src oo) :
    cfProv src (bgtColors src oo) := by
  unfold bgtColors
  refine foldl_pres (cfProv src) _ ?_ src oo h
  intro oo2 kv h2
  split_ifs with h1
  · have h1b : endsw kv.1 "_color" = true ∧ !hasKey oo2 kv.1 = true := by
      simpa [Bool.and_eq_true] using h1
    have hne : ("credit_factors" : String) ≠ kv.1 := by
      intro he
      rw [← he] at h1b
      exact absurd h1b.1 (by decide)
    exact cfProv_dinsert_ne _ _ _ _ hne h2
  · exact h2

theorem cfProv_bgtSpans (s : Bool) (src oo : Rec) (h : cfProv src oo) :
    cfProv src (bgtSpans s src oo) := by
  unfold bgtSpans
  cases s
  · simpa using h
  · simp only [if_true]
    refine foldl_pres (cfProv src) _ ?_ (rkeys oo) oo h
    intro oo2 k2 h2
    refine foldl_pres_mem (cfProv src) _ posSuffixes ?_ oo2 h2
    intro oo3 suf hsm h3
    have hsf : ∀ s2 ∈ posSuffixes, endsw "credit_factors" s2 = false := by decide
    split_ifs
    · exact cfProv_dinsert_ne _ _ _ _
        (fun he => ne_of_endsw_append k2 suf _ (hsf suf hsm) he.symm) h3
    · exact h3

theorem cfProv_bgtAliases (src oo : Rec) (h : cfProv src oo) :
    cfProv src (bgtAliases src oo) := by
  have step : ∀ oo2 : Rec, cfProv src oo2 →
      cfProv src (if (hasKey src "inquiries_lt6mo" &&
          !hasKey oo2 "inquiries_lt6mo") = true
        then dinsert oo2 "inquiries_lt6mo" (getD src "inquiries_lt6mo")
        else oo2) := by
    intro oo2 h2
    split_ifs
    · exact cfProv_dinsert_ne _ _ _ _ (by decide) h2
    · exact h2
  have base : cfProv src (if (hasKey src "inquiries_last_6_months" &&
        !hasKey oo "inquiries_lt6mo") = true
      then dinsert oo "inquiries_lt6mo" (getD src "inquiries_last_6_months")
      else oo) := by
    split_ifs
    · exact cfProv_dinsert_ne _ _ _ _ (by decide) h
    · exact h
  exact step _ base

theorem cfProv_bgtReorder (src oo : Rec) (hnd : (rkeys oo).Nodup)
    (h : cfProv src oo) : cfProv src (bgtReorder oo) := by
  rcases h with h | h
  · left
    rw [getVal_bgtReorder _ hnd]
    exact h
  · right
    rw [getVal_bgtReorder _ hnd]
    exact h

theorem notTr_bgtReorder (oo : Rec) (hnd : (rkeys oo).Nodup)
    (h : ∀ kv ∈ oo, transientKeys.contains kv.1 = false) :
    ∀ kv ∈ bgtReorder oo, transientKeys.contains kv.1 = false := by
  intro kv hm
  rw [bgtReorder_char _ hnd] at hm
  rcases List.mem_append.mp hm with hm | hm
  · have hks : kv.1 ∈ reorderKeys := mem_pickList _ _ kv hm
    have hall : ∀ k ∈ reorderKeys, transientKeys.contains k = false := by decide
    exact hall kv.1 hks
  · exact h kv (List.mem_filter.mp hm).1

theorem notPos_bgtReorder (oo : Rec) (hnd : (rkeys oo).Nodup)
    (h : ∀ kv ∈ oo, isPosKey kv.1 = false) :
    ∀ kv ∈ bgtReorder oo, isPosKey kv.1 = false := by
  intro kv hm
  rw [bgtReorder_char _ hnd] at hm
  rcases List.mem_append.mp hm with hm | hm
  · have hks : kv.1 ∈ reorderKeys := mem_pickList _ _ kv hm
    have hall : ∀ k ∈ reorderKeys, isPosKey k = false := by decide
    exact hall kv.1 hks
  · exact h kv (List.mem_filter.mp hm).1


/-- C4 counterexample: a record whose credit_score dict holds a dict-valued
value field unwraps one level per pass, so two passes differ from one. -/
theorem canonicalizer_not_idempotent :
    (build_text_only_gt [("credit_score",
        Val.vdict [("value", Val.vdict [("value", Val.vint 1)])])] false).bind
      (fun o => build_text_only_gt o false) ≠
    build_text_only_gt [("credit_score",
        Val.vdict [("value", Val.vdict [("value", Val.vint 1)])])] false := by
  decide

/-- C4 (amended): the canonicalizer is idempotent on every output whose
record carries no dict-valued rec entry, no dict-valued credit_score entry
and no key with a positional suffix, for a source dict with distinct keys. -/
theorem canonicalizer_idempotent_on_stable_records (r : Rec) (s : Bool)
    (out : Rec)
    (hnd : (rkeys (bgtPrep r)).Nodup)
    (h : build_text_only_gt r s = .ok out)
    (hrec : ∀ d, getVal out "rec" ≠ some (.vdict d))
    (hcs : ∀ d, getVal out "credit_score" ≠ some (.vdict d))
    (hpos : ∀ kv ∈ out, isPosKey kv.1 = false) :
    build_text_only_gt out s = .ok out := by
  simp only [build_text_only_gt] at h
  split at h
  case isFalse => exact absurd h (by simp)
  rename_i hok
  rw [Except.ok.injEq] at h
  have hndW : (rkeys (bgtWalk (bgtPrep r))).Nodup := nodup_keys_bgtWalk _
  have hndD := nodup_keys_bgtLateDefaults (bgtPrep r) _ hndW
  have hndR := nodup_keys_bgtRemaining (bgtPrep r) _ hndD
  have hndC := nodup_keys_bgtColors (bgtPrep r) _ hndR
  have hndS := nodup_keys_bgtSpans s (bgtPrep r) _ hndC
  have hndA := nodup_keys_bgtAliases (bgtPrep r) _ hndS
  have hndOut : (rkeys out).Nodup := by
    rw [← h]
    exact nodup_keys_bgtReorder _ hndA
  have htr : ∀ kv ∈ out, transientKeys.contains kv.1 = false := by
    rw [← h]
    exact notTr_bgtReorder _ hndA
      (notTr_bgtAliases _ _ (notTr_bgtSpans s _ _ (notTr_bgtColors _ _
        (notTr_bgtRemaining _ _ (notTr_bgtLateDefaults _ _ (notTr_bgtWalk _))))))
  have hspec : ∀ K ∈ specialKeys, noDictAt K out := by
    intro K hK
    intro d
    rw [← h, getVal_bgtReorder _ hndA]
    exact noDictAt_bgtAliases K hK _ _ (noDictAt_bgtSpans K hK s _ _
      (noDictAt_bgtColors K hK _ _ (noDictAt_bgtRemaining K hK _ _
        (noDictAt_bgtLateDefaults K hK _ _ (noDictAt_bgtWalk K hK _))))) d
  have hcf : cfProv (bgtPrep r) out := by
    rw [← h]
    exact cfProv_bgtReorder _ _ hndA
      (cfProv_bgtAliases _ _ (cfProv_bgtSpans s _ _ (cfProv_bgtColors _ _
        (cfProv_bgtRemaining _ _ hnd (cfProv_bgtLateDefaults _ _
          (cfProv_bgtWalk _ hnd))))))
  have hlate : hasKey out "late_pays_lt2yr" = true ∧
      hasKey out "late_pays_gt2yr" = true := by
    obtain ⟨p1, p2⟩ := bgtLateDefaults_present (bgtPrep r) (bgtWalk (bgtPrep r))
    obtain ⟨v1, hv1⟩ := (hasKey_true_iff _ _).mp p1
    obtain ⟨v2, hv2⟩ := (hasKey_true_iff _ _).mp p2
    constructor
    · rw [← h, hasKey_bgtReorder _ hndA]
      exact (hasKey_true_iff _ _).mpr ⟨v1, getVal_bgtAliases_of_present (bgtPrep r) _ _ _
        (getVal_bgtSpans_of_present s (bgtPrep r) _ _ _
          (getVal_bgtColors_of_present (bgtPrep r) _ _ _
            (getVal_bgtRemaining_of_present (bgtPrep r) _ _ _ hv1)))⟩
    · rw [← h, hasKey_bgtReorder _ hndA]
      exact (hasKey_true_iff _ _).mpr ⟨v2, getVal_bgtAliases_of_present (bgtPrep r) _ _ _
        (getVal_bgtSpans_of_present s (bgtPrep r) _ _ _
          (getVal_bgtColors_of_present (bgtPrep r) _ _ _
            (getVal_bgtRemaining_of_present (bgtPrep r) _ _ _ hv2)))⟩
  have hprep : bgtPrep out = out := bgtPrep_fix out hrec hcs
  have hok2 : okFactorsVal (getVal out "credit_factors") = true := by
    rcases hcf with hc | hc
    · rw [hc]
      rfl
    · rw [hc]
      exact hok
  have hmemKey : ∀ kv ∈ out, hasKey out kv.1 = true := by
    intro kv hm
    exact (hasKey_true_iff _ _).mpr ⟨kv.2, getVal_of_mem_nodup out kv hndOut hm⟩
  have hw : bgtWalk out = out := by
    unfold bgtWalk
    rw [walk_copy out [] ?hcnd ?hdis hndOut]
    · rfl
    case hcnd =>
      intro kv hm
      refine ⟨htr kv hm, hpos kv hm, ?_⟩
      intro d hv
      refine ⟨?_, ?_, ?_⟩
      · intro he
        have hg := getVal_of_mem_nodup out kv hndOut hm
        rw [he, hv] at hg
        exact hspec "late_pays" (by decide) d hg
      · intro he
        have hg := getVal_of_mem_nodup out kv hndOut hm
        rw [he, hv] at hg
        exact hspec "collections" (by decide) d hg
      · rcases hc : nestedAccountKeys.contains kv.1 with _ | _
        · rfl
        · exfalso
          have hk5 : kv.1 ∈ nestedAccountKeys := by
            simpa [List.contains, List.elem_eq_mem] using hc
          have hg := getVal_of_mem_nodup out kv hndOut hm
          rw [hv] at hg
          exact hspec kv.1
            (List.mem_cons_of_mem _ (List.mem_cons_of_mem _ hk5)) d hg
    case hdis =>
      intro kv hm
      rfl
  have hd : bgtLateDefaults out out = out := by
    unfold bgtLateDefaults
    rw [bgtLateDefault1_noop out out _ hlate.1, bgtLateDefault1_noop out out _ hlate.2]
  have hr2 : bgtRemaining out out = out :=
    bgtRemaining_self_noop out out hmemKey
  have hc2 : bgtColors out out = out :=
    bgtColors_self_noop out out hmemKey
  have hs2 : bgtSpans s out out = out := by
    refine bgtSpans_self_noop s out out ?_
    intro k suf hsm
    rcases hb : hasKey out (k ++ suf) with _ | _
    · rfl
    · exfalso
      obtain ⟨v, hv⟩ := (hasKey_true_iff _ _).mp hb
      have hmem := getVal_some_mem out _ v hv
      have := hpos _ hmem
      rw [isPosKey_append k suf hsm] at this
      exact Bool.true_eq_false ▸ this
  have ha : bgtAliases out out = out := by
    refine bgtAliases_self_noop out ?_
    rcases hb : hasKey out "inquiries_last_6_months" with _ | _
    · rfl
    · exfalso
      obtain ⟨v, hv⟩ := (hasKey_true_iff _ _).mp hb
      have hmem := getVal_some_mem out _ v hv
      have h2 : transientKeys.contains "inquiries_last_6_months" = false :=
        htr _ hmem
      exact absurd h2 (by decide)
  simp only [build_text_only_gt, hprep]
  rw [if_pos hok2, hw, hd, hr2, hc2, hs2, ha, ← h,
    bgtReorder_idem _ hndA]

/-- C4 witness: the canonical empty-record output is a fixed point. -/
theorem canonicalizer_idempotent_on_stable_records_witness :
    build_text_only_gt
      [("late_pays_lt2yr", Val.vint 0), ("late_pays_gt2yr", Val.vint 0)] false =
    .ok [("late_pays_lt2yr", Val.vint 0), ("late_pays_gt2yr", Val.vint 0)] :=
  canonicalizer_idempotent_on_stable_records [] false
    [("late_pays_lt2yr", Val.vint 0), ("late_pays_gt2yr", Val.vint 0)]
    (by decide) (by decide)
    (fun d hc => Option.noConfusion hc)
    (fun d hc => Option.noConfusion hc)
    (by decide)

end PdfExtract
